import Mathlib

/-!
# Verification of the Excalibur Wave Function Collapse core

This file gives a shallow embedding, in Lean 4, of the wave-function-collapse
tile-grid generator (the `WFC` class, its `Random` linear-congruential
generator, and the surrounding buffer-state machine), and proves or refutes
the specified properties of that code.

Modelling conventions:
* JS numbers used as entropies are naturals extended with `Infinity`,
  modelled by `ℕ∞`.
* A JS value that may be `undefined` is modelled by `Option`.
* `Math.floor(r * n)` for `r = s / 2^32` is the natural-number division
  `s * n / 2^32`, which is exact for naturals `s < 2^32`.
* Mutation of the tile buffer is explicit state passing; a JS method that can
  throw returns an `Except` paired with the state at the moment of the
  throw (mutations before a throw persist in JS and are observed by callers
  that catch).
* JS property access on `undefined` (out-of-range array reads, rule lookups
  for unregistered types) is modelled by a dedicated error value.
-/

namespace WfcModel

/-- Entropy values: naturals or JS `Infinity`. -/
abbrev Entropy := ℕ∞

/-- The per-cell record of the tile buffer (source type `TileData`). -/
structure TileData where
  index : Option Nat := none
  type : Option String := none
  entropy : Entropy := ⊤
  availableTiles : List String := []
deriving DecidableEq

instance : Inhabited TileData := ⟨{}⟩

/-- Directional adjacency rule for one tile type (source type `Rule`). -/
structure Rule where
  up : List String := []
  down : List String := []
  left : List String := []
  right : List String := []
deriving DecidableEq, Repr

/-- The buffer state machine of the source (`enum BufferState`). -/
inductive BufferState where
  | collapsed
  | ready
  | collapsing
  | unknown
  | defaults
deriving DecidableEq, Repr

/-- The four axis directions used by the neighbour scans. -/
inductive Dir where
  | up
  | down
  | left
  | right
deriving DecidableEq, Repr

/-- The opposite of a direction. -/
def Dir.opposite : Dir → Dir
  | .up => .down
  | .down => .up
  | .left => .right
  | .right => .left

/-- The list a rule holds for a given direction. -/
def Rule.dirList (r : Rule) : Dir → List String
  | .up => r.up
  | .down => r.down
  | .left => r.left
  | .right => r.right

/-- The error values the embedded code can raise.
`jsTypeAccess` stands for the JS `TypeError` raised when a property is read
off `undefined` (out-of-range tile access or a rule lookup for an
unregistered type). -/
inductive WfcErr where
  /-- "tile data is invalid currently in this state ..." -/
  | notReady (st : BufferState)
  /-- "Error choosing initial starting tile ..." -/
  | startTile
  /-- "invalid tile type found" inside `_getEntropy` -/
  | invalidTileType
  /-- JS `TypeError` from reading a property of `undefined` -/
  | jsTypeAccess
  /-- "Broken Plot, no availble neighbor tiles" (empty intersection) -/
  | brokenPlot
  /-- "broken level, can't get entropy of ... tile" wrapper in propagation -/
  | brokenLevel (d : Dir)
  /-- "WFC ERROR: no valid tiles remaining" (empty frontier / no retries) -/
  | noValidTiles
  /-- "WFC ERROR: there are no valid tiles remaining" (empty candidate set) -/
  | emptyCandidates
  /-- "WFC ERROR: unable to select next tile ..." -/
  | unableToSelect
  /-- "WFC ERROR: failed to collapse tile" -/
  | failedToCollapse
  /-- "WFC ERROR: corrupt tile data, invalid undefined type found" -/
  | corruptTileData
  /-- rethrown error from `_prepareTileDataForCollapsing` -/
  | prepareFailed
  /-- fuel exhaustion of the modelled driver loop (unreachable in real runs) -/
  | outOfFuel
deriving DecidableEq, Repr

/-- The full mutable state of a `WFC` instance.  `rules` and `weighting` are
insertion-ordered association lists, mirroring JS object key order; `seed` is
the internal state of the `Random` member. -/
structure WFCState where
  width : Nat
  height : Nat
  numTiles : Nat
  tiles : List TileData
  rules : List (String × Rule)
  weighting : List (String × Nat)
  seed : Nat
  bufferstate : BufferState
  startWithRandom : Bool
deriving DecidableEq

/-- Decidable equality of `Except` results, for evaluating concrete runs. -/
instance {e a : Type} [DecidableEq e] [DecidableEq a] : DecidableEq (Except e a) := fun x y =>
  match x, y with
  | .ok u, .ok v =>
    if h : u = v then .isTrue (by rw [h]) else .isFalse (by simp [h])
  | .error u, .error v =>
    if h : u = v then .isTrue (by rw [h]) else .isFalse (by simp [h])
  | .ok _, .error _ => .isFalse (by simp)
  | .error _, .ok _ => .isFalse (by simp)

/-! ## The `Random` class -/

/-- LCG multiplier `a`. -/
def lcgA : Nat := 1664525

/-- LCG increment `c`. -/
def lcgC : Nat := 1013904223

/-- LCG modulus `m = 2^32`. -/
def lcgM : Nat := 2 ^ 32

/-- `getRandom` updates `seed := (a*seed + c) % m`; the JS float returned is
`seed' / m`, which this model keeps in the exact form `seed'`. -/
def getRandom (s : Nat) : Nat := (lcgA * s + lcgC) % lcgM

/-- `Math.floor((s / m) * n)` for the raw LCG output `s`. -/
def floorScale (s n : Nat) : Nat := s * n / lcgM

/-- `Random.pickOne(set)`: draws one value, takes
`set[Math.floor(rnd * set.length)]`; JS yields `undefined` (here `none`) on
an empty array.  Returns the chosen element and the new seed. -/
def pickOne (s : Nat) (xs : List α) : Option α × Nat :=
  let s2 := getRandom s
  (xs.get? (floorScale s2 xs.length), s2)

/-- The weighted expansion of `Random.pickOneWeighted`: an item with no
weight entry is pushed once, an item with weight `k` is pushed `k` times
(so weight `0` drops the item). -/
def expandWeighted (wt : List (String × Nat)) (set : List String) : List String :=
  set.flatMap fun item =>
    match wt.lookup item with
    | none => [item]
    | some k => List.replicate k item

/-- `Random.pickOneWeighted(set, weighting)`: a uniform pick over the
weighted expansion. -/
def pickOneWeighted (s : Nat) (set : List String) (wt : List (String × Nat)) :
    Option String × Nat :=
  pickOne s (expandWeighted wt set)

/-! ## Construction and simple buffer operations -/

/-- Construction options (source `WFCoptions`): level size and optional seed. -/
structure WFCoptions where
  width : Nat
  height : Nat
  seed : Option Nat := none

/-- The tile entries created by the constructor / the reset operations:
`{ index, entropy: Infinity, availableTiles: [], type: "" }`. -/
def mkInitialTiles (n : Nat) : List TileData :=
  (List.range n).map fun index =>
    { index := some index, entropy := ⊤, availableTiles := [], type := some "" }

/-- The `WFC` constructor.  `now` is the ambient `Date.now()` value; the JS
seed choice `options.seed ? new Random(options.seed) : new Random(Date.now())`
treats a supplied seed of `0` as falsy and falls back to the clock. -/
def mkWFC (o : WFCoptions) (now : Nat) : WFCState where
  width := o.width
  height := o.height
  numTiles := o.width * o.height
  tiles := mkInitialTiles (o.width * o.height)
  rules := []
  weighting := []
  seed :=
    match o.seed with
    | some sd => if sd = 0 then now else sd
    | none => now
  bufferstate := .unknown
  startWithRandom := true

/-- `_isDataReady`: `unknown` when the tile array is empty or no rules are
registered, `ready` otherwise. -/
def isDataReady (s : WFCState) : BufferState :=
  if s.tiles.length = 0 then .unknown
  else if s.rules.length = 0 then .unknown
  else .ready

/-- Insert-or-update of an insertion-ordered association list (JS
`obj[key] = value`). -/
def upsertAssoc (l : List (String × α)) (k : String) (v : α) : List (String × α) :=
  if l.any (fun p => p.1 == k) then l.map fun p => if p.1 == k then (k, v) else p
  else l ++ [(k, v)]

/-- `setRule(type, rule)`. -/
def setRule (s : WFCState) (ty : String) (r : Rule) : WFCState :=
  { s with rules := upsertAssoc s.rules ty r }

/-- `setRules` in its record form: the deep JSON copy of the supplied map. -/
def setRules (s : WFCState) (rules : List (String × Rule)) : WFCState :=
  { s with rules := rules }

/-- `resetRules()`. -/
def resetRules (s : WFCState) : WFCState :=
  { s with rules := [] }

/-- `setWeight(type, weight)`. -/
def setWeight (s : WFCState) (ty : String) (w : Nat) : WFCState :=
  { s with weighting := upsertAssoc s.weighting ty w }

/-- `setWeights(weights)`: a forEach of `setWeight`. -/
def setWeights (s : WFCState) (ws : List (String × Nat)) : WFCState :=
  { s with weighting := ws.foldl (fun acc p => upsertAssoc acc p.1 p.2) s.weighting }

/-- `resetWeights()`. -/
def resetWeights (s : WFCState) : WFCState :=
  { s with weighting := [] }

/-- `setTileData(tile, index, setRandomStart)`: stores
`{ index, type: tile.type, entropy: Infinity, availableTiles: [] }` at
`index` (note the entropy: the pre-seeded cell is left unresolved) and
records the random-start flag.  `List.set` is a no-op out of range; every
use in the source stays inside the allocated buffer. -/
def setTileData (s : WFCState) (tile : TileData) (index : Nat)
    (setRandomStart : Bool := true) : WFCState :=
  { s with
    tiles := s.tiles.set index
      { index := some index, type := tile.type, entropy := ⊤, availableTiles := [] }
    startWithRandom := setRandomStart }

/-- One element of the collection passed to `setTiles`: the declared TS shape
is `{ index: number; tile: TileData }`; the `type` field models the top-level
`type` property the source reads off this wrapper, which the declared shape
does not contain (hence its `none` default). -/
structure TileWrapper where
  index : Nat
  tile : TileData := {}
  type : Option String := none

/-- `setTiles(tiles, setRandomStart)`: the forEach treats each wrapper as a
`TileData`, skips entries whose `index` is falsy (so `0`), and stores
`type: inputTileData.type` read off the wrapper itself. -/
def setTiles (s : WFCState) (ts : List TileWrapper) (setRandomStart : Bool := true) :
    WFCState :=
  { s with
    tiles := ts.foldl
      (fun acc w =>
        if w.index ≠ 0 then
          acc.set w.index
            { index := some w.index, type := w.type, entropy := ⊤, availableTiles := [] }
        else acc)
      s.tiles
    startWithRandom := setRandomStart }

/-- `resetTileData()`. -/
def resetTileData (s : WFCState) : WFCState :=
  { s with tiles := mkInitialTiles s.numTiles, startWithRandom := true }

/-- `resetLevel()`. -/
def resetLevel (s : WFCState) : WFCState :=
  { s with
    tiles := mkInitialTiles s.numTiles
    rules := []
    weighting := []
    bufferstate := .unknown }

/-- `getTileData(index)`: requires the `collapsed` state, then a linear
`find` on the stored `index` field. -/
def getTileData (s : WFCState) (index : Nat) : Except WfcErr TileData :=
  if s.bufferstate ≠ BufferState.collapsed then .error (.notReady s.bufferstate)
  else
    match s.tiles.find? (fun t => t.index == some index) with
    | none => .error .startTile
    | some t => .ok t

/-! ## Neighbour arithmetic -/

/-- `index - width < 0 ? -1 : index - width`. -/
def upTileIndex (w len i : Nat) : Option Nat :=
  if i < w then none else some (i - w)

/-- `index + width > tiles.length - 1 ? -1 : index + width`. -/
def downTileIndex (w len i : Nat) : Option Nat :=
  if len ≤ i + w then none else some (i + w)

/-- `index % width == width - 1 ? -1 : index + 1`. -/
def rightTileIndex (w len i : Nat) : Option Nat :=
  if i % w = w - 1 then none else some (i + 1)

/-- `index % width == 0 ? -1 : index - 1`. -/
def leftTileIndex (w len i : Nat) : Option Nat :=
  if i % w = 0 then none else some (i - 1)

/-- The neighbour of `i` in direction `d`, or `none` across a grid edge. -/
def neighborIndex (w len i : Nat) : Dir → Option Nat
  | .up => upTileIndex w len i
  | .down => downTileIndex w len i
  | .left => leftTileIndex w len i
  | .right => rightTileIndex w len i

/-! ## Field accessors and single-cell writes -/

/-- The entropy stored at index `i`, when the index is allocated. -/
def entropyAt? (s : WFCState) (i : Nat) : Option Entropy :=
  (s.tiles.get? i).map TileData.entropy

/-- The type stored at index `i` (`none` both off the buffer and for a JS
`undefined` type). -/
def typeAt (s : WFCState) (i : Nat) : Option String :=
  (s.tiles.get? i).bind TileData.type

/-- The candidate list stored at index `i` (`[]` off the buffer). -/
def availAt (s : WFCState) (i : Nat) : List String :=
  ((s.tiles.get? i).map TileData.availableTiles).getD []

/-- Cell `i` is resolved: its entropy is `0`. -/
def resolvedAt (s : WFCState) (i : Nat) : Prop :=
  entropyAt? s i = some 0

instance (s : WFCState) (i : Nat) : Decidable (resolvedAt s i) := by
  unfold resolvedAt; infer_instance

/-- Overwrite the `availableTiles` field of cell `i`. -/
def writeAvail (s : WFCState) (i : Nat) (l : List String) : WFCState :=
  { s with
    tiles :=
      match s.tiles.get? i with
      | some t => s.tiles.set i { t with availableTiles := l }
      | none => s.tiles }

/-- Overwrite the `entropy` field of cell `i`. -/
def writeEntropy (s : WFCState) (i : Nat) (e : Entropy) : WFCState :=
  { s with
    tiles :=
      match s.tiles.get? i with
      | some t => s.tiles.set i { t with entropy := e }
      | none => s.tiles }

/-- Overwrite the `type` field of cell `i`. -/
def writeType (s : WFCState) (i : Nat) (ty : Option String) : WFCState :=
  { s with
    tiles :=
      match s.tiles.get? i with
      | some t => s.tiles.set i { t with type := ty }
      | none => s.tiles }

/-- Apply the optional `availableTiles` write produced by the entropy
computation. -/
def applyAvail (s : WFCState) (i : Nat) : Option (List String) → WFCState
  | none => s
  | some l => writeAvail s i l

/-! ## `_getEntropy` -/

/-- The per-direction fetch block of `_getEntropy`: an in-bounds neighbour
that is resolved contributes its rule list for `sel` (the direction opposite
to where it sits); an unresolved or out-of-bounds neighbour contributes `[]`.
Errors: `invalidTileType` for a resolved neighbour with `undefined` type,
`jsTypeAccess` for an unallocated index or an unregistered type. -/
def contributionOf (s : WFCState) (oj : Option Nat) (sel : Dir) :
    Except WfcErr (List String) :=
  match oj with
  | none => .ok []
  | some j =>
    match s.tiles.get? j with
    | none => .error .jsTypeAccess
    | some tj =>
      if tj.entropy = 0 then
        match tj.type with
        | none => .error .invalidTileType
        | some ty =>
          match s.rules.lookup ty with
          | none => .error .jsTypeAccess
          | some r => .ok (r.dirList sel)
      else .ok []

/-- The pure part of `_getEntropy(index)`: returns the computed entropy and,
when the consolidated candidate list was built, that list (the caller stores
it into `availableTiles`).  Mirrors the source: resolved cells return `0`
immediately; only nonempty contributions are pushed onto `testArray`; the
reduce starts from `testArray[0]` and intersects by `filter`/`includes`. -/
def computeEntropy (s : WFCState) (i : Nat) :
    Except WfcErr (Entropy × Option (List String)) :=
  match s.tiles.get? i with
  | none => .error .jsTypeAccess
  | some ti =>
    if ti.entropy = 0 then .ok (0, none)
    else
      let w := s.width
      let len := s.tiles.length
      match contributionOf s (upTileIndex w len i) .down with
      | .error e => .error e
      | .ok cu =>
      match contributionOf s (downTileIndex w len i) .up with
      | .error e => .error e
      | .ok cd =>
      match contributionOf s (leftTileIndex w len i) .right with
      | .error e => .error e
      | .ok cl =>
      match contributionOf s (rightTileIndex w len i) .left with
      | .error e => .error e
      | .ok cr =>
        let testArray := [cu, cd, cl, cr].filter fun l => !l.isEmpty
        if testArray.isEmpty then .ok (⊤, none)
        else
          let consolidated :=
            testArray.foldl (fun acc arr => acc.filter fun x => arr.contains x)
              (testArray.headD [])
          if consolidated.isEmpty then .error .brokenPlot
          else .ok ((consolidated.length : Entropy), some consolidated)

/-- `_getEntropy` with its side effect: on success with a consolidated list,
`availableTiles` of the cell is overwritten; on an error the state is
untouched (the throw happens before the assignment). -/
def getEntropyStep (s : WFCState) (i : Nat) : Except WfcErr Entropy × WFCState :=
  match computeEntropy s i with
  | .error e => (.error e, s)
  | .ok (e, av) => (.ok e, applyAvail s i av)

/-! ## `_setEntropyOfSurroundingTiles` -/

/-- One guarded probe of a neighbour's entropy inside
`_setEntropyOfSurroundingTiles`; an error from `_getEntropy` is rewrapped
as the per-direction "broken level" error.  State mutations performed before
the throw persist. -/
def neighborEntropyProbe (s : WFCState) :
    Option Nat → Dir → Except WfcErr (Option Entropy) × WFCState
  | none, _ => (.ok none, s)
  | some j, d =>
    match getEntropyStep s j with
    | (.ok e, s2) => (.ok (some e), s2)
    | (.error _, s2) => (.error (.brokenLevel d), s2)

/-- The unguarded entropy update (right/up/down blocks): write the computed
entropy when the neighbour exists and the value is truthy (nonzero). -/
def applyEntropyUpdate (s : WFCState) : Option Nat → Option Entropy → WFCState
  | some j, some e => if e ≠ 0 then writeEntropy s j e else s
  | _, _ => s

/-- The left-block entropy update, which additionally rechecks that the
stored entropy of the neighbour is not `0`. -/
def applyEntropyUpdateLeft (s : WFCState) : Option Nat → Option Entropy → WFCState
  | some j, some e =>
    if e ≠ 0 ∧ entropyAt? s j ≠ some 0 then writeEntropy s j e else s
  | _, _ => s

/-- `_setEntropyOfSurroundingTiles(index)`: probe the four neighbours
(in source order up, down, left, right), then apply the entropy updates
(in source order left, right, up, down). -/
def setEntropyOfSurroundingTiles (s : WFCState) (i : Nat) :
    Except WfcErr Unit × WFCState :=
  let w := s.width
  let len := s.tiles.length
  let upI := upTileIndex w len i
  let downI := downTileIndex w len i
  let rightI := rightTileIndex w len i
  let leftI := leftTileIndex w len i
  match neighborEntropyProbe s upI .up with
  | (.error e, s1) => (.error e, s1)
  | (.ok upE, s1) =>
    match neighborEntropyProbe s1 downI .down with
    | (.error e, s2) => (.error e, s2)
    | (.ok downE, s2) =>
      match neighborEntropyProbe s2 leftI .left with
      | (.error e, s3) => (.error e, s3)
      | (.ok leftE, s3) =>
        match neighborEntropyProbe s3 rightI .right with
        | (.error e, s4) => (.error e, s4)
        | (.ok rightE, s4) =>
          let s5 := applyEntropyUpdateLeft s4 leftI leftE
          let s6 := applyEntropyUpdate s5 rightI rightE
          let s7 := applyEntropyUpdate s6 upI upE
          let s8 := applyEntropyUpdate s7 downI downE
          (.ok (), s8)

/-! ## Scheduling helpers -/

/-- `Math.min(...)` over the entropies of the cells with nonzero entropy
(`Infinity` for an empty spread). -/
def minNonzeroEntropy (s : WFCState) : Entropy :=
  ((s.tiles.filter fun t => t.entropy != 0).map TileData.entropy).foldr min ⊤

/-- `_getListofTilesWithLowestEntropy`, by buffer position: the indices of
all tiles whose entropy equals the minimum nonzero entropy. -/
def frontierIndices (s : WFCState) : List Nat :=
  (List.range s.tiles.length).filter fun i =>
    entropyAt? s i == some (minNonzeroEntropy s)

/-- `_getNumberOfRemainingTilesToCollapse`: the count of cells with nonzero
entropy. -/
def remainingToCollapse (s : WFCState) : Nat :=
  (s.tiles.filter fun t => t.entropy != 0).length

/-- `_prepareTileDataForCollapsing`, iterating the given index list: skip
resolved cells, otherwise store the recomputed entropy; an error is rethrown
and aborts the scan. -/
def prepareGo : List Nat → WFCState → Except WfcErr Unit × WFCState
  | [], s => (.ok (), s)
  | i :: rest, s =>
    match s.tiles.get? i with
    | none => prepareGo rest s
    | some t =>
      if t.entropy = 0 then prepareGo rest s
      else
        match getEntropyStep s i with
        | (.ok e, s2) => prepareGo rest (writeEntropy s2 i e)
        | (.error _, s2) => (.error .prepareFailed, s2)

/-- `_prepareTileDataForCollapsing()` over the whole buffer. -/
def prepareTileDataForCollapsing (s : WFCState) : Except WfcErr Unit × WFCState :=
  prepareGo (List.range s.tiles.length) s

/-! ## `_collapseNext` and the driver -/

/-- What one resumption of the `_collapseNext` generator can produce besides
an error: a suspension (`yield`) or normal generator completion. -/
inductive StepOutcome where
  | yielded
  | finished
deriving DecidableEq, Repr

/-- The tail of a successful attempt inside `_collapseNext`: return from the
generator when no unresolved cell remains, raise the corrupt-data error when
some cell carries an `undefined` type, otherwise `yield`. -/
def finishOrYield (s4 : WFCState) : Except WfcErr StepOutcome × WFCState :=
  if remainingToCollapse s4 = 0 then (.ok .finished, s4)
  else if s4.tiles.any (fun t => t.type == none) then (.error .corruptTileData, s4)
  else (.ok .yielded, s4)

/-- The propagation call of an attempt and the code after the try/catch: a
caught propagation error decrements the retry counter, after which the
`!passedEntropyTest` check inside the loop body immediately throws the fatal
collapse error — before a second attempt can ever run. -/
def propagateAndJudge (s3 : WFCState) (ci : Nat) : Except WfcErr StepOutcome × WFCState :=
  match setEntropyOfSurroundingTiles s3 ci with
  | (.error _, s4) => (.error .failedToCollapse, s4)
  | (.ok _, s4) => finishOrYield s4

/-- The single resolution attempt on the chosen cell `ci` (current record
`ct`): weighted-pick a type from the candidate list filtered against the
(always empty) `choices` exclusion list, assign it, mark the cell resolved,
then propagate and judge. -/
def attemptResolve (s1 : WFCState) (ci : Nat) (ct : TileData) :
    Except WfcErr StepOutcome × WFCState :=
  let choices : List String := []
  let availableChoices := ct.availableTiles.filter fun item => !choices.contains item
  let pw := pickOneWeighted s1.seed availableChoices s1.weighting
  propagateAndJudge (writeEntropy (writeType { s1 with seed := pw.2 } ci pw.1) ci 0) ci

/-- One resumption of `_collapseNext`: select the lowest-entropy frontier,
pick a cell, guard against an empty candidate list, then run the single
resolution attempt. -/
def collapseStep (s : WFCState) : Except WfcErr StepOutcome × WFCState :=
  let frontier := frontierIndices s
  if frontier.isEmpty then (.error .noValidTiles, s)
  else
    let pr := pickOne s.seed frontier
    let s1 := { s with seed := pr.2 }
    match pr.1 with
    | none => (.error .unableToSelect, s1)
    | some ci =>
      match s1.tiles.get? ci with
      | none => (.error .jsTypeAccess, s1)
      | some ct =>
        if ct.availableTiles.length = 0 then (.error .emptyCandidates, s1)
        else attemptResolve s1 ci ct

/-- The driver's stepping loop: drive the generator until it finishes or an
error is caught (the catch records the error and stops the loop — the JS
driver only logs it).  Fuel bounds the recursion; the driver passes enough
fuel for every possible run. -/
def runLoop : Nat → WFCState → Option WfcErr × WFCState
  | 0, s => (some .outOfFuel, s)
  | fuel + 1, s =>
    match collapseStep s with
    | (.ok .finished, s2) => (none, s2)
    | (.ok .yielded, s2) => runLoop fuel s2
    | (.error e, s2) => (some e, s2)

/-- `Object.keys(this.rules)`. -/
def rulesKeys (s : WFCState) : List String :=
  s.rules.map Prod.fst

/-- The random-start seeding block of `generateLevel`: pick one tile
uniformly, pick one type among the rule keys, assign it, set entropy 0. -/
def seedRandomStart (s : WFCState) : Except WfcErr Unit × WFCState :=
  if s.startWithRandom then
    let seed2 := getRandom s.seed
    let fi := floorScale seed2 s.tiles.length
    let s1 := { s with seed := seed2 }
    match s1.tiles.get? fi with
    | none => (.error .startTile, s1)
    | some _ =>
      let pk := pickOne s1.seed (rulesKeys s1)
      let s2 := writeType { s1 with seed := pk.2 } fi pk.1
      (.ok (), writeEntropy s2 fi 0)
  else (.ok (), s)

/-- `generateLevel()`.  The readiness guard overwrites `bufferstate` before
throwing; seeding and preparation errors propagate out of the method; an
error during the stepping loop is caught, logged (the returned
`Option WfcErr`) and the loop stopped — after which `bufferstate` is set to
`collapsed` unconditionally. -/
def generateLevel (s0 : WFCState) : Except WfcErr (Option WfcErr) × WFCState :=
  let st := isDataReady s0
  let s := { s0 with bufferstate := st }
  if st ≠ BufferState.ready then (.error (.notReady st), s)
  else
    match seedRandomStart s with
    | (.error e, s1) => (.error e, s1)
    | (.ok _, s1) =>
      match prepareTileDataForCollapsing s1 with
      | (.error e, s2) => (.error e, s2)
      | (.ok _, s2) =>
        let s3 := { s2 with bufferstate := .collapsing }
        match runLoop (s3.tiles.length + 1) s3 with
        | (logged, s4) => (.ok logged, { s4 with bufferstate := .collapsed })

/-- A full configured run: construct at clock value `now`, register rules,
weights and pre-seeded tiles, then generate. -/
def configureAndRun (o : WFCoptions) (rules : List (String × Rule))
    (ws : List (String × Nat)) (pres : List TileWrapper) (randomStart : Bool)
    (now : Nat) : Except WfcErr (Option WfcErr) × WFCState :=
  generateLevel (setTiles (setWeights (setRules (mkWFC o now) rules) ws) pres randomStart)

/-- The raw LCG output is below the modulus. -/
theorem getRandom_lt (s : Nat) : getRandom s < lcgM := by
  have : 0 < lcgM := by decide
  exact Nat.mod_lt _ this

/-- The floored scaling always lands inside a nonempty list. -/
theorem floorScale_lt (s n : Nat) (hs : s < lcgM) (hn : 0 < n) :
    floorScale s n < n := by
  have hM : 0 < lcgM := by decide
  rw [floorScale, Nat.div_lt_iff_lt_mul hM]
  calc s * n < lcgM * n := by exact (Nat.mul_lt_mul_right hn).mpr hs
  _ = n * lcgM := Nat.mul_comm _ _

/-- A nonempty uniform pick returns an element of the list. -/
theorem pickOne_mem {xs : List α} {s : Nat} {a : α} (h : (pickOne s xs).1 = some a) :
    a ∈ xs := by
  unfold pickOne at h
  exact List.get?_mem h

/-- The seed threaded out of a uniform pick is one LCG step. -/
theorem pickOne_snd (s : Nat) (xs : List α) : (pickOne s xs).2 = getRandom s := rfl

/-- A weighted pick returns an element of the weighted expansion, which only
contains elements of the input set. -/
theorem pickOneWeighted_mem {set : List String} {wt : List (String × Nat)}
    {s : Nat} {a : String} (h : (pickOneWeighted s set wt).1 = some a) :
    a ∈ set := by
  have hmem := pickOne_mem h
  unfold expandWeighted at hmem
  obtain ⟨x, hx, hin⟩ := List.mem_flatMap.mp hmem
  rcases hlk : wt.lookup x with _ | k <;> rw [hlk] at hin
  · have : a = x := by simpa using hin
    exact this ▸ hx
  · have := List.eq_of_mem_replicate hin
    exact this ▸ hx

/-- With every configured weight positive, the expansion of a nonempty set is
nonempty, so the weighted pick returns a value. -/
theorem pickOneWeighted_isSome {set : List String} {wt : List (String × Nat)}
    (hpos : ∀ ty k, wt.lookup ty = some k → 1 ≤ k) (hne : set ≠ []) (s : Nat) :
    ∃ a, (pickOneWeighted s set wt).1 = some a := by
  have hexp : expandWeighted wt set ≠ [] := by
    obtain ⟨x, xs, rfl⟩ := List.exists_cons_of_ne_nil hne
    unfold expandWeighted
    intro hcontra
    rw [List.flatMap_cons] at hcontra
    rcases hlk : wt.lookup x with _ | k <;> rw [hlk] at hcontra
    · simp at hcontra
    · have hk := hpos x k hlk
      have : List.replicate k x ≠ [] := by
        intro h0
        have := List.length_eq_zero.mpr h0
        simp [List.length_replicate] at this
        omega
      exact this (List.append_eq_nil.mp hcontra).1
  unfold pickOneWeighted pickOne
  have hlt := floorScale_lt (getRandom s) (expandWeighted wt set).length (getRandom_lt s)
    (List.length_pos.mpr hexp)
  exact ⟨_, List.get?_eq_get hlt⟩

/-! ## C7: the uniform pick -/

/-- C7, counterexample.  The claim states that a uniform pick from an empty
sequence fails with an `EmptySelection` error "rather than returning a
value".  In the source, `pickOne` has no emptiness check at all:
`set[Math.floor(rnd * 0)]` is `set[0]`, which on an empty JS array simply
evaluates to `undefined` — the call returns that value (and has still
consumed one random draw), it does not throw. -/
theorem pickOne_empty_returns_undefined :
    pickOne 1 ([] : List String) = (none, getRandom 1) := rfl

/-- C7, amended: `pickOne(seq)` returns `seq[floor(next()*len(seq))]`; on a
nonempty sequence this is always a real element (the index is in range
because the LCG output is strictly below the modulus), while on an empty
sequence it returns `undefined` without raising any error, consuming one
random draw either way. -/
theorem pickOne_floor_index (s : Nat) (xs : List String) :
    (xs = [] → pickOne s xs = (none, getRandom s)) ∧
    (xs ≠ [] → ∃ h : floorScale (getRandom s) xs.length < xs.length,
      pickOne s xs = (some (xs.get ⟨floorScale (getRandom s) xs.length, h⟩), getRandom s)) := by
  constructor
  · rintro rfl; rfl
  · intro hne
    have hlt := floorScale_lt (getRandom s) xs.length (getRandom_lt s)
      (List.length_pos.mpr hne)
    exact ⟨hlt, by unfold pickOne; simp only [List.get?_eq_get hlt]⟩

/-- C7 witness: the amended statement evaluated on a concrete draw. -/
theorem pickOne_floor_index_witness :
    (["a", "b"] : List String) ≠ [] ∧ (pickOne 5 ["a", "b"]).1 = some "a" := by
  refine ⟨by decide, ?_⟩
  obtain ⟨h, he⟩ := (pickOne_floor_index 5 ["a", "b"]).2 (by decide)
  rw [he]
  rfl

/-! ## Shared concrete fixtures and rule-table vocabulary -/

/-- The adjacency list a rule table grants, `[]` for an unregistered type
(`rules[t][d]` read defensively). -/
def listOf (R : List (String × Rule)) (ty : String) (d : Dir) : List String :=
  match R.lookup ty with
  | none => []
  | some r => r.dirList d

/-- A rule with the same list in all four directions. -/
def ruleAll (l : List String) : Rule :=
  { up := l, down := l, left := l, right := l }

/-- A symmetric two-type rule table: everything may sit next to
everything. -/
def rulesAB : List (String × Rule) :=
  [("A", ruleAll ["A", "B"]), ("B", ruleAll ["A", "B"])]

/-- An asymmetric rule table: `A` accepts `B` below itself, but `B` only
accepts `B` above itself. -/
def rulesAsym : List (String × Rule) :=
  [("A", { up := ["A"], down := ["B"], left := ["A"], right := ["A"] }),
   ("B", { up := ["B"], down := ["A"], left := ["B"], right := ["B"] })]

/-- The final state of a run whose stepping loop raised an error: a 1-row
2-column level whose single rule permits nothing, so the second cell has no
candidates. -/
def erroredRun : WFCState :=
  (configureAndRun ⟨2, 1, some 1⟩ [("A", {})] [] [] true 0).2

/-- A mid-run state about to collapse cell 1 of a 4×1 row: cells 0 and 3 are
resolved, cell 1 carries two candidates of which the seed makes the weighted
pick choose "bad", whose propagation to cell 2 contradicts cell 3. -/
def retryState : WFCState where
  width := 4
  height := 1
  numTiles := 4
  tiles :=
    [{ index := some 0, type := some "A", entropy := 0, availableTiles := [] },
     { index := some 1, type := some "", entropy := (2 : Nat), availableTiles := ["bad", "good"] },
     { index := some 2, type := some "", entropy := ⊤, availableTiles := [] },
     { index := some 3, type := some "D", entropy := 0, availableTiles := [] }]
  rules :=
    [("A", ruleAll ["bad", "good"]), ("bad", ruleAll ["X"]),
     ("good", ruleAll ["Y"]), ("D", ruleAll ["Y"])]
  weighting := []
  seed := 1
  bufferstate := .collapsing
  startWithRandom := true

/-! ## Seed threading lemmas -/

/-- `writeAvail` does not touch the generator. -/
theorem writeAvail_seed (s : WFCState) (i : Nat) (l : List String) :
    (writeAvail s i l).seed = s.seed := rfl

/-- `writeEntropy` does not touch the generator. -/
theorem writeEntropy_seed (s : WFCState) (i : Nat) (e : Entropy) :
    (writeEntropy s i e).seed = s.seed := rfl

/-- `writeType` does not touch the generator. -/
theorem writeType_seed (s : WFCState) (i : Nat) (ty : Option String) :
    (writeType s i ty).seed = s.seed := rfl

/-- `applyAvail` does not touch the generator. -/
theorem applyAvail_seed (s : WFCState) (i : Nat) (av : Option (List String)) :
    (applyAvail s i av).seed = s.seed := by
  cases av <;> rfl

/-- `_getEntropy` does not touch the generator. -/
theorem getEntropyStep_seed (s : WFCState) (i : Nat) :
    (getEntropyStep s i).2.seed = s.seed := by
  unfold getEntropyStep
  cases hce : computeEntropy s i with
  | error e => rfl
  | ok p => exact applyAvail_seed s i p.2

/-- Probing a neighbour does not touch the generator. -/
theorem neighborEntropyProbe_seed (s : WFCState) (oj : Option Nat) (d : Dir) :
    (neighborEntropyProbe s oj d).2.seed = s.seed := by
  cases oj with
  | none => rfl
  | some j =>
    show (match getEntropyStep s j with
      | (.ok e, s2) => ((Except.ok (some e) : Except WfcErr (Option Entropy)), s2)
      | (.error _, s2) => (.error (.brokenLevel d), s2)).2.seed = s.seed
    have h2 := getEntropyStep_seed s j
    rcases hg : getEntropyStep s j with ⟨r, s2⟩
    rw [hg] at h2
    cases r <;> simpa using h2

/-- The unguarded entropy update does not touch the generator. -/
theorem applyEntropyUpdate_seed (s : WFCState) (oj : Option Nat) (oe : Option Entropy) :
    (applyEntropyUpdate s oj oe).seed = s.seed := by
  unfold applyEntropyUpdate
  split <;> first | rfl | (split <;> rfl)

/-- The left-block entropy update does not touch the generator. -/
theorem applyEntropyUpdateLeft_seed (s : WFCState) (oj : Option Nat) (oe : Option Entropy) :
    (applyEntropyUpdateLeft s oj oe).seed = s.seed := by
  unfold applyEntropyUpdateLeft
  split <;> first | rfl | (split <;> rfl)

/-- Propagation does not touch the generator, on success and failure
alike. -/
theorem setEntropyOfSurroundingTiles_seed (s : WFCState) (i : Nat) :
    (setEntropyOfSurroundingTiles s i).2.seed = s.seed := by
  unfold setEntropyOfSurroundingTiles
  dsimp only
  have h1 := neighborEntropyProbe_seed s
    (upTileIndex s.width s.tiles.length i) Dir.up
  rcases hp1 : neighborEntropyProbe s
    (upTileIndex s.width s.tiles.length i) Dir.up with ⟨r1, s1⟩
  rw [hp1] at h1
  try rw [hp1]
  cases r1 with
  | error e => simpa using h1
  | ok upE =>
    dsimp only
    have h2 := neighborEntropyProbe_seed s1
      (downTileIndex s.width s.tiles.length i) Dir.down
    rcases hp2 : neighborEntropyProbe s1
      (downTileIndex s.width s.tiles.length i) Dir.down with ⟨r2, s2⟩
    rw [hp2] at h2
    try rw [hp2]
    cases r2 with
    | error e => dsimp only; rw [h2]; exact h1
    | ok downE =>
      dsimp only
      have h3 := neighborEntropyProbe_seed s2
        (leftTileIndex s.width s.tiles.length i) Dir.left
      rcases hp3 : neighborEntropyProbe s2
        (leftTileIndex s.width s.tiles.length i) Dir.left with ⟨r3, s3⟩
      rw [hp3] at h3
      try rw [hp3]
      cases r3 with
      | error e => dsimp only; rw [h3, h2]; exact h1
      | ok leftE =>
        dsimp only
        have h4 := neighborEntropyProbe_seed s3
          (rightTileIndex s.width s.tiles.length i) Dir.right
        rcases hp4 : neighborEntropyProbe s3
          (rightTileIndex s.width s.tiles.length i) Dir.right with ⟨r4, s4⟩
        rw [hp4] at h4
        try rw [hp4]
        cases r4 with
        | error e => dsimp only; rw [h4, h3, h2]; exact h1
        | ok rightE =>
          dsimp only
          simp only [applyEntropyUpdate_seed, applyEntropyUpdateLeft_seed]
          rw [h4, h3, h2]; exact h1

/-! ## C10: `setTiles` -/

/-- The fold of `setTiles` ignores a batch whose entries all carry index
`0`. -/
theorem setTiles_fold_all_zero (tiles : List TileData) (ts : List TileWrapper)
    (hz : ∀ u ∈ ts, u.index = 0) :
    ts.foldl
      (fun acc w =>
        if w.index ≠ 0 then
          acc.set w.index
            { index := some w.index, type := w.type, entropy := ⊤, availableTiles := [] }
        else acc)
      tiles = tiles := by
  induction ts with
  | nil => rfl
  | cons u t ih =>
    rw [List.foldl_cons, if_neg (by simp [hz u (List.mem_cons_self u t)])]
    exact ih fun v hv => hz v (List.mem_cons_of_mem u hv)

/-- C10: an entry of a `setTiles` batch whose `index` field is `0` is
silently skipped (the truthiness guard), and an applied entry stores the
`type` read off the wrapper element itself — never off its nested `tile`
field — so the stored type is `undefined` whenever the wrapper carries no
top-level `type` property. -/
theorem setTiles_skips_zero_and_takes_wrapper_type (s : WFCState)
    (ts : List TileWrapper) (w : TileWrapper) (b : Bool) :
    ((∀ u ∈ ts, u.index = 0) → (setTiles s ts b).tiles = s.tiles) ∧
    (w.index ≠ 0 → (setTiles s [w] b).tiles =
      s.tiles.set w.index
        { index := some w.index, type := w.type, entropy := ⊤, availableTiles := [] }) := by
  constructor
  · intro hz
    exact setTiles_fold_all_zero s.tiles ts hz
  · intro hnz
    unfold setTiles
    simp only [List.foldl_cons, List.foldl_nil, if_pos hnz]

/-- C10 witness: a batch at index 0 (with a decoy wrapper-level type) leaves
the buffer alone; a batch at index 1 whose nested tile has a type but whose
wrapper does not stores `undefined`. -/
theorem setTiles_skips_zero_and_takes_wrapper_type_witness :
    (setTiles (mkWFC ⟨2, 1, some 1⟩ 0) [⟨0, { type := some "Z" }, some "X"⟩] true).tiles =
      (mkWFC ⟨2, 1, some 1⟩ 0).tiles ∧
    (setTiles (mkWFC ⟨2, 1, some 1⟩ 0) [⟨1, { type := some "Z" }, none⟩] true).tiles =
      (mkWFC ⟨2, 1, some 1⟩ 0).tiles.set 1
        { index := some 1, type := none, entropy := ⊤, availableTiles := [] } := by
  constructor
  · exact (setTiles_skips_zero_and_takes_wrapper_type (mkWFC ⟨2, 1, some 1⟩ 0)
      [⟨0, { type := some "Z" }, some "X"⟩] ⟨1, {}, none⟩ true).1
      (by intro u hu; rcases List.mem_singleton.mp hu with rfl; rfl)
  · exact (setTiles_skips_zero_and_takes_wrapper_type (mkWFC ⟨2, 1, some 1⟩ 0)
      [] ⟨1, { type := some "Z" }, none⟩ true).2 (by decide)

/-! ## C9: pre-seeding does not resolve -/

/-- C9: evaluating `setTileData` at the failing input.  The pre-seeded cell
keeps the supplied type but is stored with entropy `Infinity`, so a cell
with an assigned type is *not* resolved — the claimed iff between
`entropy == 0` and an assigned type is broken right after the call (and the
run later overwrites the anchor). -/
theorem setTileData_assigns_type_without_resolving :
    typeAt (setTileData (mkWFC ⟨2, 1, some 7⟩ 0) { type := some "A" } 1 true) 1 =
      some "A" ∧
    entropyAt? (setTileData (mkWFC ⟨2, 1, some 7⟩ 0) { type := some "A" } 1 true) 1 =
      some ⊤ ∧
    ¬ resolvedAt (setTileData (mkWFC ⟨2, 1, some 7⟩ 0) { type := some "A" } 1 true) 1 := by
  decide

/-! ## C2 / C6: the driver's state machine -/

/-- C2: evaluating a run whose stepping loop raises an error (a 2×1 level
whose only rule allows nothing, so the second cell ends up with zero
candidates).  The error is caught and merely logged, after which the driver
unconditionally sets the terminal `collapsed` state, and `getTileData`
happily serves the invalid grid instead of failing with the not-ready
error. -/
theorem step_error_still_collapsed_and_readable :
    (configureAndRun ⟨2, 1, some 1⟩ [("A", {})] [] [] true 0).1 =
      .ok (some .emptyCandidates) ∧
    erroredRun.bufferstate = BufferState.collapsed ∧
    getTileData erroredRun 0 =
      .ok { index := some 0, type := some "A", entropy := 0, availableTiles := [] } := by
  decide

/-- C6, counterexample: a failed `generateLevel` call *does* mutate state.
Starting from a reachable buffer in the `collapsed` state whose rules were
then reset, the not-ready call overwrites `bufferstate` with `unknown`. -/
theorem generateLevel_notReady_mutates_bufferstate :
    (resetRules erroredRun).bufferstate = BufferState.collapsed ∧
    (generateLevel (resetRules erroredRun)).2.bufferstate = BufferState.unknown ∧
    (generateLevel (resetRules erroredRun)).1 = .error (.notReady .unknown) := by
  decide

/-- C6, amended: calling `generateLevel` while the data is not ready (empty
tile array or no rules) fails with the not-ready error and leaves tiles,
rules, weights and the random-start flag unchanged — but `bufferstate` is
overwritten with the recomputed readiness value `unknown`, a mutation
whenever it was not already `unknown`. -/
theorem generateLevel_notReady_spec (s : WFCState)
    (h : isDataReady s ≠ BufferState.ready) :
    generateLevel s =
      (.error (.notReady BufferState.unknown), { s with bufferstate := BufferState.unknown }) := by
  have hu : isDataReady s = BufferState.unknown := by
    unfold isDataReady at h ⊢
    split_ifs at h ⊢ <;> first | rfl | exact absurd rfl h
  unfold generateLevel
  rw [hu]
  simp

/-- C6 witness: a fresh instance with no rules. -/
theorem generateLevel_notReady_spec_witness :
    isDataReady (mkWFC ⟨1, 1, some 2⟩ 0) ≠ BufferState.ready ∧
    generateLevel (mkWFC ⟨1, 1, some 2⟩ 0) =
      (.error (.notReady BufferState.unknown),
       { mkWFC ⟨1, 1, some 2⟩ 0 with bufferstate := BufferState.unknown }) :=
  ⟨by decide, generateLevel_notReady_spec _ (by decide)⟩

/-! ## C4: determinism -/

/-- C4, counterexample: the JS seed choice treats a supplied seed of `0` as
falsy and falls back to `Date.now()`, so two runs with the fixed seed `0`
and otherwise identical inputs produce different grids at different clock
values. -/
theorem seed_zero_not_deterministic :
    typeAt (configureAndRun ⟨2, 1, some 0⟩ rulesAB [] [] true 1).2 0 = some "A" ∧
    typeAt (configureAndRun ⟨2, 1, some 0⟩ rulesAB [] [] true 3).2 0 = some "B" := by
  decide

/-- C4, amended: for a fixed *nonzero* seed and fixed width, height, rules,
weights and pre-seeded tiles, a run is a pure function of those inputs —
the ambient clock value is never consulted, so two runs at different clock
values coincide exactly (grids, seeds, states). -/
theorem configureAndRun_deterministic (o : WFCoptions) (rules : List (String × Rule))
    (ws : List (String × Nat)) (pres : List TileWrapper) (b : Bool)
    (t1 t2 sd : Nat) (hs : o.seed = some sd) (h0 : sd ≠ 0) :
    configureAndRun o rules ws pres b t1 = configureAndRun o rules ws pres b t2 := by
  have hmk : mkWFC o t1 = mkWFC o t2 := by
    unfold mkWFC
    rw [hs]
    simp [h0]
  unfold configureAndRun
  rw [hmk]

/-- C4 witness. -/
theorem configureAndRun_deterministic_witness :
    configureAndRun ⟨2, 1, some 5⟩ rulesAB [] [] true 0 =
      configureAndRun ⟨2, 1, some 5⟩ rulesAB [] [] true 1 :=
  configureAndRun_deterministic ⟨2, 1, some 5⟩ rulesAB [] [] true 0 1 5 rfl (by decide)

/-- The attempt tail does not touch the generator. -/
theorem finishOrYield_seed (s4 : WFCState) : (finishOrYield s4).2.seed = s4.seed := by
  unfold finishOrYield
  split_ifs <;> rfl

/-- Propagation and judgement do not touch the generator. -/
theorem propagateAndJudge_seed (s3 : WFCState) (ci : Nat) :
    (propagateAndJudge s3 ci).2.seed = s3.seed := by
  unfold propagateAndJudge
  have hs := setEntropyOfSurroundingTiles_seed s3 ci
  rcases hp : setEntropyOfSurroundingTiles s3 ci with ⟨rp, s4⟩
  rw [hp] at hs
  try rw [hp]
  cases rp with
  | error e => simpa using hs
  | ok u =>
    dsimp only
    rw [finishOrYield_seed]
    simpa using hs

/-- A resolution attempt consumes exactly one random draw. -/
theorem attemptResolve_seed (s1 : WFCState) (ci : Nat) (ct : TileData) :
    (attemptResolve s1 ci ct).2.seed = getRandom s1.seed := by
  unfold attemptResolve
  dsimp only
  rw [propagateAndJudge_seed]
  rfl

/-! ## C5: the retry loop is dead code -/

/-- C5, counterexample: a cell with a candidate set of size 2 whose first
weighted attempt fails.  The step aborts immediately with the fatal collapse
error after exactly two random draws (frontier pick and a single weighted
pick) — no retry is ever attempted, although the same state with a seed
whose draw selects the other candidate steps successfully, so a retry would
have succeeded. -/
theorem collapse_fails_without_retry :
    (availAt retryState 1).length = 2 ∧
    (collapseStep retryState).1 = .error .failedToCollapse ∧
    (collapseStep retryState).2.seed = getRandom (getRandom retryState.seed) ∧
    (collapseStep { retryState with seed := 3 }).1 = .ok .yielded := by
  decide

/-- Every step either does not fail with the fatal collapse error or
consumed exactly two random draws by the time it did. -/
theorem collapseStep_seed_of_failed (s : WFCState) :
    (collapseStep s).1 ≠ .error .failedToCollapse ∨
    (collapseStep s).2.seed = getRandom (getRandom s.seed) := by
  unfold collapseStep
  dsimp only
  split
  · left; simp
  · split
    · left; simp
    · split
      · left; simp
      · split
        · left; simp
        · right
          rw [attemptResolve_seed]
          rfl

/-- C5, amended: a failed resolution attempt aborts the run immediately with
the fatal collapse error — the retry budget (initialised to the candidate-set
size) and the `choices` exclusion list are dead code.  Whenever a step fails
with that error, the whole step consumed exactly two random draws: the
frontier pick and one single weighted pick. -/
theorem collapseStep_failure_is_immediate (s : WFCState)
    (h : (collapseStep s).1 = .error .failedToCollapse) :
    (collapseStep s).2.seed = getRandom (getRandom s.seed) :=
  (collapseStep_seed_of_failed s).resolve_left (not_not_intro h)

/-- C5 witness: the concrete failing state consumed exactly two draws. -/
theorem collapseStep_failure_is_immediate_witness :
    (collapseStep retryState).1 = .error .failedToCollapse ∧
    (collapseStep retryState).2.seed = getRandom (getRandom retryState.seed) :=
  ⟨by decide, collapseStep_failure_is_immediate retryState (by decide)⟩

/-! ## C3: the entropy computation against its specification -/

/-- The constraint list a neighbour contributes, in the specification's
sense: an in-bounds neighbour in direction `d` that is itself resolved
contributes its (nonempty) rule list for the opposite direction; an
out-of-bounds, unresolved or empty-listed neighbour contributes nothing. -/
def specContribution (s : WFCState) (i : Nat) (d : Dir) : Option (List String) :=
  match neighborIndex s.width s.tiles.length i d with
  | none => none
  | some j =>
    match s.tiles.get? j with
    | none => none
    | some tj =>
      if tj.entropy = 0 then
        match tj.type with
        | none => none
        | some ty =>
          match s.rules.lookup ty with
          | none => none
          | some r =>
            if (r.dirList d.opposite).isEmpty then none else some (r.dirList d.opposite)
      else none

/-- All contributed constraint lists, in the scan order up, down, left,
right. -/
def specContributions (s : WFCState) (i : Nat) : List (List String) :=
  [specContribution s i Dir.up, specContribution s i Dir.down,
   specContribution s i Dir.left, specContribution s i Dir.right].filterMap id

/-- The specification's intersection: the members of the first contributed
list, in its order, that occur in every contributed list. -/
def specIntersection (ls : List (List String)) : List String :=
  (ls.headD []).filter fun x => ls.all fun l => l.contains x

/-- The iterated `filter`/`includes` reduce of the source equals one filter
by membership in every list. -/
theorem foldl_filter_contains (init : List String) (ls : List (List String)) :
    ls.foldl (fun acc arr => acc.filter fun x => arr.contains x) init =
      init.filter fun x => ls.all fun l => l.contains x := by
  induction ls generalizing init with
  | nil => simp
  | cons a t ih =>
    rw [List.foldl_cons, ih, List.filter_filter]
    apply List.filter_congr
    intro x _
    simp [Bool.and_comm]

/-- Keeping the nonempty ones among four optional lists. -/
theorem filterMap_ifEmpty (l1 l2 l3 l4 : List String) :
    ([if l1.isEmpty then none else some l1, if l2.isEmpty then none else some l2,
      if l3.isEmpty then none else some l3,
      if l4.isEmpty then none else some l4] : List (Option (List String))).filterMap id =
      [l1, l2, l3, l4].filter fun l => !l.isEmpty := by
  by_cases h1 : l1.isEmpty <;> by_cases h2 : l2.isEmpty <;>
    by_cases h3 : l3.isEmpty <;> by_cases h4 : l4.isEmpty <;>
    simp [List.filterMap, h1, h2, h3, h4]

/-- In-bounds neighbour arithmetic: inside a `w × h` buffer the computed
neighbour index is a different, in-bounds cell. -/
theorem neighborIndex_bounds (w h i j : Nat) (d : Dir) (hw : 1 ≤ w) (hi : i < w * h)
    (hj : neighborIndex w (w * h) i d = some j) : j < w * h ∧ j ≠ i := by
  cases d with
  | up =>
    unfold neighborIndex upTileIndex at hj
    split_ifs at hj with hc
    cases hj
    omega
  | down =>
    unfold neighborIndex downTileIndex at hj
    split_ifs at hj with hc
    cases hj
    omega
  | left =>
    unfold neighborIndex leftTileIndex at hj
    split_ifs at hj with hc
    cases hj
    have hi0 : i ≠ 0 := by
      intro h0
      exact hc (by simp [h0])
    omega
  | right =>
    unfold neighborIndex rightTileIndex at hj
    split_ifs at hj with hc
    cases hj
    have hh : 1 ≤ h := by
      by_contra hh
      have : h = 0 := by omega
      subst this
      simp at hi
    have hlast : i + 1 ≠ w * h := by
      intro hiw
      apply hc
      have hwh : w * h = h * w := Nat.mul_comm w h
      have hge : w ≤ h * w := Nat.le_mul_of_pos_left w (by omega)
      have hieq : i = (w - 1) + (h - 1) * w := by
        rw [Nat.sub_one_mul]
        omega
      rw [hieq, Nat.add_mul_mod_self_right, Nat.mod_eq_of_lt (by omega)]
    omega

/-- Unfolding of one direction's fetch block against the specification's
contribution, under well-typedness of resolved cells. -/
theorem contributionOf_spec (s : WFCState) (i : Nat) (d : Dir)
    (hw : 1 ≤ s.width) (hlen : s.tiles.length = s.width * s.height)
    (hi : i < s.tiles.length)
    (hok : ∀ j t, s.tiles.get? j = some t → t.entropy = 0 →
      ∃ ty r, t.type = some ty ∧ s.rules.lookup ty = some r) :
    ∃ l, contributionOf s (neighborIndex s.width s.tiles.length i d) d.opposite = .ok l ∧
      specContribution s i d = (if l.isEmpty then none else some l) := by
  cases hj : neighborIndex s.width s.tiles.length i d with
  | none =>
    refine ⟨[], rfl, ?_⟩
    unfold specContribution
    rw [hj]
    rfl
  | some j =>
    have hjlt : j < s.tiles.length := by
      rw [hlen] at hj ⊢
      exact (neighborIndex_bounds s.width s.height i j d hw (hlen ▸ hi) hj).1
    have hget := List.get?_eq_get hjlt
    by_cases hres : (s.tiles.get ⟨j, hjlt⟩).entropy = 0
    · obtain ⟨ty, r, hty, hr⟩ := hok j _ hget hres
      refine ⟨r.dirList d.opposite, ?_, ?_⟩
      · show contributionOf s (some j) d.opposite = _
        unfold contributionOf
        dsimp only
        rw [hget]
        dsimp only
        rw [if_pos hres, hty]
        dsimp only
        rw [hr]
      · unfold specContribution
        rw [hj]
        dsimp only
        rw [hget]
        dsimp only
        rw [if_pos hres, hty]
        dsimp only
        rw [hr]
    · refine ⟨[], ?_, ?_⟩
      · show contributionOf s (some j) d.opposite = _
        unfold contributionOf
        dsimp only
        rw [hget]
        dsimp only
        rw [if_neg hres]
      · unfold specContribution
        rw [hj]
        dsimp only
        rw [hget]
        dsimp only
        rw [if_neg hres]
        rfl

/-- A nonempty list has a `false` `isEmpty` flag. -/
theorem isEmpty_false_of_ne_nil {l : List α} (h : l ≠ []) : l.isEmpty = false := by
  cases l with
  | nil => exact absurd rfl h
  | cons a t => rfl

/-- Checkable form of the resolved-cells-are-typed hypothesis. -/
def resolvedTypedB (s : WFCState) : Bool :=
  s.tiles.all fun t =>
    t.entropy != 0 ||
      (match t.type with
       | none => false
       | some ty => (s.rules.lookup ty).isSome)

/-- The checkable form implies the hypothesis. -/
theorem resolvedTypedB_spec (s : WFCState) (h : resolvedTypedB s = true) :
    ∀ j t, s.tiles.get? j = some t → t.entropy = 0 →
      ∃ ty r, t.type = some ty ∧ s.rules.lookup ty = some r := by
  intro j t hget he
  have hmem := List.get?_mem hget
  have hall := List.all_eq_true.mp h t hmem
  rw [he] at hall
  simp only [bne_self_eq_false, Bool.false_or] at hall
  cases hty : t.type with
  | none => rw [hty] at hall; simp at hall
  | some ty =>
    rw [hty] at hall
    dsimp only at hall
    cases hr : s.rules.lookup ty with
    | none => rw [hr] at hall; simp at hall
    | some r => exact ⟨ty, r, rfl, hr⟩

/-- C3: for every allocated cell of a well-formed buffer whose resolved
cells carry registered types, `_getEntropy` returns `0` immediately for a
resolved cell; returns `Infinity`, with no state change, when no in-bounds
resolved neighbour contributes a constraint list; otherwise intersects all
contributed lists preserving the order of the first contributing list,
failing with the contradiction error exactly when that intersection is
empty, and otherwise returning its size and storing it into
`availableTiles`. -/
theorem getEntropy_spec (s : WFCState) (i : Nat) (ti : TileData)
    (hw : 1 ≤ s.width) (hlen : s.tiles.length = s.width * s.height)
    (hi : s.tiles.get? i = some ti)
    (hok : ∀ j t, s.tiles.get? j = some t → t.entropy = 0 →
      ∃ ty r, t.type = some ty ∧ s.rules.lookup ty = some r) :
    (ti.entropy = 0 → getEntropyStep s i = (.ok 0, s)) ∧
    (ti.entropy ≠ 0 →
      (specContributions s i = [] → getEntropyStep s i = (.ok ⊤, s)) ∧
      (specContributions s i ≠ [] →
        (specIntersection (specContributions s i) = [] →
          getEntropyStep s i = (.error .brokenPlot, s)) ∧
        (specIntersection (specContributions s i) ≠ [] →
          getEntropyStep s i =
            (.ok ((specIntersection (specContributions s i)).length : Entropy),
             writeAvail s i (specIntersection (specContributions s i)))))) := by
  have hilt : i < s.tiles.length := by
    rcases List.get?_eq_some.mp hi with ⟨hh, _⟩
    exact hh
  obtain ⟨cu, hcu, hsu⟩ := contributionOf_spec s i Dir.up hw hlen hilt hok
  obtain ⟨cd, hcd, hsd⟩ := contributionOf_spec s i Dir.down hw hlen hilt hok
  obtain ⟨cl, hcl, hsl⟩ := contributionOf_spec s i Dir.left hw hlen hilt hok
  obtain ⟨cr, hcr, hsr⟩ := contributionOf_spec s i Dir.right hw hlen hilt hok
  simp only [neighborIndex, Dir.opposite] at hcu hcd hcl hcr
  have hT : specContributions s i = [cu, cd, cl, cr].filter (fun l => !l.isEmpty) := by
    unfold specContributions
    rw [hsu, hsd, hsl, hsr]
    exact filterMap_ifEmpty cu cd cl cr
  constructor
  · intro h0
    unfold getEntropyStep computeEntropy
    rw [hi]
    dsimp only
    rw [if_pos h0]
    rfl
  · intro hnz
    have hcode : computeEntropy s i =
        (if ([cu, cd, cl, cr].filter (fun l => !l.isEmpty)).isEmpty then
          .ok (⊤, none)
        else if (specIntersection ([cu, cd, cl, cr].filter (fun l => !l.isEmpty))).isEmpty then
          .error .brokenPlot
        else
          .ok (((specIntersection ([cu, cd, cl, cr].filter (fun l => !l.isEmpty))).length : Entropy),
            some (specIntersection ([cu, cd, cl, cr].filter (fun l => !l.isEmpty))))) := by
      unfold computeEntropy
      rw [hi]
      dsimp only
      rw [if_neg hnz]
      rw [hcu]
      dsimp only
      rw [hcd]
      dsimp only
      rw [hcl]
      dsimp only
      rw [hcr]
      dsimp only
      rw [foldl_filter_contains]
      rfl
    refine ⟨?_, fun hne => ⟨?_, ?_⟩⟩
    · intro hnil
      rw [hT] at hnil
      have hcomputed : computeEntropy s i = .ok (⊤, none) := by
        rw [hcode, if_pos (by rw [hnil]; rfl)]
      unfold getEntropyStep
      rw [hcomputed]
      rfl
    · intro hInil
      rw [hT] at hne hInil
      have hFe := isEmpty_false_of_ne_nil hne
      have hcomputed : computeEntropy s i = .error .brokenPlot := by
        rw [hcode, if_neg (by rw [hFe]; simp), if_pos (by rw [hInil]; rfl)]
      unfold getEntropyStep
      rw [hcomputed]
    · intro hIne
      rw [hT] at hne hIne ⊢
      have hFe := isEmpty_false_of_ne_nil hne
      have hIe := isEmpty_false_of_ne_nil hIne
      have hcomputed : computeEntropy s i =
          .ok (((specIntersection ([cu, cd, cl, cr].filter (fun l => !l.isEmpty))).length : Entropy),
            some (specIntersection ([cu, cd, cl, cr].filter (fun l => !l.isEmpty)))) := by
        rw [hcode, if_neg (by rw [hFe]; simp), if_neg (by rw [hIe]; simp)]
      unfold getEntropyStep
      rw [hcomputed]
      rfl

/-- C3 witness: in the concrete mid-run state, cell 1 has one resolved
neighbour contributing a two-element list; the computation returns entropy 2
and stores the list. -/
theorem getEntropy_spec_witness :
    getEntropyStep retryState 1 =
      (.ok ((2 : Nat) : Entropy), writeAvail retryState 1 ["bad", "good"]) := by
  have h := (getEntropy_spec retryState 1
      { index := some 1, type := some "", entropy := (2 : Nat), availableTiles := ["bad", "good"] }
      (by decide) (by decide) (by decide)
      (resolvedTypedB_spec retryState (by decide))).2 (by decide)
  have h2 := (h.2 (by decide)).2 (by decide)
  rw [h2]
  decide

/-! ## C8: propagation never touches resolved cells -/

/-- An entropy write at another index is invisible. -/
theorem writeEntropy_get?_ne (s : WFCState) (i j : Nat) (e : Entropy) (h : i ≠ j) :
    (writeEntropy s i e).tiles.get? j = s.tiles.get? j := by
  unfold writeEntropy
  cases hg : s.tiles.get? i with
  | none => rfl
  | some t => exact List.get?_set_ne _ _ h

/-- An `availableTiles` write at another index is invisible. -/
theorem writeAvail_get?_ne (s : WFCState) (i j : Nat) (l : List String) (h : i ≠ j) :
    (writeAvail s i l).tiles.get? j = s.tiles.get? j := by
  unfold writeAvail
  cases hg : s.tiles.get? i with
  | none => rfl
  | some t => exact List.get?_set_ne _ _ h

/-- `_getEntropy` of a resolved cell returns `0` with no contribution
scan. -/
theorem computeEntropy_resolved (s : WFCState) (j : Nat) (t : TileData)
    (hj : s.tiles.get? j = some t) (h0 : t.entropy = 0) :
    computeEntropy s j = .ok (0, none) := by
  unfold computeEntropy
  rw [hj]
  dsimp only
  rw [if_pos h0]

/-- `_getEntropy` of a resolved cell is a pure no-op. -/
theorem getEntropyStep_resolved (s : WFCState) (j : Nat) (t : TileData)
    (hj : s.tiles.get? j = some t) (h0 : t.entropy = 0) :
    getEntropyStep s j = (.ok 0, s) := by
  unfold getEntropyStep
  rw [computeEntropy_resolved s j t hj h0]
  rfl

/-- `_getEntropy` at any index leaves every resolved cell's record
intact. -/
theorem getEntropyStep_preserves_resolved (s : WFCState) (k j : Nat) (t : TileData)
    (hj : s.tiles.get? j = some t) (h0 : t.entropy = 0) :
    ((getEntropyStep s k).2).tiles.get? j = some t := by
  by_cases hkj : k = j
  · subst hkj
    rw [getEntropyStep_resolved s k t hj h0]
    exact hj
  · unfold getEntropyStep
    cases hce : computeEntropy s k with
    | error e => exact hj
    | ok p =>
      obtain ⟨e, av⟩ := p
      dsimp only
      cases av with
      | none => exact hj
      | some l =>
        unfold applyAvail
        rw [writeAvail_get?_ne s k j l hkj]
        exact hj

/-- A probe leaves every resolved cell's record intact. -/
theorem probe_preserves_resolved (s : WFCState) (oj : Option Nat) (d : Dir)
    (j : Nat) (t : TileData) (hj : s.tiles.get? j = some t) (h0 : t.entropy = 0) :
    ((neighborEntropyProbe s oj d).2).tiles.get? j = some t := by
  cases oj with
  | none => exact hj
  | some k =>
    show ((match getEntropyStep s k with
      | (.ok e, s2) => ((Except.ok (some e) : Except WfcErr (Option Entropy)), s2)
      | (.error _, s2) => (.error (.brokenLevel d), s2)).2).tiles.get? j = some t
    have hp := getEntropyStep_preserves_resolved s k j t hj h0
    rcases hg : getEntropyStep s k with ⟨r, s2⟩
    rw [hg] at hp
    cases r <;> exact hp

/-- A probe of a resolved index returns entropy `0` and changes nothing. -/
theorem probe_resolved (s : WFCState) (j : Nat) (d : Dir) (t : TileData)
    (hj : s.tiles.get? j = some t) (h0 : t.entropy = 0) :
    neighborEntropyProbe s (some j) d = (.ok (some 0), s) := by
  show (match getEntropyStep s j with
    | (.ok e, s2) => ((Except.ok (some e) : Except WfcErr (Option Entropy)), s2)
    | (.error _, s2) => (.error (.brokenLevel d), s2)) = _
  rw [getEntropyStep_resolved s j t hj h0]

/-- The unguarded entropy update leaves a resolved cell intact whenever the
probed value for that cell was `0`. -/
theorem applyEntropyUpdate_preserves (s : WFCState) (oj : Option Nat)
    (oe : Option Entropy) (j : Nat) (t : TileData)
    (hj : s.tiles.get? j = some t) (h0 : t.entropy = 0)
    (hguard : oj = some j → oe = some 0) :
    (applyEntropyUpdate s oj oe).tiles.get? j = some t := by
  cases oj with
  | none => exact hj
  | some k =>
    cases oe with
    | none => exact hj
    | some e =>
      show (if e ≠ 0 then writeEntropy s k e else s).tiles.get? j = some t
      by_cases hkj : k = j
      · subst hkj
        have he := Option.some.inj (hguard rfl)
        rw [if_neg (by rw [he]; simp)]
        exact hj
      · split
        · rw [writeEntropy_get?_ne s k j e hkj]
          exact hj
        · exact hj

/-- The left-block entropy update leaves a resolved cell intact thanks to
its stored-entropy recheck. -/
theorem applyEntropyUpdateLeft_preserves (s : WFCState) (oj : Option Nat)
    (oe : Option Entropy) (j : Nat) (t : TileData)
    (hj : s.tiles.get? j = some t) (h0 : t.entropy = 0) :
    (applyEntropyUpdateLeft s oj oe).tiles.get? j = some t := by
  cases oj with
  | none => exact hj
  | some k =>
    cases oe with
    | none => exact hj
    | some e =>
      show (if e ≠ 0 ∧ entropyAt? s k ≠ some 0 then writeEntropy s k e else s).tiles.get? j = some t
      by_cases hkj : k = j
      · subst hkj
        rw [if_neg (by
          intro hcontra
          exact hcontra.2 (by
            simp only [entropyAt?]
            rw [hj]
            show some t.entropy = some 0
            rw [h0]))]
        exact hj
      · split
        · rw [writeEntropy_get?_ne s k j e hkj]
          exact hj
        · exact hj

/-- Propagation — on success and failure alike — leaves the whole record of
every resolved cell intact. -/
theorem setEntropy_preserves_resolved_cell (s : WFCState) (i j : Nat) (t : TileData)
    (hj : s.tiles.get? j = some t) (h0 : t.entropy = 0) :
    ((setEntropyOfSurroundingTiles s i).2).tiles.get? j = some t := by
  unfold setEntropyOfSurroundingTiles
  dsimp only
  have q1 := probe_preserves_resolved s
    (upTileIndex s.width s.tiles.length i) Dir.up j t hj h0
  rcases hp1 : neighborEntropyProbe s
    (upTileIndex s.width s.tiles.length i) Dir.up with ⟨r1, s1⟩
  rw [hp1] at q1
  try rw [hp1]
  cases r1 with
  | error e => exact q1
  | ok upE =>
    dsimp only
    have q2 := probe_preserves_resolved s1
      (downTileIndex s.width s.tiles.length i) Dir.down j t q1 h0
    rcases hp2 : neighborEntropyProbe s1
      (downTileIndex s.width s.tiles.length i) Dir.down with ⟨r2, s2⟩
    rw [hp2] at q2
    try rw [hp2]
    cases r2 with
    | error e => exact q2
    | ok downE =>
      dsimp only
      have q3 := probe_preserves_resolved s2
        (leftTileIndex s.width s.tiles.length i) Dir.left j t q2 h0
      rcases hp3 : neighborEntropyProbe s2
        (leftTileIndex s.width s.tiles.length i) Dir.left with ⟨r3, s3⟩
      rw [hp3] at q3
      try rw [hp3]
      cases r3 with
      | error e => exact q3
      | ok leftE =>
        dsimp only
        have q4 := probe_preserves_resolved s3
          (rightTileIndex s.width s.tiles.length i) Dir.right j t q3 h0
        rcases hp4 : neighborEntropyProbe s3
          (rightTileIndex s.width s.tiles.length i) Dir.right with ⟨r4, s4⟩
        rw [hp4] at q4
        try rw [hp4]
        cases r4 with
        | error e => exact q4
        | ok rightE =>
          dsimp only
          have hGup : upTileIndex s.width s.tiles.length i = some j → upE = some 0 := by
            intro he
            rw [he, probe_resolved s j Dir.up t hj h0] at hp1
            injection hp1 with ha hb
            injection ha with hc
            exact hc.symm
          have hGdown : downTileIndex s.width s.tiles.length i = some j → downE = some 0 := by
            intro he
            rw [he, probe_resolved s1 j Dir.down t q1 h0] at hp2
            injection hp2 with ha hb
            injection ha with hc
            exact hc.symm
          have hGright : rightTileIndex s.width s.tiles.length i = some j → rightE = some 0 := by
            intro he
            rw [he, probe_resolved s3 j Dir.right t q3 h0] at hp4
            injection hp4 with ha hb
            injection ha with hc
            exact hc.symm
          have q5 := applyEntropyUpdateLeft_preserves s4
            (leftTileIndex s.width s.tiles.length i) leftE j t q4 h0
          have q6 := applyEntropyUpdate_preserves _
            (rightTileIndex s.width s.tiles.length i) rightE j t q5 h0 hGright
          have q7 := applyEntropyUpdate_preserves _
            (upTileIndex s.width s.tiles.length i) upE j t q6 h0 hGup
          exact applyEntropyUpdate_preserves _
            (downTileIndex s.width s.tiles.length i) downE j t q7 h0 hGdown

/-- C8: propagation after resolving a cell never overwrites a resolved
neighbour — for every in-bounds neighbour of the resolved cell, in each of
the four directions, whose entropy is `0` beforehand, both its entropy and
its type are unchanged afterwards. -/
theorem propagation_preserves_resolved_neighbors (s : WFCState) (i j : Nat) (d : Dir)
    (t : TileData) (hd : neighborIndex s.width s.tiles.length i d = some j)
    (hj : s.tiles.get? j = some t) (h0 : t.entropy = 0) :
    entropyAt? ((setEntropyOfSurroundingTiles s i).2) j = some 0 ∧
    typeAt ((setEntropyOfSurroundingTiles s i).2) j = typeAt s j := by
  have hcell := setEntropy_preserves_resolved_cell s i j t hj h0
  constructor
  · simp only [entropyAt?]
    rw [hcell]
    show some t.entropy = some 0
    rw [h0]
  · rw [typeAt, hcell, typeAt, hj]

/-- C8 witness: evaluated on the concrete mid-run state (cell 1 resolves, its
left neighbour cell 0 is already resolved). -/
theorem propagation_preserves_resolved_neighbors_witness :
    entropyAt? ((setEntropyOfSurroundingTiles retryState 1).2) 0 = some 0 ∧
    typeAt ((setEntropyOfSurroundingTiles retryState 1).2) 0 = typeAt retryState 0 :=
  propagation_preserves_resolved_neighbors retryState 1 0 Dir.left
    { index := some 0, type := some "A", entropy := 0, availableTiles := [] }
    (by decide) (by decide) (by decide)

/-! ## C1: local consistency of successful runs -/

/-- The local-consistency property of the specification: for every resolved
cell and every in-bounds resolved neighbour of it in direction `d`, the
neighbour's type is a member of the rule list `rules[cell.type][d]`. -/
def LocallyConsistent (s : WFCState) : Prop :=
  ∀ i d j, neighborIndex s.width s.tiles.length i d = some j →
    resolvedAt s i → resolvedAt s j →
    ∃ ti tj, typeAt s i = some ti ∧ typeAt s j = some tj ∧
      tj ∈ listOf s.rules ti d

/-- The pre-seeded configuration of the asymmetric counterexample run: a
1×2 column, seed 1, rules where `A` accepts `B` below itself, but `B` only
accepts `B` above itself. -/
def cfgAsym : WFCState :=
  setTiles (setWeights (setRules (mkWFC ⟨1, 2, some 1⟩ 0) rulesAsym) []) [] true

/-- C1, counterexample: a run that terminates successfully (the generator
returns with every cell resolved and no error is raised or logged) and
whose output grid violates the directional adjacency rules: cell 1 resolves
to `B` below the `A` at cell 0, yet `A` is not a member of
`rules["B"].up` — pairwise consistency fails because the rule table is
directionally asymmetric, which the data model explicitly admits. -/
theorem successful_run_violates_adjacency :
    (generateLevel cfgAsym).1 = .ok none ∧
    resolvedAt (generateLevel cfgAsym).2 0 ∧
    resolvedAt (generateLevel cfgAsym).2 1 ∧
    neighborIndex (generateLevel cfgAsym).2.width
      (generateLevel cfgAsym).2.tiles.length 1 Dir.up = some 0 ∧
    typeAt (generateLevel cfgAsym).2 1 = some "B" ∧
    typeAt (generateLevel cfgAsym).2 0 = some "A" ∧
    "A" ∉ listOf (generateLevel cfgAsym).2.rules "B" Dir.up := by
  decide

/-- Directional symmetry of a rule table: whenever `b` may sit in direction
`d` of `a`, `a` may sit in the opposite direction of `b`. -/
def SymmetricRules (R : List (String × Rule)) : Prop :=
  ∀ a b d, b ∈ listOf R a d → a ∈ listOf R b d.opposite

/-- Every registered rule has four nonempty direction lists. -/
def NonemptyRuleLists (R : List (String × Rule)) : Prop :=
  ∀ ty r, R.lookup ty = some r → ∀ d, r.dirList d ≠ []

/-- Every configured weight is at least `1`. -/
def PositiveWeights (W : List (String × Nat)) : Prop :=
  ∀ ty k, W.lookup ty = some k → 1 ≤ k

/-- Taking opposites twice is the identity. -/
theorem opposite_opposite (d : Dir) : d.opposite.opposite = d := by
  cases d <;> rfl

/-- Membership in a rule list implies the type is registered. -/
theorem listOf_lookup_isSome {R : List (String × Rule)} {ty x : String} {d : Dir}
    (h : x ∈ listOf R ty d) : ∃ r, R.lookup ty = some r := by
  unfold listOf at h
  cases hl : R.lookup ty with
  | none => rw [hl] at h; simp at h
  | some r => exact ⟨r, rfl⟩

/-- `listOf` of a registered type is the rule's direction list. -/
theorem listOf_eq_of_lookup {R : List (String × Rule)} {ty : String} {r : Rule}
    (h : R.lookup ty = some r) (d : Dir) : listOf R ty d = r.dirList d := by
  unfold listOf
  rw [h]

/-- A key occurring in the key list of an association list has a lookup. -/
theorem lookup_isSome_of_mem_keys {l : List (String × α)} {k : String}
    (h : k ∈ l.map Prod.fst) : ∃ v, l.lookup k = some v := by
  induction l with
  | nil => simp at h
  | cons p t ih =>
    rw [List.map_cons, List.mem_cons] at h
    by_cases hk : k = p.1
    · exact ⟨p.2, by simp [List.lookup, hk]⟩
    · have : k ∈ t.map Prod.fst := by
        rcases h with h | h
        · exact absurd h hk
        · exact h
      obtain ⟨v, hv⟩ := ih this
      refine ⟨v, ?_⟩
      rw [List.lookup]
      have hbeq : (k == p.1) = false := by simpa using hk
      rw [hbeq]
      exact hv

/-- A successful lookup comes from a member pair. -/
theorem mem_of_lookup_eq_some {l : List (String × α)} {k : String} {v : α}
    (h : l.lookup k = some v) : (k, v) ∈ l := by
  induction l with
  | nil => simp [List.lookup] at h
  | cons p t ih =>
    rw [List.lookup] at h
    split at h
    · next heq =>
      cases h
      have : k = p.1 := by simpa using heq
      rw [List.mem_cons]
      left
      rw [this]
    · exact List.mem_cons_of_mem _ (ih h)

/-- Checkable symmetry of a rule table. -/
def symmetricRulesB (R : List (String × Rule)) : Bool :=
  R.all fun p =>
    [Dir.up, Dir.down, Dir.left, Dir.right].all fun d =>
      (p.2.dirList d).all fun b => (listOf R b d.opposite).contains p.1

/-- The checkable form implies directional symmetry. -/
theorem symmetricRulesB_spec (R : List (String × Rule)) (h : symmetricRulesB R = true) :
    SymmetricRules R := by
  intro a b d hb
  obtain ⟨r, hl⟩ := listOf_lookup_isSome hb
  rw [listOf_eq_of_lookup hl] at hb
  have hmem := mem_of_lookup_eq_some hl
  have h1 := List.all_eq_true.mp h (a, r) hmem
  have h2 := List.all_eq_true.mp h1 d (by cases d <;> decide)
  have h3 := List.all_eq_true.mp h2 b hb
  simpa using h3

/-- Checkable nonemptiness of all rule lists. -/
def nonemptyRuleListsB (R : List (String × Rule)) : Bool :=
  R.all fun p =>
    [Dir.up, Dir.down, Dir.left, Dir.right].all fun d => !(p.2.dirList d).isEmpty

/-- The checkable form implies nonemptiness — for the first entry of each
key, which is what lookup returns. -/
theorem nonemptyRuleListsB_spec (R : List (String × Rule))
    (h : nonemptyRuleListsB R = true) : NonemptyRuleLists R := by
  intro ty r hl d
  have hmem := mem_of_lookup_eq_some hl
  have h1 := List.all_eq_true.mp h (ty, r) hmem
  have h2 := List.all_eq_true.mp h1 d (by cases d <;> decide)
  intro hc
  rw [hc] at h2
  simp at h2

/-- Checkable weight positivity. -/
def positiveWeightsB (W : List (String × Nat)) : Bool :=
  W.all fun p => 1 ≤ p.2

/-- The checkable form implies weight positivity. -/
theorem positiveWeightsB_spec (W : List (String × Nat))
    (h : positiveWeightsB W = true) : PositiveWeights W := by
  intro ty k hl
  have hmem := mem_of_lookup_eq_some hl
  have h1 := List.all_eq_true.mp h (ty, k) hmem
  simpa using h1

/-- Guard extraction for the up neighbour. -/
theorem upTileIndex_some {w len i j : Nat} (h : upTileIndex w len i = some j) :
    w ≤ i ∧ j = i - w := by
  unfold upTileIndex at h
  split_ifs at h with hc
  exact ⟨by omega, (Option.some.inj h).symm⟩

/-- Guard extraction for the down neighbour. -/
theorem downTileIndex_some {w len i j : Nat} (h : downTileIndex w len i = some j) :
    i + w < len ∧ j = i + w := by
  unfold downTileIndex at h
  split_ifs at h with hc
  exact ⟨by omega, (Option.some.inj h).symm⟩

/-- Guard extraction for the left neighbour. -/
theorem leftTileIndex_some {w len i j : Nat} (h : leftTileIndex w len i = some j) :
    i % w ≠ 0 ∧ j = i - 1 := by
  unfold leftTileIndex at h
  split_ifs at h with hc
  exact ⟨hc, (Option.some.inj h).symm⟩

/-- Guard extraction for the right neighbour. -/
theorem rightTileIndex_some {w len i j : Nat} (h : rightTileIndex w len i = some j) :
    i % w ≠ w - 1 ∧ j = i + 1 := by
  unfold rightTileIndex at h
  split_ifs at h with hc
  exact ⟨hc, (Option.some.inj h).symm⟩

/-- Two distinct directions from the same cell reach distinct neighbours. -/
theorem neighborIndex_inj (w h i j : Nat) (d d' : Dir) (hw : 1 ≤ w) (hi : i < w * h)
    (h1 : neighborIndex w (w * h) i d = some j)
    (h2 : neighborIndex w (w * h) i d' = some j) : d = d' := by
  have hi0ofmod : i % w ≠ 0 → i ≠ 0 := by
    intro hm h0
    subst h0
    exact hm (Nat.zero_mod w)
  cases d <;> cases d' <;> try rfl
  all_goals simp only [neighborIndex] at h1 h2
  case up.down =>
    obtain ⟨hc1, he1⟩ := upTileIndex_some h1
    obtain ⟨hc2, he2⟩ := downTileIndex_some h2
    omega
  case up.left =>
    obtain ⟨hc1, he1⟩ := upTileIndex_some h1
    obtain ⟨hc2, he2⟩ := leftTileIndex_some h2
    have := hi0ofmod hc2
    by_cases hw1 : w = 1
    · subst hw1
      exact absurd (Nat.mod_one i) hc2
    · omega
  case up.right =>
    obtain ⟨hc1, he1⟩ := upTileIndex_some h1
    obtain ⟨hc2, he2⟩ := rightTileIndex_some h2
    omega
  case down.up =>
    obtain ⟨hc1, he1⟩ := downTileIndex_some h1
    obtain ⟨hc2, he2⟩ := upTileIndex_some h2
    omega
  case down.left =>
    obtain ⟨hc1, he1⟩ := downTileIndex_some h1
    obtain ⟨hc2, he2⟩ := leftTileIndex_some h2
    have := hi0ofmod hc2
    omega
  case down.right =>
    obtain ⟨hc1, he1⟩ := downTileIndex_some h1
    obtain ⟨hc2, he2⟩ := rightTileIndex_some h2
    by_cases hw1 : w = 1
    · subst hw1
      exact absurd (Nat.mod_one i) hc2
    · omega
  case left.up =>
    obtain ⟨hc1, he1⟩ := leftTileIndex_some h1
    obtain ⟨hc2, he2⟩ := upTileIndex_some h2
    have := hi0ofmod hc1
    by_cases hw1 : w = 1
    · subst hw1
      exact absurd (Nat.mod_one i) hc1
    · omega
  case left.down =>
    obtain ⟨hc1, he1⟩ := leftTileIndex_some h1
    obtain ⟨hc2, he2⟩ := downTileIndex_some h2
    have := hi0ofmod hc1
    omega
  case left.right =>
    obtain ⟨hc1, he1⟩ := leftTileIndex_some h1
    obtain ⟨hc2, he2⟩ := rightTileIndex_some h2
    have := hi0ofmod hc1
    omega
  case right.up =>
    obtain ⟨hc1, he1⟩ := rightTileIndex_some h1
    obtain ⟨hc2, he2⟩ := upTileIndex_some h2
    omega
  case right.down =>
    obtain ⟨hc1, he1⟩ := rightTileIndex_some h1
    obtain ⟨hc2, he2⟩ := downTileIndex_some h2
    by_cases hw1 : w = 1
    · subst hw1
      exact absurd (Nat.mod_one i) hc1
    · omega
  case right.left =>
    obtain ⟨hc1, he1⟩ := rightTileIndex_some h1
    obtain ⟨hc2, he2⟩ := leftTileIndex_some h2
    have := hi0ofmod hc2
    omega

/-- Neighbourhood is symmetric: the opposite direction from the neighbour
leads back. -/
theorem neighborIndex_symm (w h i j : Nat) (d : Dir) (hw : 1 ≤ w) (hi : i < w * h)
    (hj : neighborIndex w (w * h) i d = some j) :
    neighborIndex w (w * h) j d.opposite = some i := by
  cases d
  case up =>
    simp only [neighborIndex, Dir.opposite] at hj ⊢
    obtain ⟨hc, he⟩ := upTileIndex_some hj
    subst he
    unfold downTileIndex
    rw [if_neg (by omega)]
    congr 1
    omega
  case down =>
    simp only [neighborIndex, Dir.opposite] at hj ⊢
    obtain ⟨hc, he⟩ := downTileIndex_some hj
    subst he
    unfold upTileIndex
    rw [if_neg (by omega)]
    congr 1
    omega
  case left =>
    simp only [neighborIndex, Dir.opposite] at hj ⊢
    obtain ⟨hc, he⟩ := leftTileIndex_some hj
    subst he
    have hdm := Nat.div_add_mod i w
    have hrlt : i % w < w := Nat.mod_lt i (by omega)
    have hi0 : i ≠ 0 := by
      intro h0
      subst h0
      exact hc (Nat.zero_mod w)
    have hr1 : 1 ≤ i % w := by omega
    have hjmod : (i - 1) % w = i % w - 1 := by
      have hrep : i - 1 = w * (i / w) + (i % w - 1) := by omega
      rw [hrep, Nat.mul_add_mod]
      exact Nat.mod_eq_of_lt (by omega)
    unfold rightTileIndex
    rw [if_neg (by omega)]
    congr 1
    omega
  case right =>
    simp only [neighborIndex, Dir.opposite] at hj ⊢
    obtain ⟨hc, he⟩ := rightTileIndex_some hj
    subst he
    have hdm := Nat.div_add_mod i w
    have hrlt : i % w < w := Nat.mod_lt i (by omega)
    have hjmod : (i + 1) % w = i % w + 1 := by
      have hrep : i + 1 = w * (i / w) + (i % w + 1) := by omega
      rw [hrep, Nat.mul_add_mod]
      exact Nat.mod_eq_of_lt (by omega)
    unfold leftTileIndex
    rw [if_neg (by omega)]
    congr 1

/-! ## Core congruence: the entropy computation ignores `availableTiles` -/

/-- Two states agreeing on geometry, rules, and the entropy/type fields of
every cell; the `availableTiles` fields may differ. -/
def SameCore (s u : WFCState) : Prop :=
  s.width = u.width ∧ s.rules = u.rules ∧ s.tiles.length = u.tiles.length ∧
  ∀ j, (s.tiles.get? j).map (fun t => (t.entropy, t.type)) =
       (u.tiles.get? j).map (fun t => (t.entropy, t.type))

/-- Reflexivity. -/
theorem sameCore_refl (s : WFCState) : SameCore s s :=
  ⟨rfl, rfl, rfl, fun _ => rfl⟩

/-- Transitivity. -/
theorem sameCore_trans {s u v : WFCState} (h1 : SameCore s u) (h2 : SameCore u v) :
    SameCore s v :=
  ⟨h1.1.trans h2.1, h1.2.1.trans h2.2.1, h1.2.2.1.trans h2.2.2.1,
   fun j => (h1.2.2.2 j).trans (h2.2.2.2 j)⟩

/-- An `availableTiles` write keeps the core. -/
theorem sameCore_writeAvail (s : WFCState) (k : Nat) (l : List String) :
    SameCore (writeAvail s k l) s := by
  refine ⟨rfl, rfl, ?_, ?_⟩
  · unfold writeAvail
    cases hg : s.tiles.get? k with
    | none => rfl
    | some t => exact List.length_set s.tiles k _
  · intro j
    unfold writeAvail
    cases hg : s.tiles.get? k with
    | none => rfl
    | some t =>
      by_cases hjk : j = k
      · subst hjk
        show ((s.tiles.set j { t with availableTiles := l }).get? j).map _ = _
        rw [List.get?_set_eq, hg]
        rfl
      · show ((s.tiles.set k { t with availableTiles := l }).get? j).map _ = _
        rw [List.get?_set_ne _ _ (fun hc => hjk hc.symm)]

/-- `applyAvail` keeps the core. -/
theorem sameCore_applyAvail (s : WFCState) (k : Nat) (av : Option (List String)) :
    SameCore (applyAvail s k av) s := by
  cases av with
  | none => exact sameCore_refl s
  | some l => exact sameCore_writeAvail s k l

/-- One fetch block computes equally on core-equal states. -/
theorem contributionOf_congr {s u : WFCState} (hc : SameCore s u)
    (oj : Option Nat) (sel : Dir) :
    contributionOf s oj sel = contributionOf u oj sel := by
  obtain ⟨hww, hrr, hll, hcell⟩ := hc
  cases oj with
  | none => rfl
  | some j =>
    have hj := hcell j
    unfold contributionOf
    dsimp only
    cases hgs : s.tiles.get? j with
    | none =>
      rw [hgs] at hj
      cases hgu : u.tiles.get? j with
      | none => rfl
      | some tu => rw [hgu] at hj; simp at hj
    | some ts =>
      rw [hgs] at hj
      cases hgu : u.tiles.get? j with
      | none => rw [hgu] at hj; simp at hj
      | some tu =>
        rw [hgu] at hj
        have hpair : (ts.entropy, ts.type) = (tu.entropy, tu.type) := by
          simpa using hj
        have hent : ts.entropy = tu.entropy := congrArg Prod.fst hpair
        have htype : ts.type = tu.type := congrArg Prod.snd hpair
        dsimp only
        rw [hent, htype, hrr]

/-- The entropy computation computes equally on core-equal states. -/
theorem computeEntropy_congr {s u : WFCState} (hc : SameCore s u) (i : Nat) :
    computeEntropy s i = computeEntropy u i := by
  have hc' := hc
  obtain ⟨hww, hrr, hll, hcell⟩ := hc'
  have hi := hcell i
  unfold computeEntropy
  dsimp only
  cases hgs : s.tiles.get? i with
  | none =>
    rw [hgs] at hi
    cases hgu : u.tiles.get? i with
    | none => rfl
    | some tu => rw [hgu] at hi; simp at hi
  | some ts =>
    rw [hgs] at hi
    cases hgu : u.tiles.get? i with
    | none => rw [hgu] at hi; simp at hi
    | some tu =>
      rw [hgu] at hi
      have hpair : (ts.entropy, ts.type) = (tu.entropy, tu.type) := by
        simpa using hi
      have hent : ts.entropy = tu.entropy := congrArg Prod.fst hpair
      dsimp only
      rw [hent]
      by_cases h0 : tu.entropy = 0
      · rw [if_pos h0, if_pos h0]
      · rw [if_neg h0, if_neg h0]
        simp only [contributionOf_congr hc, hww, hll]

/-! ## Characterisation of the entropy computation for the run invariant -/

/-- An `isEmpty` list is nil. -/
theorem eq_nil_of_isEmpty {l : List α} (h : l.isEmpty = true) : l = [] := by
  cases l with
  | nil => rfl
  | cons a t => simp at h

/-- Members of the specification intersection lie in every contributed
list. -/
theorem specIntersection_subset (ls : List (List String)) (x : String)
    (hx : x ∈ specIntersection ls) : ∀ l ∈ ls, x ∈ l := by
  intro l hl
  unfold specIntersection at hx
  have h2 := (List.mem_filter.mp hx).2
  have h3 := List.all_eq_true.mp h2 l hl
  simpa using h3

/-- A resolved in-bounds neighbour always contributes its (nonempty)
opposite-direction list. -/
theorem specContribution_resolved (s : WFCState) (i : Nat) (d : Dir) (j : Nat)
    (tj : TileData) (hj : neighborIndex s.width s.tiles.length i d = some j)
    (hjt : s.tiles.get? j = some tj) (h0 : tj.entropy = 0)
    (hok : ∀ j t, s.tiles.get? j = some t → t.entropy = 0 →
      ∃ ty r, t.type = some ty ∧ s.rules.lookup ty = some r)
    (hne : NonemptyRuleLists s.rules) :
    ∃ ty r, tj.type = some ty ∧ s.rules.lookup ty = some r ∧
      specContribution s i d = some (r.dirList d.opposite) := by
  obtain ⟨ty, r, hty, hr⟩ := hok j tj hjt h0
  refine ⟨ty, r, hty, hr, ?_⟩
  unfold specContribution
  rw [hj]
  dsimp only
  rw [hjt]
  dsimp only
  rw [if_pos h0, hty]
  dsimp only
  rw [hr]
  dsimp only
  rw [if_neg (by rw [isEmpty_false_of_ne_nil (hne ty r hr d.opposite)]; simp)]

/-- Elimination of a successful contribution. -/
theorem specContribution_some_elim (s : WFCState) (i : Nat) (d : Dir) (l : List String)
    (h : specContribution s i d = some l) :
    ∃ j tj ty r, neighborIndex s.width s.tiles.length i d = some j ∧
      s.tiles.get? j = some tj ∧ tj.entropy = 0 ∧ tj.type = some ty ∧
      s.rules.lookup ty = some r ∧ l = r.dirList d.opposite := by
  unfold specContribution at h
  split at h
  · simp at h
  next j hj =>
    split at h
    · simp at h
    next tj hjt =>
      split at h
      case isTrue h0 =>
        split at h
        · simp at h
        next ty hty =>
          split at h
          · simp at h
          next r hr =>
            split at h
            · simp at h
            · exact ⟨j, tj, ty, r, hj, hjt, h0, hty, hr, (Option.some.inj h).symm⟩
      case isFalse h0 => simp at h

/-- Membership in the contribution list is existence of a contributing
direction. -/
theorem mem_specContributions (s : WFCState) (i : Nat) (c : List String) :
    c ∈ specContributions s i ↔ ∃ d, specContribution s i d = some c := by
  unfold specContributions
  rw [List.mem_filterMap]
  constructor
  · rintro ⟨o, ho, hid⟩
    have hid' : o = some c := hid
    simp only [List.mem_cons, List.not_mem_nil, or_false] at ho
    rcases ho with h | h | h | h
    · exact ⟨Dir.up, by rw [← h]; exact hid'⟩
    · exact ⟨Dir.down, by rw [← h]; exact hid'⟩
    · exact ⟨Dir.left, by rw [← h]; exact hid'⟩
    · exact ⟨Dir.right, by rw [← h]; exact hid'⟩
  · rintro ⟨d, hd⟩
    refine ⟨some c, ?_, rfl⟩
    rw [← hd]
    cases d
    case up => exact List.mem_cons_self _ _
    case down => exact List.mem_cons_of_mem _ (List.mem_cons_self _ _)
    case left => exact List.mem_cons_of_mem _ (List.mem_cons_of_mem _ (List.mem_cons_self _ _))
    case right =>
      exact List.mem_cons_of_mem _ (List.mem_cons_of_mem _
        (List.mem_cons_of_mem _ (List.mem_cons_self _ _)))

/-- The entropy computation of an unresolved cell, presented through the
specification's contributions. -/
theorem computeEntropy_spec_form (s : WFCState) (i : Nat) (ti : TileData)
    (hw : 1 ≤ s.width) (hlen : s.tiles.length = s.width * s.height)
    (hi : s.tiles.get? i = some ti) (hnz : ti.entropy ≠ 0)
    (hok : ∀ j t, s.tiles.get? j = some t → t.entropy = 0 →
      ∃ ty r, t.type = some ty ∧ s.rules.lookup ty = some r) :
    computeEntropy s i =
      (if (specContributions s i).isEmpty then .ok (⊤, none)
       else if (specIntersection (specContributions s i)).isEmpty then
         .error .brokenPlot
       else
         .ok (((specIntersection (specContributions s i)).length : Entropy),
           some (specIntersection (specContributions s i)))) := by
  have hilt : i < s.tiles.length := by
    rcases List.get?_eq_some.mp hi with ⟨hh, _⟩
    exact hh
  obtain ⟨cu, hcu, hsu⟩ := contributionOf_spec s i Dir.up hw hlen hilt hok
  obtain ⟨cd, hcd, hsd⟩ := contributionOf_spec s i Dir.down hw hlen hilt hok
  obtain ⟨cl, hcl, hsl⟩ := contributionOf_spec s i Dir.left hw hlen hilt hok
  obtain ⟨cr, hcr, hsr⟩ := contributionOf_spec s i Dir.right hw hlen hilt hok
  simp only [neighborIndex, Dir.opposite] at hcu hcd hcl hcr
  have hT : specContributions s i = [cu, cd, cl, cr].filter (fun l => !l.isEmpty) := by
    unfold specContributions
    rw [hsu, hsd, hsl, hsr]
    exact filterMap_ifEmpty cu cd cl cr
  unfold computeEntropy
  rw [hi]
  dsimp only
  rw [if_neg hnz]
  rw [hcu]
  dsimp only
  rw [hcd]
  dsimp only
  rw [hcl]
  dsimp only
  rw [hcr]
  dsimp only
  rw [foldl_filter_contains]
  rw [← hT]
  rfl

/-- A resolved cell seen through the `resolvedAt` predicate. -/
theorem resolvedAt_elim {s : WFCState} {j : Nat} (h : resolvedAt s j) :
    ∃ tj, s.tiles.get? j = some tj ∧ tj.entropy = 0 := by
  unfold resolvedAt entropyAt? at h
  cases hg : s.tiles.get? j with
  | none => rw [hg] at h; simp at h
  | some tj =>
    rw [hg] at h
    exact ⟨tj, rfl, by simpa using h⟩

/-- Introduction of `resolvedAt`. -/
theorem resolvedAt_intro {s : WFCState} {j : Nat} {tj : TileData}
    (hg : s.tiles.get? j = some tj) (h0 : tj.entropy = 0) : resolvedAt s j := by
  unfold resolvedAt entropyAt?
  rw [hg]
  show some tj.entropy = some 0
  rw [h0]

/-- What a successful entropy computation of an unresolved cell tells us:
the value is nonzero, and either it is `Infinity` with no resolved in-bounds
neighbour, or it is the size of a nonempty candidate list contained in the
opposite-direction rule list of every resolved in-bounds neighbour. -/
theorem computeEntropy_char (s : WFCState) (i : Nat) (ti : TileData)
    (hw : 1 ≤ s.width) (hlen : s.tiles.length = s.width * s.height)
    (hi : s.tiles.get? i = some ti) (hnz : ti.entropy ≠ 0)
    (hok : ∀ j t, s.tiles.get? j = some t → t.entropy = 0 →
      ∃ ty r, t.type = some ty ∧ s.rules.lookup ty = some r)
    (hne : NonemptyRuleLists s.rules)
    (e : Entropy) (av : Option (List String))
    (heq : computeEntropy s i = .ok (e, av)) :
    e ≠ 0 ∧
    ((e = ⊤ ∧ av = none ∧
      ∀ d j, neighborIndex s.width s.tiles.length i d = some j → ¬ resolvedAt s j) ∨
     (∃ l, av = some l ∧ e = (l.length : Entropy) ∧ l ≠ [] ∧ e ≠ ⊤ ∧
      (∃ d j, neighborIndex s.width s.tiles.length i d = some j ∧ resolvedAt s j) ∧
      (∀ d j tj, neighborIndex s.width s.tiles.length i d = some j →
        s.tiles.get? j = some tj → tj.entropy = 0 → ∀ ty, tj.type = some ty →
        ∀ x ∈ l, x ∈ listOf s.rules ty d.opposite))) := by
  rw [computeEntropy_spec_form s i ti hw hlen hi hnz hok] at heq
  by_cases hFe : (specContributions s i).isEmpty
  · rw [if_pos hFe] at heq
    have hF := eq_nil_of_isEmpty hFe
    injection heq with h1
    have he : ⊤ = e := congrArg Prod.fst h1
    have hav : (none : Option (List String)) = av := congrArg Prod.snd h1
    subst he
    subst hav
    refine ⟨by simp, .inl ⟨rfl, rfl, ?_⟩⟩
    intro d j hnbr hres
    obtain ⟨tj, hjt, h0⟩ := resolvedAt_elim hres
    obtain ⟨ty, r, hty, hr, hsp⟩ :=
      specContribution_resolved s i d j tj hnbr hjt h0 hok hne
    have hmem := (mem_specContributions s i (r.dirList d.opposite)).mpr ⟨d, hsp⟩
    rw [hF] at hmem
    simp at hmem
  · rw [if_neg hFe] at heq
    by_cases hIe : (specIntersection (specContributions s i)).isEmpty
    · rw [if_pos hIe] at heq
      exact absurd heq (by simp)
    · rw [if_neg hIe] at heq
      injection heq with h1
      have he : ((specIntersection (specContributions s i)).length : Entropy) = e :=
        congrArg Prod.fst h1
      have hav : some (specIntersection (specContributions s i)) = av :=
        congrArg Prod.snd h1
      subst he
      subst hav
      have hIne : specIntersection (specContributions s i) ≠ [] := by
        intro hc
        rw [hc] at hIe
        exact hIe rfl
      have hlen0 : (specIntersection (specContributions s i)).length ≠ 0 :=
        fun hc => hIne (List.length_eq_zero.mp hc)
      refine ⟨?_, .inr ⟨specIntersection (specContributions s i), rfl, rfl, hIne, ?_, ?_, ?_⟩⟩
      · intro hc
        exact hlen0 (by exact_mod_cast hc)
      · exact fun hc => (WithTop.natCast_ne_top _) hc
      · have hFne : specContributions s i ≠ [] := by
          intro hc
          rw [hc] at hFe
          exact hFe rfl
        obtain ⟨c, hc⟩ := List.exists_mem_of_ne_nil _ hFne
        obtain ⟨d, hd⟩ := (mem_specContributions s i c).mp hc
        obtain ⟨j, tj, ty, r, hnbr, hjt, h0, _, _, _⟩ :=
          specContribution_some_elim s i d c hd
        exact ⟨d, j, hnbr, resolvedAt_intro hjt h0⟩
      · intro d j tj hnbr hjt h0 ty hty x hx
        obtain ⟨ty', r, hty', hr, hsp⟩ :=
          specContribution_resolved s i d j tj hnbr hjt h0 hok hne
        have hee : ty' = ty := by
          rw [hty] at hty'
          exact (Option.some.inj hty').symm
        subst hee
        have hmem := (mem_specContributions s i (r.dirList d.opposite)).mpr ⟨d, hsp⟩
        have hxin := specIntersection_subset (specContributions s i) x hx _ hmem
        rw [listOf_eq_of_lookup hr]
        exact hxin

/-! ## Frame lemmas and pointwise write descriptions -/

/-- All fields except `tiles` contents and `seed` agree, and the buffer
length is unchanged. -/
def SameFrame (s' s : WFCState) : Prop :=
  s'.width = s.width ∧ s'.height = s.height ∧ s'.numTiles = s.numTiles ∧
  s'.rules = s.rules ∧ s'.weighting = s.weighting ∧
  s'.tiles.length = s.tiles.length ∧ s'.bufferstate = s.bufferstate ∧
  s'.startWithRandom = s.startWithRandom

/-- Reflexivity. -/
theorem sameFrame_refl (s : WFCState) : SameFrame s s :=
  ⟨rfl, rfl, rfl, rfl, rfl, rfl, rfl, rfl⟩

/-- Transitivity. -/
theorem sameFrame_trans {s u v : WFCState} (h1 : SameFrame s u) (h2 : SameFrame u v) :
    SameFrame s v := by
  obtain ⟨a1, b1, c1, d1, e1, f1, g1, i1⟩ := h1
  obtain ⟨a2, b2, c2, d2, e2, f2, g2, i2⟩ := h2
  exact ⟨a1.trans a2, b1.trans b2, c1.trans c2, d1.trans d2, e1.trans e2,
    f1.trans f2, g1.trans g2, i1.trans i2⟩

/-- An entropy write keeps the frame. -/
theorem writeEntropy_frame (s : WFCState) (i : Nat) (e : Entropy) :
    SameFrame (writeEntropy s i e) s := by
  refine ⟨rfl, rfl, rfl, rfl, rfl, ?_, rfl, rfl⟩
  unfold writeEntropy
  cases hg : s.tiles.get? i with
  | none => rfl
  | some t => exact List.length_set s.tiles i _

/-- A type write keeps the frame. -/
theorem writeType_frame (s : WFCState) (i : Nat) (ty : Option String) :
    SameFrame (writeType s i ty) s := by
  refine ⟨rfl, rfl, rfl, rfl, rfl, ?_, rfl, rfl⟩
  unfold writeType
  cases hg : s.tiles.get? i with
  | none => rfl
  | some t => exact List.length_set s.tiles i _

/-- An `availableTiles` write keeps the frame. -/
theorem writeAvail_frame (s : WFCState) (i : Nat) (l : List String) :
    SameFrame (writeAvail s i l) s := by
  refine ⟨rfl, rfl, rfl, rfl, rfl, ?_, rfl, rfl⟩
  unfold writeAvail
  cases hg : s.tiles.get? i with
  | none => rfl
  | some t => exact List.length_set s.tiles i _

/-- `applyAvail` keeps the frame. -/
theorem applyAvail_frame (s : WFCState) (i : Nat) (av : Option (List String)) :
    SameFrame (applyAvail s i av) s := by
  cases av with
  | none => exact sameFrame_refl s
  | some l => exact writeAvail_frame s i l

/-- `_getEntropy` keeps the frame. -/
theorem getEntropyStep_frame (s : WFCState) (i : Nat) :
    SameFrame (getEntropyStep s i).2 s := by
  unfold getEntropyStep
  cases hce : computeEntropy s i with
  | error e => exact sameFrame_refl s
  | ok p => exact applyAvail_frame s i p.2

/-- A probe keeps the frame. -/
theorem probe_frame (s : WFCState) (oj : Option Nat) (d : Dir) :
    SameFrame (neighborEntropyProbe s oj d).2 s := by
  cases oj with
  | none => exact sameFrame_refl s
  | some j =>
    show SameFrame (match getEntropyStep s j with
      | (.ok e, s2) => ((Except.ok (some e) : Except WfcErr (Option Entropy)), s2)
      | (.error _, s2) => (.error (.brokenLevel d), s2)).2 s
    have hf := getEntropyStep_frame s j
    rcases hg : getEntropyStep s j with ⟨r, s2⟩
    rw [hg] at hf
    cases r <;> exact hf

/-- The unguarded entropy update keeps the frame. -/
theorem applyEntropyUpdate_frame (s : WFCState) (oj : Option Nat) (oe : Option Entropy) :
    SameFrame (applyEntropyUpdate s oj oe) s := by
  cases oj with
  | none => exact sameFrame_refl s
  | some j =>
    cases oe with
    | none => exact sameFrame_refl s
    | some e =>
      show SameFrame (if e ≠ 0 then writeEntropy s j e else s) s
      split
      · exact writeEntropy_frame s j e
      · exact sameFrame_refl s

/-- The left-block entropy update keeps the frame. -/
theorem applyEntropyUpdateLeft_frame (s : WFCState) (oj : Option Nat) (oe : Option Entropy) :
    SameFrame (applyEntropyUpdateLeft s oj oe) s := by
  cases oj with
  | none => exact sameFrame_refl s
  | some j =>
    cases oe with
    | none => exact sameFrame_refl s
    | some e =>
      show SameFrame (if e ≠ 0 ∧ entropyAt? s j ≠ some 0 then writeEntropy s j e else s) s
      split
      · exact writeEntropy_frame s j e
      · exact sameFrame_refl s

/-- Propagation keeps the frame, on every path. -/
theorem setEntropy_frame (s : WFCState) (i : Nat) :
    SameFrame (setEntropyOfSurroundingTiles s i).2 s := by
  unfold setEntropyOfSurroundingTiles
  dsimp only
  have h1 := probe_frame s (upTileIndex s.width s.tiles.length i) Dir.up
  rcases hp1 : neighborEntropyProbe s
    (upTileIndex s.width s.tiles.length i) Dir.up with ⟨r1, s1⟩
  rw [hp1] at h1
  cases r1 with
  | error e => exact h1
  | ok upE =>
    dsimp only
    have h2 := probe_frame s1 (downTileIndex s.width s.tiles.length i) Dir.down
    rcases hp2 : neighborEntropyProbe s1
      (downTileIndex s.width s.tiles.length i) Dir.down with ⟨r2, s2⟩
    rw [hp2] at h2
    cases r2 with
    | error e => exact sameFrame_trans h2 h1
    | ok downE =>
      dsimp only
      have h3 := probe_frame s2 (leftTileIndex s.width s.tiles.length i) Dir.left
      rcases hp3 : neighborEntropyProbe s2
        (leftTileIndex s.width s.tiles.length i) Dir.left with ⟨r3, s3⟩
      rw [hp3] at h3
      cases r3 with
      | error e => exact sameFrame_trans (sameFrame_trans h3 h2) h1
      | ok leftE =>
        dsimp only
        have h4 := probe_frame s3 (rightTileIndex s.width s.tiles.length i) Dir.right
        rcases hp4 : neighborEntropyProbe s3
          (rightTileIndex s.width s.tiles.length i) Dir.right with ⟨r4, s4⟩
        rw [hp4] at h4
        cases r4 with
        | error e => exact sameFrame_trans (sameFrame_trans (sameFrame_trans h4 h3) h2) h1
        | ok rightE =>
          dsimp only
          have h5 := applyEntropyUpdateLeft_frame s4
            (leftTileIndex s.width s.tiles.length i) leftE
          have h6 := applyEntropyUpdate_frame
            (applyEntropyUpdateLeft s4 (leftTileIndex s.width s.tiles.length i) leftE)
            (rightTileIndex s.width s.tiles.length i) rightE
          have h7 := applyEntropyUpdate_frame
            (applyEntropyUpdate
              (applyEntropyUpdateLeft s4 (leftTileIndex s.width s.tiles.length i) leftE)
              (rightTileIndex s.width s.tiles.length i) rightE)
            (upTileIndex s.width s.tiles.length i) upE
          have h8 := applyEntropyUpdate_frame
            (applyEntropyUpdate (applyEntropyUpdate
              (applyEntropyUpdateLeft s4 (leftTileIndex s.width s.tiles.length i) leftE)
              (rightTileIndex s.width s.tiles.length i) rightE)
              (upTileIndex s.width s.tiles.length i) upE)
            (downTileIndex s.width s.tiles.length i) downE
          exact sameFrame_trans (sameFrame_trans (sameFrame_trans (sameFrame_trans
            (sameFrame_trans (sameFrame_trans (sameFrame_trans h8 h7) h6) h5) h4) h3) h2) h1

/-- `_getEntropy` leaves other cells untouched. -/
theorem getEntropyStep_get?_ne (s : WFCState) (k j : Nat) (hkj : k ≠ j) :
    ((getEntropyStep s k).2).tiles.get? j = s.tiles.get? j := by
  unfold getEntropyStep
  cases hce : computeEntropy s k with
  | error e => rfl
  | ok p =>
    obtain ⟨e, av⟩ := p
    dsimp only
    cases av with
    | none => rfl
    | some l =>
      unfold applyAvail
      exact writeAvail_get?_ne s k j l hkj

/-- A probe of another index leaves a cell untouched. -/
theorem probe_get?_ne (s : WFCState) (oj : Option Nat) (d : Dir) (j : Nat)
    (h : oj ≠ some j) :
    ((neighborEntropyProbe s oj d).2).tiles.get? j = s.tiles.get? j := by
  cases oj with
  | none => rfl
  | some k =>
    have hkj : k ≠ j := fun hc => h (by rw [hc])
    show ((match getEntropyStep s k with
      | (.ok e, s2) => ((Except.ok (some e) : Except WfcErr (Option Entropy)), s2)
      | (.error _, s2) => (.error (.brokenLevel d), s2)).2).tiles.get? j = s.tiles.get? j
    have hp := getEntropyStep_get?_ne s k j hkj
    rcases hg : getEntropyStep s k with ⟨r, s2⟩
    rw [hg] at hp
    cases r <;> exact hp

/-- Elimination of a successful probe at an index. -/
theorem probe_some_ok (s : WFCState) (k : Nat) (d : Dir) (oe : Option Entropy)
    (s2 : WFCState) (h : neighborEntropyProbe s (some k) d = (.ok oe, s2)) :
    ∃ e av, computeEntropy s k = .ok (e, av) ∧ oe = some e ∧ s2 = applyAvail s k av := by
  have h' : (match getEntropyStep s k with
      | (.ok e, s') => ((Except.ok (some e) : Except WfcErr (Option Entropy)), s')
      | (.error _, s') => (.error (.brokenLevel d), s')) = (.ok oe, s2) := h
  unfold getEntropyStep at h'
  cases hce : computeEntropy s k with
  | error e =>
    rw [hce] at h'
    dsimp only at h'
    exact absurd (congrArg Prod.fst h') (by simp)
  | ok p =>
    obtain ⟨e, av⟩ := p
    rw [hce] at h'
    dsimp only at h'
    have hfst := congrArg Prod.fst h'
    have hsnd := congrArg Prod.snd h'
    injection hfst with hfst'
    exact ⟨e, av, rfl, hfst'.symm, hsnd.symm⟩

/-- `applyAvail` at another index leaves a cell untouched. -/
theorem applyAvail_get?_ne (s : WFCState) (k j : Nat) (av : Option (List String))
    (hkj : k ≠ j) : (applyAvail s k av).tiles.get? j = s.tiles.get? j := by
  cases av with
  | none => rfl
  | some l => exact writeAvail_get?_ne s k j l hkj

/-- `applyAvail` at the cell itself. -/
theorem applyAvail_get?_self (s : WFCState) (k : Nat) (av : Option (List String))
    (t : TileData) (hg : s.tiles.get? k = some t) :
    (applyAvail s k av).tiles.get? k =
      some { t with availableTiles := av.getD t.availableTiles } := by
  cases av with
  | none =>
    show s.tiles.get? k = some { t with availableTiles := t.availableTiles }
    rw [hg]
  | some l =>
    unfold applyAvail writeAvail
    rw [hg]
    dsimp only
    rw [List.get?_set_eq, hg]
    rfl

/-- An entropy write at the cell itself. -/
theorem writeEntropy_get?_self (s : WFCState) (k : Nat) (e : Entropy) (t : TileData)
    (hg : s.tiles.get? k = some t) :
    (writeEntropy s k e).tiles.get? k = some { t with entropy := e } := by
  unfold writeEntropy
  rw [hg]
  dsimp only
  rw [List.get?_set_eq, hg]
  rfl

/-- A type write at the cell itself. -/
theorem writeType_get?_self (s : WFCState) (k : Nat) (ty : Option String) (t : TileData)
    (hg : s.tiles.get? k = some t) :
    (writeType s k ty).tiles.get? k = some { t with type := ty } := by
  unfold writeType
  rw [hg]
  dsimp only
  rw [List.get?_set_eq, hg]
  rfl

/-- A type write at another index is invisible. -/
theorem writeType_get?_ne (s : WFCState) (i j : Nat) (ty : Option String) (h : i ≠ j) :
    (writeType s i ty).tiles.get? j = s.tiles.get? j := by
  unfold writeType
  cases hg : s.tiles.get? i with
  | none => rfl
  | some t => exact List.get?_set_ne _ _ h

/-- The unguarded entropy update at another index is invisible. -/
theorem applyEntropyUpdate_get?_ne (s : WFCState) (oj : Option Nat) (oe : Option Entropy)
    (j : Nat) (h : oj ≠ some j) :
    (applyEntropyUpdate s oj oe).tiles.get? j = s.tiles.get? j := by
  cases oj with
  | none => cases oe <;> rfl
  | some k =>
    have hkj : k ≠ j := fun hc => h (by rw [hc])
    cases oe with
    | none => rfl
    | some e =>
      show (if e ≠ 0 then writeEntropy s k e else s).tiles.get? j = s.tiles.get? j
      split
      · exact writeEntropy_get?_ne s k j e hkj
      · rfl

/-- The left-block entropy update at another index is invisible. -/
theorem applyEntropyUpdateLeft_get?_ne (s : WFCState) (oj : Option Nat)
    (oe : Option Entropy) (j : Nat) (h : oj ≠ some j) :
    (applyEntropyUpdateLeft s oj oe).tiles.get? j = s.tiles.get? j := by
  cases oj with
  | none => cases oe <;> rfl
  | some k =>
    have hkj : k ≠ j := fun hc => h (by rw [hc])
    cases oe with
    | none => rfl
    | some e =>
      show (if e ≠ 0 ∧ entropyAt? s k ≠ some 0 then
        writeEntropy s k e else s).tiles.get? j = s.tiles.get? j
      split
      · exact writeEntropy_get?_ne s k j e hkj
      · rfl

/-- The unguarded update with a truthy value is the entropy write. -/
theorem applyEntropyUpdate_some (s : WFCState) (j : Nat) (e : Entropy) (he : e ≠ 0) :
    applyEntropyUpdate s (some j) (some e) = writeEntropy s j e := by
  show (if e ≠ 0 then writeEntropy s j e else s) = _
  rw [if_pos he]

/-- The left update with a truthy value on an unresolved cell is the entropy
write. -/
theorem applyEntropyUpdateLeft_some (s : WFCState) (j : Nat) (e : Entropy) (he : e ≠ 0)
    (hs : entropyAt? s j ≠ some 0) :
    applyEntropyUpdateLeft s (some j) (some e) = writeEntropy s j e := by
  show (if e ≠ 0 ∧ entropyAt? s j ≠ some 0 then writeEntropy s j e else s) = _
  rw [if_pos ⟨he, hs⟩]

/-- A successful entropy value of an unresolved cell is nonzero. -/
theorem computeEntropy_ok_ne_zero (s : WFCState) (j : Nat) (t : TileData)
    (hw : 1 ≤ s.width) (hlen : s.tiles.length = s.width * s.height)
    (hg : s.tiles.get? j = some t) (hnz : t.entropy ≠ 0)
    (hok : ∀ k t, s.tiles.get? k = some t → t.entropy = 0 →
      ∃ ty r, t.type = some ty ∧ s.rules.lookup ty = some r)
    (hne : NonemptyRuleLists s.rules)
    (e : Entropy) (av : Option (List String))
    (h : computeEntropy s j = .ok (e, av)) : e ≠ 0 :=
  (computeEntropy_char s j t hw hlen hg hnz hok hne e av h).1

/-- `_getEntropy` keeps the core (it only writes `availableTiles`). -/
theorem getEntropyStep_sameCore (s : WFCState) (i : Nat) :
    SameCore (getEntropyStep s i).2 s := by
  unfold getEntropyStep
  cases hce : computeEntropy s i with
  | error e => exact sameCore_refl s
  | ok p => exact sameCore_applyAvail s i p.2

/-- A probe keeps the core. -/
theorem probe_sameCore (s : WFCState) (oj : Option Nat) (d : Dir) :
    SameCore (neighborEntropyProbe s oj d).2 s := by
  cases oj with
  | none => exact sameCore_refl s
  | some j =>
    show SameCore (match getEntropyStep s j with
      | (.ok e, s2) => ((Except.ok (some e) : Except WfcErr (Option Entropy)), s2)
      | (.error _, s2) => (.error (.brokenLevel d), s2)).2 s
    have hf := getEntropyStep_sameCore s j
    rcases hg : getEntropyStep s j with ⟨r, s2⟩
    rw [hg] at hf
    cases r <;> exact hf

/-- Success characterisation of `_setEntropyOfSurroundingTiles`: cells that
are not neighbours of the centre are untouched, and every unresolved
neighbour reachable in exactly one direction is refreshed with the value of
`_getEntropy` evaluated at the pre-state, including the `availableTiles`
overwrite. -/
theorem setEntropy_ok_char (u : WFCState) (ci : Nat) (u' : WFCState)
    (hw : 1 ≤ u.width) (hlen : u.tiles.length = u.width * u.height)
    (hreg : ∀ k t, u.tiles.get? k = some t → t.entropy = 0 →
      ∃ ty r, t.type = some ty ∧ u.rules.lookup ty = some r)
    (hne : NonemptyRuleLists u.rules)
    (hrun : setEntropyOfSurroundingTiles u ci = (.ok (), u')) :
    (∀ j, (∀ d, neighborIndex u.width u.tiles.length ci d ≠ some j) →
      u'.tiles.get? j = u.tiles.get? j) ∧
    (∀ d j t, neighborIndex u.width u.tiles.length ci d = some j →
      (∀ d', d' ≠ d → neighborIndex u.width u.tiles.length ci d' ≠ some j) →
      u.tiles.get? j = some t → t.entropy ≠ 0 →
      ∃ e av, computeEntropy u j = .ok (e, av) ∧ e ≠ 0 ∧
        u'.tiles.get? j =
          some { t with entropy := e, availableTiles := av.getD t.availableTiles }) := by
  unfold setEntropyOfSurroundingTiles at hrun
  dsimp only at hrun
  rcases hp1 : neighborEntropyProbe u
    (upTileIndex u.width u.tiles.length ci) Dir.up with ⟨r1, s1⟩
  rw [hp1] at hrun
  cases r1 with
  | error e =>
    dsimp only at hrun
    exact absurd (congrArg Prod.fst hrun) (by simp)
  | ok upE =>
    dsimp only at hrun
    rcases hp2 : neighborEntropyProbe s1
      (downTileIndex u.width u.tiles.length ci) Dir.down with ⟨r2, s2⟩
    rw [hp2] at hrun
    cases r2 with
    | error e =>
      dsimp only at hrun
      exact absurd (congrArg Prod.fst hrun) (by simp)
    | ok downE =>
      dsimp only at hrun
      rcases hp3 : neighborEntropyProbe s2
        (leftTileIndex u.width u.tiles.length ci) Dir.left with ⟨r3, s3⟩
      rw [hp3] at hrun
      cases r3 with
      | error e =>
        dsimp only at hrun
        exact absurd (congrArg Prod.fst hrun) (by simp)
      | ok leftE =>
        dsimp only at hrun
        rcases hp4 : neighborEntropyProbe s3
          (rightTileIndex u.width u.tiles.length ci) Dir.right with ⟨r4, s4⟩
        rw [hp4] at hrun
        cases r4 with
        | error e =>
          dsimp only at hrun
          exact absurd (congrArg Prod.fst hrun) (by simp)
        | ok rightE =>
          dsimp only at hrun
          have hu' : u' = applyEntropyUpdate (applyEntropyUpdate (applyEntropyUpdate
              (applyEntropyUpdateLeft s4 (leftTileIndex u.width u.tiles.length ci) leftE)
              (rightTileIndex u.width u.tiles.length ci) rightE)
              (upTileIndex u.width u.tiles.length ci) upE)
              (downTileIndex u.width u.tiles.length ci) downE :=
            (congrArg Prod.snd hrun).symm
          refine ⟨?_, ?_⟩
          · intro j hnd
            have hupne : upTileIndex u.width u.tiles.length ci ≠ some j := hnd Dir.up
            have hdownne : downTileIndex u.width u.tiles.length ci ≠ some j := hnd Dir.down
            have hleftne : leftTileIndex u.width u.tiles.length ci ≠ some j := hnd Dir.left
            have hrightne : rightTileIndex u.width u.tiles.length ci ≠ some j :=
              hnd Dir.right
            have q1 := probe_get?_ne u
              (upTileIndex u.width u.tiles.length ci) Dir.up j hupne
            rw [hp1] at q1
            have q2 := probe_get?_ne s1
              (downTileIndex u.width u.tiles.length ci) Dir.down j hdownne
            rw [hp2] at q2
            have q3 := probe_get?_ne s2
              (leftTileIndex u.width u.tiles.length ci) Dir.left j hleftne
            rw [hp3] at q3
            have q4 := probe_get?_ne s3
              (rightTileIndex u.width u.tiles.length ci) Dir.right j hrightne
            rw [hp4] at q4
            rw [hu']
            rw [applyEntropyUpdate_get?_ne _ _ _ j hdownne]
            rw [applyEntropyUpdate_get?_ne _ _ _ j hupne]
            rw [applyEntropyUpdate_get?_ne _ _ _ j hrightne]
            rw [applyEntropyUpdateLeft_get?_ne _ _ _ j hleftne]
            rw [q4, q3, q2, q1]
          · intro d j t hnbr huniq hgt hnz
            cases d with
            | up =>
              have hU : upTileIndex u.width u.tiles.length ci = some j := hnbr
              have hdownne : downTileIndex u.width u.tiles.length ci ≠ some j :=
                huniq Dir.down (by decide)
              have hleftne : leftTileIndex u.width u.tiles.length ci ≠ some j :=
                huniq Dir.left (by decide)
              have hrightne : rightTileIndex u.width u.tiles.length ci ≠ some j :=
                huniq Dir.right (by decide)
              rw [hU] at hp1
              obtain ⟨e, av, hce, hupEe, hs1⟩ := probe_some_ok u j Dir.up upE s1 hp1
              have he0 : e ≠ 0 :=
                computeEntropy_ok_ne_zero u j t hw hlen hgt hnz hreg hne e av hce
              have hs1g : s1.tiles.get? j =
                  some { t with availableTiles := av.getD t.availableTiles } := by
                rw [hs1]
                exact applyAvail_get?_self u j av t hgt
              have q2 := probe_get?_ne s1
                (downTileIndex u.width u.tiles.length ci) Dir.down j hdownne
              rw [hp2] at q2
              have q3 := probe_get?_ne s2
                (leftTileIndex u.width u.tiles.length ci) Dir.left j hleftne
              rw [hp3] at q3
              have q4 := probe_get?_ne s3
                (rightTileIndex u.width u.tiles.length ci) Dir.right j hrightne
              rw [hp4] at q4
              have hs4g : s4.tiles.get? j =
                  some { t with availableTiles := av.getD t.availableTiles } := by
                rw [q4, q3, q2, hs1g]
              refine ⟨e, av, hce, he0, ?_⟩
              rw [hu']
              rw [applyEntropyUpdate_get?_ne _ _ _ j hdownne]
              rw [hU, hupEe]
              rw [applyEntropyUpdate_some _ j e he0]
              have hW3 : (applyEntropyUpdate
                  (applyEntropyUpdateLeft s4
                    (leftTileIndex u.width u.tiles.length ci) leftE)
                  (rightTileIndex u.width u.tiles.length ci) rightE).tiles.get? j =
                  some { t with availableTiles := av.getD t.availableTiles } := by
                rw [applyEntropyUpdate_get?_ne _ _ _ j hrightne,
                    applyEntropyUpdateLeft_get?_ne _ _ _ j hleftne, hs4g]
              rw [writeEntropy_get?_self _ j e _ hW3]
            | down =>
              have hD : downTileIndex u.width u.tiles.length ci = some j := hnbr
              have hupne : upTileIndex u.width u.tiles.length ci ≠ some j :=
                huniq Dir.up (by decide)
              have hleftne : leftTileIndex u.width u.tiles.length ci ≠ some j :=
                huniq Dir.left (by decide)
              have hrightne : rightTileIndex u.width u.tiles.length ci ≠ some j :=
                huniq Dir.right (by decide)
              have q1 := probe_get?_ne u
                (upTileIndex u.width u.tiles.length ci) Dir.up j hupne
              rw [hp1] at q1
              have hs1t : s1.tiles.get? j = some t := by rw [q1, hgt]
              rw [hD] at hp2
              obtain ⟨e, av, hce1, hdownEe, hs2⟩ := probe_some_ok s1 j Dir.down downE s2 hp2
              have hcc : SameCore s1 u := by
                have hx := probe_sameCore u
                  (upTileIndex u.width u.tiles.length ci) Dir.up
                rw [hp1] at hx
                exact hx
              have hce : computeEntropy u j = .ok (e, av) := by
                rw [← computeEntropy_congr hcc j]
                exact hce1
              have he0 : e ≠ 0 :=
                computeEntropy_ok_ne_zero u j t hw hlen hgt hnz hreg hne e av hce
              have hs2g : s2.tiles.get? j =
                  some { t with availableTiles := av.getD t.availableTiles } := by
                rw [hs2]
                exact applyAvail_get?_self s1 j av t hs1t
              have q3 := probe_get?_ne s2
                (leftTileIndex u.width u.tiles.length ci) Dir.left j hleftne
              rw [hp3] at q3
              have q4 := probe_get?_ne s3
                (rightTileIndex u.width u.tiles.length ci) Dir.right j hrightne
              rw [hp4] at q4
              have hs4g : s4.tiles.get? j =
                  some { t with availableTiles := av.getD t.availableTiles } := by
                rw [q4, q3, hs2g]
              refine ⟨e, av, hce, he0, ?_⟩
              rw [hu']
              rw [hD, hdownEe]
              rw [applyEntropyUpdate_some _ j e he0]
              have hW : (applyEntropyUpdate (applyEntropyUpdate
                  (applyEntropyUpdateLeft s4
                    (leftTileIndex u.width u.tiles.length ci) leftE)
                  (rightTileIndex u.width u.tiles.length ci) rightE)
                  (upTileIndex u.width u.tiles.length ci) upE).tiles.get? j =
                  some { t with availableTiles := av.getD t.availableTiles } := by
                rw [applyEntropyUpdate_get?_ne _ _ _ j hupne,
                    applyEntropyUpdate_get?_ne _ _ _ j hrightne,
                    applyEntropyUpdateLeft_get?_ne _ _ _ j hleftne, hs4g]
              rw [writeEntropy_get?_self _ j e _ hW]
            | left =>
              have hL : leftTileIndex u.width u.tiles.length ci = some j := hnbr
              have hupne : upTileIndex u.width u.tiles.length ci ≠ some j :=
                huniq Dir.up (by decide)
              have hdownne : downTileIndex u.width u.tiles.length ci ≠ some j :=
                huniq Dir.down (by decide)
              have hrightne : rightTileIndex u.width u.tiles.length ci ≠ some j :=
                huniq Dir.right (by decide)
              have q1 := probe_get?_ne u
                (upTileIndex u.width u.tiles.length ci) Dir.up j hupne
              rw [hp1] at q1
              have q2 := probe_get?_ne s1
                (downTileIndex u.width u.tiles.length ci) Dir.down j hdownne
              rw [hp2] at q2
              have hs2t : s2.tiles.get? j = some t := by rw [q2, q1, hgt]
              rw [hL] at hp3
              obtain ⟨e, av, hce2, hleftEe, hs3⟩ := probe_some_ok s2 j Dir.left leftE s3 hp3
              have hcc : SameCore s2 u := by
                have hx1 := probe_sameCore u
                  (upTileIndex u.width u.tiles.length ci) Dir.up
                rw [hp1] at hx1
                have hx2 := probe_sameCore s1
                  (downTileIndex u.width u.tiles.length ci) Dir.down
                rw [hp2] at hx2
                exact sameCore_trans hx2 hx1
              have hce : computeEntropy u j = .ok (e, av) := by
                rw [← computeEntropy_congr hcc j]
                exact hce2
              have he0 : e ≠ 0 :=
                computeEntropy_ok_ne_zero u j t hw hlen hgt hnz hreg hne e av hce
              have hs3g : s3.tiles.get? j =
                  some { t with availableTiles := av.getD t.availableTiles } := by
                rw [hs3]
                exact applyAvail_get?_self s2 j av t hs2t
              have q4 := probe_get?_ne s3
                (rightTileIndex u.width u.tiles.length ci) Dir.right j hrightne
              rw [hp4] at q4
              have hs4g : s4.tiles.get? j =
                  some { t with availableTiles := av.getD t.availableTiles } := by
                rw [q4, hs3g]
              have hent4 : entropyAt? s4 j ≠ some 0 := by
                unfold entropyAt?
                rw [hs4g]
                intro hc
                have hc2 :
                    some ({ t with availableTiles := av.getD t.availableTiles } : TileData).entropy =
                    some (0 : Entropy) := hc
                exact hnz (Option.some.inj hc2)
              refine ⟨e, av, hce, he0, ?_⟩
              rw [hu']
              rw [applyEntropyUpdate_get?_ne _ _ _ j hdownne]
              rw [applyEntropyUpdate_get?_ne _ _ _ j hupne]
              rw [applyEntropyUpdate_get?_ne _ _ _ j hrightne]
              rw [hL, hleftEe]
              rw [applyEntropyUpdateLeft_some s4 j e he0 hent4]
              rw [writeEntropy_get?_self s4 j e _ hs4g]
            | right =>
              have hR : rightTileIndex u.width u.tiles.length ci = some j := hnbr
              have hupne : upTileIndex u.width u.tiles.length ci ≠ some j :=
                huniq Dir.up (by decide)
              have hdownne : downTileIndex u.width u.tiles.length ci ≠ some j :=
                huniq Dir.down (by decide)
              have hleftne : leftTileIndex u.width u.tiles.length ci ≠ some j :=
                huniq Dir.left (by decide)
              have q1 := probe_get?_ne u
                (upTileIndex u.width u.tiles.length ci) Dir.up j hupne
              rw [hp1] at q1
              have q2 := probe_get?_ne s1
                (downTileIndex u.width u.tiles.length ci) Dir.down j hdownne
              rw [hp2] at q2
              have q3 := probe_get?_ne s2
                (leftTileIndex u.width u.tiles.length ci) Dir.left j hleftne
              rw [hp3] at q3
              have hs3t : s3.tiles.get? j = some t := by rw [q3, q2, q1, hgt]
              rw [hR] at hp4
              obtain ⟨e, av, hce3, hrightEe, hs4⟩ :=
                probe_some_ok s3 j Dir.right rightE s4 hp4
              have hcc : SameCore s3 u := by
                have hx1 := probe_sameCore u
                  (upTileIndex u.width u.tiles.length ci) Dir.up
                rw [hp1] at hx1
                have hx2 := probe_sameCore s1
                  (downTileIndex u.width u.tiles.length ci) Dir.down
                rw [hp2] at hx2
                have hx3 := probe_sameCore s2
                  (leftTileIndex u.width u.tiles.length ci) Dir.left
                rw [hp3] at hx3
                exact sameCore_trans hx3 (sameCore_trans hx2 hx1)
              have hce : computeEntropy u j = .ok (e, av) := by
                rw [← computeEntropy_congr hcc j]
                exact hce3
              have he0 : e ≠ 0 :=
                computeEntropy_ok_ne_zero u j t hw hlen hgt hnz hreg hne e av hce
              have hs4g : s4.tiles.get? j =
                  some { t with availableTiles := av.getD t.availableTiles } := by
                rw [hs4]
                exact applyAvail_get?_self s3 j av t hs3t
              refine ⟨e, av, hce, he0, ?_⟩
              rw [hu']
              rw [applyEntropyUpdate_get?_ne _ _ _ j hdownne]
              rw [applyEntropyUpdate_get?_ne _ _ _ j hupne]
              rw [hR, hrightEe]
              rw [applyEntropyUpdate_some _ j e he0]
              have hW1 : (applyEntropyUpdateLeft s4
                  (leftTileIndex u.width u.tiles.length ci) leftE).tiles.get? j =
                  some { t with availableTiles := av.getD t.availableTiles } := by
                rw [applyEntropyUpdateLeft_get?_ne _ _ _ j hleftne, hs4g]
              rw [writeEntropy_get?_self _ j e _ hW1]

/-! ## Step shape and counting -/

/-- `finishOrYield` never moves the state. -/
theorem finishOrYield_snd (s : WFCState) : (finishOrYield s).2 = s := by
  unfold finishOrYield
  split_ifs <;> rfl

/-- Success elimination for `finishOrYield`. -/
theorem finishOrYield_ok (s : WFCState) (oc : StepOutcome) (s' : WFCState)
    (h : finishOrYield s = (.ok oc, s')) :
    s' = s ∧ (oc = .finished ↔ remainingToCollapse s = 0) := by
  unfold finishOrYield at h
  split_ifs at h with h1 h2
  · have hoc := congrArg Prod.fst h
    have hs := congrArg Prod.snd h
    dsimp only at hoc hs
    injection hoc with hoc
    refine ⟨hs.symm, ?_⟩
    rw [← hoc]
    exact ⟨fun _ => h1, fun _ => rfl⟩
  · exact absurd (congrArg Prod.fst h) (by simp)
  · have hoc := congrArg Prod.fst h
    have hs := congrArg Prod.snd h
    dsimp only at hoc hs
    injection hoc with hoc
    refine ⟨hs.symm, ?_⟩
    rw [← hoc]
    exact ⟨fun hc => StepOutcome.noConfusion hc, fun hc => absurd hc h1⟩

/-- Success elimination for `_getEntropy` with its side effect. -/
theorem getEntropyStep_ok_elim (s : WFCState) (i : Nat) (e : Entropy) (s2 : WFCState)
    (h : getEntropyStep s i = (.ok e, s2)) :
    ∃ av, computeEntropy s i = .ok (e, av) ∧ s2 = applyAvail s i av := by
  unfold getEntropyStep at h
  cases hce : computeEntropy s i with
  | error er =>
    rw [hce] at h
    exact absurd (congrArg Prod.fst h) (by simp)
  | ok p =>
    obtain ⟨e2, av⟩ := p
    rw [hce] at h
    dsimp only at h
    have hfst := congrArg Prod.fst h
    have hsnd := congrArg Prod.snd h
    dsimp only at hfst hsnd
    injection hfst with hfst
    exact ⟨av, by rw [hfst], hsnd.symm⟩

/-- Success shape of one `_collapseNext` resumption: a frontier cell was
picked, its candidate list was nonempty, a weighted pick was written in as
its type together with entropy `0`, propagation succeeded and the final
check produced the outcome. -/
theorem collapseStep_ok_shape (s : WFCState) (oc : StepOutcome) (s' : WFCState)
    (h : collapseStep s = (.ok oc, s')) :
    ∃ ci ct s4, (pickOne s.seed (frontierIndices s)).1 = some ci ∧
      s.tiles.get? ci = some ct ∧ ct.availableTiles ≠ [] ∧
      setEntropyOfSurroundingTiles
        (writeEntropy (writeType
          { s with seed :=
              (pickOneWeighted (pickOne s.seed (frontierIndices s)).2
                ct.availableTiles s.weighting).2 } ci
          (pickOneWeighted (pickOne s.seed (frontierIndices s)).2
            ct.availableTiles s.weighting).1) ci 0) ci = (.ok (), s4) ∧
      finishOrYield s4 = (.ok oc, s') := by
  unfold collapseStep at h
  dsimp only at h
  split at h
  · exact absurd (congrArg Prod.fst h) (by simp)
  · split at h
    · exact absurd (congrArg Prod.fst h) (by simp)
    · next ci hpick =>
      split at h
      · exact absurd (congrArg Prod.fst h) (by simp)
      · next ct hct =>
        split at h
        · exact absurd (congrArg Prod.fst h) (by simp)
        · next hlen00 =>
          unfold attemptResolve at h
          dsimp only at h
          rw [show (ct.availableTiles.filter
              fun item => !(List.contains ([] : List String) item)) =
              ct.availableTiles from List.filter_eq_self.mpr fun a _ => rfl] at h
          unfold propagateAndJudge at h
          split at h
          · exact absurd (congrArg Prod.fst h) (by simp)
          · next v s4 hset =>
            cases v
            exact ⟨ci, ct, s4, hpick, hct,
              fun hc => hlen00 (by rw [hc]; rfl), hset, h⟩

/-- Frontier membership: in bounds and entropy equal to the minimum. -/
theorem frontier_mem (s : WFCState) (ci : Nat) (h : ci ∈ frontierIndices s) :
    ci < s.tiles.length ∧ entropyAt? s ci = some (minNonzeroEntropy s) := by
  unfold frontierIndices at h
  rw [List.mem_filter] at h
  obtain ⟨hr, hb⟩ := h
  exact ⟨List.mem_range.mp hr, by simpa using hb⟩

/-- A fold of `min` over nonzero entropies is nonzero. -/
theorem foldr_min_ne_zero (l : List Entropy) (h : ∀ e ∈ l, e ≠ 0) :
    l.foldr min ⊤ ≠ 0 := by
  induction l with
  | nil => decide
  | cons a rest ih =>
    rw [List.foldr_cons]
    intro hc
    rcases min_choice a (rest.foldr min ⊤) with hm | hm <;> rw [hm] at hc
    · exact h a (List.mem_cons_self a rest) hc
    · exact ih (fun e he => h e (List.mem_cons_of_mem a he)) hc

/-- The scheduler's minimum entropy is never `0`. -/
theorem minNonzeroEntropy_ne_zero (s : WFCState) : minNonzeroEntropy s ≠ 0 := by
  unfold minNonzeroEntropy
  apply foldr_min_ne_zero
  intro e he
  rw [List.mem_map] at he
  obtain ⟨t, ht, rfl⟩ := he
  have := List.of_mem_filter ht
  simpa using this

/-- The remaining count is the `countP` of the nonzero-entropy test. -/
theorem remainingToCollapse_eq_countP (s : WFCState) :
    remainingToCollapse s = s.tiles.countP fun t => t.entropy != 0 := by
  unfold remainingToCollapse
  exact (List.countP_eq_length_filter _ _).symm

/-- `countP` only depends on the pointwise images under the predicate. -/
theorem countP_eq_of_pointwise (l1 : List TileData) (p : TileData → Bool) :
    ∀ l2 : List TileData, l1.length = l2.length →
    (∀ j, (l1.get? j).map p = (l2.get? j).map p) →
    l1.countP p = l2.countP p := by
  induction l1 with
  | nil =>
    intro l2 hlen _
    rw [List.length_nil] at hlen
    rw [List.eq_nil_of_length_eq_zero hlen.symm]
  | cons a t ih =>
    intro l2 hlen hp
    cases l2 with
    | nil => simp at hlen
    | cons b t2 =>
      have h0 := hp 0
      have h0' : p a = p b := by simpa using h0
      have ht : ∀ j, (t.get? j).map p = (t2.get? j).map p := fun j => by
        have := hp (j + 1)
        simpa using this
      rw [List.countP_cons, List.countP_cons, ih t2 (by simpa using hlen) ht, h0']

/-- `countP` strictly decreases when one position flips from satisfying the
predicate to refuting it and every other position keeps its image. -/
theorem countP_lt_of_flip (p : TileData → Bool) :
    ∀ (l1 l2 : List TileData) (ci : Nat) (t1 t2 : TileData),
    l1.length = l2.length →
    (∀ j, j ≠ ci → (l1.get? j).map p = (l2.get? j).map p) →
    l1.get? ci = some t1 → l2.get? ci = some t2 →
    p t1 = true → p t2 = false →
    l2.countP p < l1.countP p := by
  intro l1
  induction l1 with
  | nil =>
    intro l2 ci t1 t2 _ _ h1 _ _ _
    simp at h1
  | cons a t ih =>
    intro l2 ci t1 t2 hlen hne h1 h2 hp1 hp2
    cases l2 with
    | nil => simp at h2
    | cons b t2l =>
      cases ci with
      | zero =>
        have ha : a = t1 := by simpa using h1
        have hb : b = t2 := by simpa using h2
        have ht : ∀ j, (t.get? j).map p = (t2l.get? j).map p := fun j => by
          have := hne (j + 1) (by omega)
          simpa using this
        have heq := countP_eq_of_pointwise t p t2l (by simpa using hlen) ht
        rw [List.countP_cons, List.countP_cons, heq, ha, hb, hp1, hp2]
        simp
      | succ n =>
        have h0 := hne 0 (by omega)
        have h0' : p a = p b := by simpa using h0
        have hlt := ih t2l n t1 t2 (by simpa using hlen)
          (fun j hj => by
            have := hne (j + 1) (by omega)
            simpa using this)
          (by simpa using h1) (by simpa using h2) hp1 hp2
        rw [List.countP_cons, List.countP_cons, h0']
        omega

/-- A neighbour index is a different cell and in bounds (plain-length form). -/
theorem neighborIndex_bounds_len (s : WFCState) (i j : Nat) (d : Dir)
    (hw : 1 ≤ s.width) (hlen : s.tiles.length = s.width * s.height)
    (hi : i < s.tiles.length)
    (hj : neighborIndex s.width s.tiles.length i d = some j) :
    j < s.tiles.length ∧ j ≠ i := by
  rw [hlen] at hj hi ⊢
  exact neighborIndex_bounds s.width s.height i j d hw hi hj

/-- Symmetry of the neighbour relation (plain-length form). -/
theorem neighborIndex_symm_len (s : WFCState) (i j : Nat) (d : Dir)
    (hw : 1 ≤ s.width) (hlen : s.tiles.length = s.width * s.height)
    (hi : i < s.tiles.length)
    (hj : neighborIndex s.width s.tiles.length i d = some j) :
    neighborIndex s.width s.tiles.length j d.opposite = some i := by
  rw [hlen] at hj hi ⊢
  exact neighborIndex_symm s.width s.height i j d hw hi hj

/-- Direction uniqueness of the neighbour relation (plain-length form). -/
theorem neighborIndex_inj_len (s : WFCState) (i j : Nat) (d d' : Dir)
    (hw : 1 ≤ s.width) (hlen : s.tiles.length = s.width * s.height)
    (hi : i < s.tiles.length)
    (h1 : neighborIndex s.width s.tiles.length i d = some j)
    (h2 : neighborIndex s.width s.tiles.length i d' = some j) : d = d' := by
  rw [hlen] at h1 h2 hi
  exact neighborIndex_inj s.width s.height i j d d' hw hi h1 h2

/-! ## The run invariant -/

/-- Every type mentioned in a direction list is itself registered. -/
def ClosedRules (R : List (String × Rule)) : Prop :=
  ∀ ty r, R.lookup ty = some r → ∀ d x, x ∈ r.dirList d → ∃ r2, R.lookup x = some r2

/-- Checkable closedness of a rule table. -/
def closedRulesB (R : List (String × Rule)) : Bool :=
  R.all fun p =>
    [Dir.up, Dir.down, Dir.left, Dir.right].all fun d =>
      (p.2.dirList d).all fun x => (R.map Prod.fst).contains x

/-- The checkable form implies closedness. -/
theorem closedRulesB_spec (R : List (String × Rule)) (h : closedRulesB R = true) :
    ClosedRules R := by
  intro ty r hl d x hx
  have hmem := mem_of_lookup_eq_some hl
  have h1 := List.all_eq_true.mp h (ty, r) hmem
  have h2 := List.all_eq_true.mp h1 d (by cases d <;> decide)
  have h3 := List.all_eq_true.mp h2 x hx
  have hk : x ∈ R.map Prod.fst := by simpa using h3
  exact lookup_isSome_of_mem_keys hk

/-- The refreshed shape of an unresolved cell that has at least one resolved
neighbour: the entropy matches the stored candidate count, the candidates
are a nonempty list of registered types, and they are compatible with every
resolved neighbour. -/
def CellFinCase (s : WFCState) (j : Nat) (t : TileData) : Prop :=
  t.entropy = (t.availableTiles.length : Entropy) ∧
  t.availableTiles ≠ [] ∧
  (∀ x ∈ t.availableTiles, ∃ r2, s.rules.lookup x = some r2) ∧
  (∃ d k, neighborIndex s.width s.tiles.length j d = some k ∧ resolvedAt s k) ∧
  (∀ d k tk, neighborIndex s.width s.tiles.length j d = some k →
    s.tiles.get? k = some tk → tk.entropy = 0 → ∀ ty, tk.type = some ty →
    ∀ x ∈ t.availableTiles, x ∈ listOf s.rules ty d.opposite)

/-- An unresolved cell is in a sound state: either untouched at infinite
entropy with no candidates and no resolved neighbour, or refreshed. -/
def CellOK (s : WFCState) (j : Nat) : Prop :=
  ∀ t, s.tiles.get? j = some t → t.entropy ≠ 0 →
    (t.entropy = ⊤ ∧ t.availableTiles = [] ∧
      ∀ d k, neighborIndex s.width s.tiles.length j d = some k → ¬ resolvedAt s k) ∨
    CellFinCase s j t

/-- The weaker pre-refresh condition: raw, or at least one resolved
neighbour exists. -/
def CellPre (s : WFCState) (j : Nat) : Prop :=
  ∀ t, s.tiles.get? j = some t → t.entropy ≠ 0 →
    (t.entropy = ⊤ ∧ t.availableTiles = []) ∨
    (∃ d k, neighborIndex s.width s.tiles.length j d = some k ∧ resolvedAt s k)

/-- A sound unresolved cell satisfies the pre-refresh condition. -/
theorem cellPre_of_cellOK {s : WFCState} {j : Nat} (h : CellOK s j) : CellPre s j :=
  fun t hg hnz =>
    (h t hg hnz).imp (fun hc => ⟨hc.1, hc.2.1⟩) (fun hc => hc.2.2.2.1)

/-- The run invariant maintained by `_collapseNext` steps: well-formed
dimensions, every resolved cell carries a registered type, every resolved
adjacent pair obeys the rule table, and every unresolved cell is sound. -/
structure Inv (s : WFCState) : Prop where
  hw : 1 ≤ s.width
  hlen : s.tiles.length = s.width * s.height
  typed : ∀ j t, s.tiles.get? j = some t → t.entropy = 0 →
    ∃ ty r, t.type = some ty ∧ s.rules.lookup ty = some r
  pairs : ∀ d i j ti tj, neighborIndex s.width s.tiles.length i d = some j →
    s.tiles.get? i = some ti → s.tiles.get? j = some tj →
    ti.entropy = 0 → tj.entropy = 0 →
    ∀ tyi tyj, ti.type = some tyi → tj.type = some tyj →
    tyj ∈ listOf s.rules tyi d
  cells : ∀ j, CellOK s j

/-- What a successful `_getEntropy` refresh establishes for an unresolved
cell satisfying the pre-refresh condition: the refreshed record (new entropy
and overwritten candidates) satisfies the soundness disjunction, phrased at
the probed state. -/
theorem refreshed_cellOK (u : WFCState) (j : Nat) (t : TileData)
    (hw : 1 ≤ u.width) (hlen : u.tiles.length = u.width * u.height)
    (hreg : ∀ k tk, u.tiles.get? k = some tk → tk.entropy = 0 →
      ∃ ty r, tk.type = some ty ∧ u.rules.lookup ty = some r)
    (hne : NonemptyRuleLists u.rules) (hclosed : ClosedRules u.rules)
    (hgt : u.tiles.get? j = some t) (hnz : t.entropy ≠ 0)
    (hpre : (t.entropy = ⊤ ∧ t.availableTiles = []) ∨
      (∃ d k, neighborIndex u.width u.tiles.length j d = some k ∧ resolvedAt u k))
    (e : Entropy) (av : Option (List String))
    (hce : computeEntropy u j = .ok (e, av)) :
    (e = ⊤ ∧ av.getD t.availableTiles = [] ∧
      ∀ d k, neighborIndex u.width u.tiles.length j d = some k → ¬ resolvedAt u k) ∨
    (e = ((av.getD t.availableTiles).length : Entropy) ∧
     av.getD t.availableTiles ≠ [] ∧
     (∀ x ∈ av.getD t.availableTiles, ∃ r2, u.rules.lookup x = some r2) ∧
     (∃ d k, neighborIndex u.width u.tiles.length j d = some k ∧ resolvedAt u k) ∧
     (∀ d k tk, neighborIndex u.width u.tiles.length j d = some k →
       u.tiles.get? k = some tk → tk.entropy = 0 → ∀ ty, tk.type = some ty →
       ∀ x ∈ av.getD t.availableTiles, x ∈ listOf u.rules ty d.opposite)) := by
  obtain ⟨hne0, hchar⟩ := computeEntropy_char u j t hw hlen hgt hnz hreg hne e av hce
  rcases hchar with ⟨htop, hnone, hnores⟩ | ⟨l, havl, helen, hlne, hntop, hex, hsubs⟩
  · left
    refine ⟨htop, ?_, hnores⟩
    rw [hnone]
    rcases hpre with ⟨_, hav⟩ | ⟨d, k, hnbr, hres⟩
    · exact hav
    · exact absurd hres (hnores d k hnbr)
  · right
    rw [havl]
    show e = (l.length : Entropy) ∧ l ≠ [] ∧
      (∀ x ∈ l, ∃ r2, u.rules.lookup x = some r2) ∧
      (∃ d k, neighborIndex u.width u.tiles.length j d = some k ∧ resolvedAt u k) ∧
      (∀ d k tk, neighborIndex u.width u.tiles.length j d = some k →
        u.tiles.get? k = some tk → tk.entropy = 0 → ∀ ty, tk.type = some ty →
        ∀ x ∈ l, x ∈ listOf u.rules ty d.opposite)
    obtain ⟨d, k, hnbr, hres⟩ := hex
    obtain ⟨tk, hgk, h0⟩ := resolvedAt_elim hres
    obtain ⟨ty, r, hty, hr⟩ := hreg k tk hgk h0
    refine ⟨helen, hlne, ?_, ⟨d, k, hnbr, hres⟩, hsubs⟩
    intro x hx
    have hmem := hsubs d k tk hnbr hgk h0 ty hty x hx
    rw [listOf_eq_of_lookup hr] at hmem
    exact hclosed ty r hr d.opposite x hmem

/-- A successful lookup at an index bounds the index. -/
theorem get?_some_lt {l : List TileData} {n : Nat} {a : TileData}
    (h : l.get? n = some a) : n < l.length := by
  by_contra hge
  rw [List.get?_eq_none.mpr (by omega)] at h
  exact Option.noConfusion h

/-- An in-bounds index has a stored record. -/
theorem get?_some_of_lt {l : List TileData} {n : Nat} (h : n < l.length) :
    ∃ a, l.get? n = some a := by
  cases hg : l.get? n with
  | none => rw [List.get?_eq_none] at hg; omega
  | some a => exact ⟨a, rfl⟩

/-- One successful `_collapseNext` resumption preserves the run invariant,
keeps the configuration fields, strictly decreases the number of unresolved
cells, and finishes exactly when none remain. -/
theorem collapseStep_preserves_Inv (s : WFCState) (oc : StepOutcome) (s' : WFCState)
    (hsym : SymmetricRules s.rules) (hne : NonemptyRuleLists s.rules)
    (hclosed : ClosedRules s.rules) (hpos : PositiveWeights s.weighting)
    (hinv : Inv s) (hstep : collapseStep s = (.ok oc, s')) :
    Inv s' ∧ s'.rules = s.rules ∧ s'.weighting = s.weighting ∧
    s'.width = s.width ∧ s'.height = s.height ∧
    s'.tiles.length = s.tiles.length ∧
    remainingToCollapse s' < remainingToCollapse s ∧
    (oc = .finished → remainingToCollapse s' = 0) := by
  obtain ⟨ci, ct, s4, hpick, hct, hcav, hset, hfin⟩ := collapseStep_ok_shape s oc s' hstep
  obtain ⟨hs4eq, hocfin⟩ := finishOrYield_ok s4 oc s' hfin
  rw [hs4eq]
  have hcifr : ci ∈ frontierIndices s := pickOne_mem hpick
  obtain ⟨hcilt, hcient⟩ := frontier_mem s ci hcifr
  have hctent : ct.entropy = minNonzeroEntropy s := by
    have hx : entropyAt? s ci = some ct.entropy := by
      unfold entropyAt?
      rw [hct]
      rfl
    rw [hx] at hcient
    exact Option.some.inj hcient
  have hctne : ct.entropy ≠ 0 := by
    rw [hctent]
    exact minNonzeroEntropy_ne_zero s
  have hfc : CellFinCase s ci ct := by
    rcases hinv.cells ci ct hct hctne with ⟨_, hav, _⟩ | hfc
    · exact absurd hav hcav
    · exact hfc
  obtain ⟨hclen2, hcne2, hcreg, hcex, hccons⟩ := hfc
  obtain ⟨ty, hty⟩ :=
    pickOneWeighted_isSome hpos hcav (pickOne s.seed (frontierIndices s)).2
  have htymem : ty ∈ ct.availableTiles := pickOneWeighted_mem hty
  obtain ⟨rty, hrty⟩ := hcreg ty htymem
  rw [hty] at hset
  obtain ⟨σ, hσdef⟩ : ∃ x, x = (pickOneWeighted
      (pickOne s.seed (frontierIndices s)).2 ct.availableTiles s.weighting).2 :=
    ⟨_, rfl⟩
  rw [← hσdef] at hset
  obtain ⟨U, hUdef⟩ : ∃ U, U = writeEntropy
      (writeType { s with seed := σ } ci (some ty)) ci 0 := ⟨_, rfl⟩
  rw [← hUdef] at hset
  have hUw : U.width = s.width := by rw [hUdef]; rfl
  have hUh : U.height = s.height := by rw [hUdef]; rfl
  have hUrules : U.rules = s.rules := by rw [hUdef]; rfl
  have hUweight : U.weighting = s.weighting := by rw [hUdef]; rfl
  have hUlen : U.tiles.length = s.tiles.length := by
    rw [hUdef]
    exact (sameFrame_trans (writeEntropy_frame _ ci 0)
      (writeType_frame _ ci (some ty))).2.2.2.2.2.1
  have hswct : ({ s with seed := σ } : WFCState).tiles.get? ci = some ct := hct
  have hty1 : (writeType { s with seed := σ } ci (some ty)).tiles.get? ci =
      some { ct with type := some ty } :=
    writeType_get?_self { s with seed := σ } ci (some ty) ct hswct
  have hUci : U.tiles.get? ci = some { ct with type := some ty, entropy := 0 } := by
    rw [hUdef]
    exact writeEntropy_get?_self (writeType { s with seed := σ } ci (some ty)) ci 0
      { ct with type := some ty } hty1
  have hUne2 : ∀ j, j ≠ ci → U.tiles.get? j = s.tiles.get? j := by
    intro j hj
    rw [hUdef]
    rw [writeEntropy_get?_ne _ ci j 0 (fun hc => hj hc.symm)]
    rw [writeType_get?_ne _ ci j (some ty) (fun hc => hj hc.symm)]
  have hUw1 : 1 ≤ U.width := by rw [hUw]; exact hinv.hw
  have hUhlen : U.tiles.length = U.width * U.height := by
    rw [hUlen, hUw, hUh]
    exact hinv.hlen
  have hUreg : ∀ k tk, U.tiles.get? k = some tk → tk.entropy = 0 →
      ∃ ty2 r2, tk.type = some ty2 ∧ U.rules.lookup ty2 = some r2 := by
    intro k tk hgk h0
    by_cases hkci : k = ci
    · subst hkci
      rw [hUci] at hgk
      have hrec := Option.some.inj hgk
      refine ⟨ty, rty, ?_, ?_⟩
      · rw [← hrec]
      · rw [hUrules]
        exact hrty
    · rw [hUne2 k hkci] at hgk
      rw [hUrules]
      exact hinv.typed k tk hgk h0
  have hUnel : NonemptyRuleLists U.rules := by rw [hUrules]; exact hne
  obtain ⟨hchar1, hchar2⟩ := setEntropy_ok_char U ci s4 hUw1 hUhlen hUreg hUnel hset
  have hframe : SameFrame s4 U := by
    have hx := setEntropy_frame U ci
    rw [hset] at hx
    exact hx
  obtain ⟨hfw, hfh, hfn, hfr, hfwt, hflen, hfb, hfs⟩ := hframe
  have h4w : s4.width = s.width := hfw.trans hUw
  have h4h : s4.height = s.height := hfh.trans hUh
  have h4r : s4.rules = s.rules := hfr.trans hUrules
  have h4wt : s4.weighting = s.weighting := hfwt.trans hUweight
  have h4len : s4.tiles.length = s.tiles.length := hflen.trans hUlen
  have hpresv : ∀ k tk, U.tiles.get? k = some tk → tk.entropy = 0 →
      s4.tiles.get? k = some tk := by
    intro k tk hgk h0
    have hx := setEntropy_preserves_resolved_cell U ci k tk hgk h0
    rw [hset] at hx
    exact hx
  have hnbrU : ∀ i0 d, neighborIndex U.width U.tiles.length i0 d =
      neighborIndex s.width s.tiles.length i0 d := by
    intro i0 d
    rw [hUw, hUlen]
  have hnbr4 : ∀ i0 d, neighborIndex s4.width s4.tiles.length i0 d =
      neighborIndex s.width s.tiles.length i0 d := by
    intro i0 d
    rw [h4w, h4len]
  have huniq : ∀ d j, neighborIndex s.width s.tiles.length ci d = some j →
      ∀ d', d' ≠ d → neighborIndex s.width s.tiles.length ci d' ≠ some j := by
    intro d j hd d' hdne hc
    exact hdne (neighborIndex_inj_len s ci j d' d hinv.hw hinv.hlen hcilt hc hd)
  have hrefresh : ∀ d j t, neighborIndex s.width s.tiles.length ci d = some j →
      s.tiles.get? j = some t → t.entropy ≠ 0 →
      ∃ e av, computeEntropy U j = .ok (e, av) ∧ e ≠ 0 ∧
        s4.tiles.get? j =
          some { t with entropy := e, availableTiles := av.getD t.availableTiles } := by
    intro d j t hnbr hgt hnz
    have hjci : j ≠ ci :=
      (neighborIndex_bounds_len s ci j d hinv.hw hinv.hlen hcilt hnbr).2
    have hUg : U.tiles.get? j = some t := by rw [hUne2 j hjci]; exact hgt
    exact hchar2 d j t (by rw [hnbrU]; exact hnbr)
      (fun d' hd' => by rw [hnbrU]; exact huniq d j hnbr d' hd') hUg hnz
  have hnonnbr : ∀ j, (∀ d, neighborIndex s.width s.tiles.length ci d ≠ some j) →
      j ≠ ci → s4.tiles.get? j = s.tiles.get? j := by
    intro j hnd hjci
    have hx := hchar1 j (fun d => by rw [hnbrU]; exact hnd d)
    rw [hx, hUne2 j hjci]
  have h4ci : s4.tiles.get? ci = some { ct with type := some ty, entropy := 0 } :=
    hpresv ci _ hUci rfl
  have hresUci : resolvedAt U ci := resolvedAt_intro hUci rfl
  have hres4ci : resolvedAt s4 ci := resolvedAt_intro h4ci rfl
  have hresiff : ∀ k, resolvedAt s4 k ↔ resolvedAt U k := by
    intro k
    constructor
    · intro h4
      obtain ⟨tk, hgk, h0⟩ := resolvedAt_elim h4
      by_cases hkci : k = ci
      · subst hkci
        exact hresUci
      · by_cases hnb : ∃ d, neighborIndex s.width s.tiles.length ci d = some k
        · obtain ⟨d, hd⟩ := hnb
          have hklt4 : k < s4.tiles.length := get?_some_lt hgk
          have hklt : k < s.tiles.length := by omega
          obtain ⟨t, hst⟩ := get?_some_of_lt (l := s.tiles) hklt
          by_cases h0s : t.entropy = 0
          · have hUg : U.tiles.get? k = some t := by rw [hUne2 k hkci]; exact hst
            exact resolvedAt_intro hUg h0s
          · obtain ⟨e, av, hce, he0, hg4⟩ := hrefresh d k t hd hst h0s
            rw [hg4] at hgk
            have hrec := Option.some.inj hgk
            exfalso
            apply he0
            rw [← hrec] at h0
            exact h0
        · push_neg at hnb
          have hx := hnonnbr k hnb hkci
          rw [hx] at hgk
          have hUg : U.tiles.get? k = some tk := by rw [hUne2 k hkci]; exact hgk
          exact resolvedAt_intro hUg h0
    · intro hU
      obtain ⟨tk, hgk, h0⟩ := resolvedAt_elim hU
      exact resolvedAt_intro (hpresv k tk hgk h0) h0
  have hresUs : ∀ k, k ≠ ci → (resolvedAt U k ↔ resolvedAt s k) := by
    intro k hk
    unfold resolvedAt entropyAt?
    rw [hUne2 k hk]
  refine ⟨⟨?_, ?_, ?_, ?_, ?_⟩, h4r, h4wt, h4w, h4h, h4len, ?_, ?_⟩
  · rw [h4w]
    exact hinv.hw
  · rw [h4len, h4w, h4h]
    exact hinv.hlen
  · intro j t hgt h0
    have hres := resolvedAt_intro hgt h0
    have hUr := (hresiff j).mp hres
    obtain ⟨tU, hgU, h0U⟩ := resolvedAt_elim hUr
    have h4g := hpresv j tU hgU h0U
    rw [hgt] at h4g
    have hteq := Option.some.inj h4g
    obtain ⟨ty2, r2, htyp, hlk⟩ := hUreg j tU hgU h0U
    rw [hteq, h4r, ← hUrules]
    exact ⟨ty2, r2, htyp, hlk⟩
  · intro d i j ti tj hnbr0 hgi hgj h0i h0j tyi tyj htyi htyj
    have hnbr : neighborIndex s.width s.tiles.length i d = some j := by
      rw [← hnbr4]
      exact hnbr0
    have hresi := resolvedAt_intro hgi h0i
    have hresj := resolvedAt_intro hgj h0j
    have hUi := (hresiff i).mp hresi
    have hUj := (hresiff j).mp hresj
    obtain ⟨tUi, hgUi, h0Ui⟩ := resolvedAt_elim hUi
    obtain ⟨tUj, hgUj, h0Uj⟩ := resolvedAt_elim hUj
    have e1 := hpresv i tUi hgUi h0Ui
    have e2 := hpresv j tUj hgUj h0Uj
    rw [hgi] at e1
    rw [hgj] at e2
    have hti := Option.some.inj e1
    have htj := Option.some.inj e2
    rw [h4r]
    by_cases hici : i = ci
    · rw [hici] at hgUi hnbr
      rw [hUci] at hgUi
      have hreci := Option.some.inj hgUi
      have htyiv : some ty = some tyi := by
        rw [← htyi, hti, ← hreci]
      have htyeq : tyi = ty := (Option.some.inj htyiv).symm
      have hjne : j ≠ ci :=
        (neighborIndex_bounds_len s ci j d hinv.hw hinv.hlen hcilt hnbr).2
      have hsgj : s.tiles.get? j = some tUj := by
        rw [← hUne2 j hjne]
        exact hgUj
      have hmem := hccons d j tUj hnbr hsgj h0Uj tyj
        (by rw [← htj]; exact htyj) ty htymem
      have h2 := hsym tyj ty d.opposite hmem
      rw [opposite_opposite] at h2
      rw [htyeq]
      exact h2
    · by_cases hjci : j = ci
      · rw [hjci] at hgUj hnbr
        rw [hUci] at hgUj
        have hrecj := Option.some.inj hgUj
        have htyjv : some ty = some tyj := by
          rw [← htyj, htj, ← hrecj]
        have htyjeq : tyj = ty := (Option.some.inj htyjv).symm
        have hilt : i < s.tiles.length := by
          have h1 := get?_some_lt hgi
          omega
        have hnbr2 := neighborIndex_symm_len s i ci d hinv.hw hinv.hlen hilt hnbr
        have hsgi : s.tiles.get? i = some tUi := by
          rw [← hUne2 i hici]
          exact hgUi
        have hmem := hccons d.opposite i tUi hnbr2 hsgi h0Ui tyi
          (by rw [← hti]; exact htyi) ty htymem
        rw [opposite_opposite] at hmem
        rw [htyjeq]
        exact hmem
      · have hsgi : s.tiles.get? i = some tUi := by
          rw [← hUne2 i hici]
          exact hgUi
        have hsgj : s.tiles.get? j = some tUj := by
          rw [← hUne2 j hjci]
          exact hgUj
        exact hinv.pairs d i j tUi tUj hnbr hsgi hsgj h0Ui h0Uj tyi tyj
          (by rw [← hti]; exact htyi) (by rw [← htj]; exact htyj)
  · intro k t4 hg4 hnz4
    have hkci : k ≠ ci := by
      intro hc
      subst hc
      rw [h4ci] at hg4
      have hx := Option.some.inj hg4
      apply hnz4
      rw [← hx]
    have hklt4 : k < s4.tiles.length := get?_some_lt hg4
    have hklt : k < s.tiles.length := by omega
    obtain ⟨t, hst⟩ := get?_some_of_lt (l := s.tiles) hklt
    by_cases hnb : ∃ d, neighborIndex s.width s.tiles.length ci d = some k
    · obtain ⟨d, hd⟩ := hnb
      by_cases h0s : t.entropy = 0
      · exfalso
        have hUg : U.tiles.get? k = some t := by rw [hUne2 k hkci]; exact hst
        have hx := hpresv k t hUg h0s
        rw [hg4] at hx
        exact hnz4 (by rw [Option.some.inj hx]; exact h0s)
      · obtain ⟨e, av, hce, he0, hg4'⟩ := hrefresh d k t hd hst h0s
        rw [hg4'] at hg4
        have ht4 := Option.some.inj hg4
        have hUg : U.tiles.get? k = some t := by rw [hUne2 k hkci]; exact hst
        have hnbrsym := neighborIndex_symm_len s ci k d hinv.hw hinv.hlen hcilt hd
        have hpreU : (t.entropy = ⊤ ∧ t.availableTiles = []) ∨
            (∃ d2 m, neighborIndex U.width U.tiles.length k d2 = some m ∧
              resolvedAt U m) :=
          Or.inr ⟨d.opposite, ci, by rw [hnbrU]; exact hnbrsym, hresUci⟩
        have hclosedU : ClosedRules U.rules := by rw [hUrules]; exact hclosed
        have hOK := refreshed_cellOK U k t hUw1 hUhlen hUreg hUnel hclosedU hUg h0s
          hpreU e av hce
        have havx : ∀ x, x ∈ t4.availableTiles → x ∈ av.getD t.availableTiles := by
          intro x hx
          rw [← ht4] at hx
          exact hx
        rcases hOK with ⟨htop, hemp, hnores⟩ | ⟨h1, h2, h3, ⟨d2, m, hm, hresm⟩, h5⟩
        · left
          refine ⟨?_, ?_, ?_⟩
          · rw [← ht4]
            exact htop
          · rw [← ht4]
            exact hemp
          · intro d3 m hm3
            rw [hnbr4] at hm3
            rw [hresiff]
            exact hnores d3 m (by rw [hnbrU]; exact hm3)
        · right
          refine ⟨?_, ?_, ?_, ?_, ?_⟩
          · rw [← ht4]
            exact h1
          · rw [← ht4]
            exact h2
          · intro x hx
            rw [h4r, ← hUrules]
            exact h3 x (havx x hx)
          · refine ⟨d2, m, ?_, ?_⟩
            · rw [hnbr4, ← hnbrU]
              exact hm
            · rw [hresiff]
              exact hresm
          · intro d3 m2 tm hm2 hgm h0m ty3 hty3 x hx
            rw [hnbr4] at hm2
            have hresm2 : resolvedAt s4 m2 := resolvedAt_intro hgm h0m
            have hUresm2 := (hresiff m2).mp hresm2
            obtain ⟨tUm, hgUm, h0Um⟩ := resolvedAt_elim hUresm2
            have hx2 := hpresv m2 tUm hgUm h0Um
            rw [hgm] at hx2
            have htmeq := Option.some.inj hx2
            rw [h4r, ← hUrules]
            exact h5 d3 m2 tUm (by rw [hnbrU]; exact hm2) hgUm h0Um ty3
              (by rw [← htmeq]; exact hty3) x (havx x hx)
    · push_neg at hnb
      have hxg := hnonnbr k hnb hkci
      rw [hxg, hst] at hg4
      have ht4 := Option.some.inj hg4
      have hcinotnbr : ∀ d, neighborIndex s.width s.tiles.length k d ≠ some ci := by
        intro d hc
        have hsymb := neighborIndex_symm_len s k ci d hinv.hw hinv.hlen hklt hc
        exact hnb d.opposite hsymb
      have hnbres : ∀ d m, neighborIndex s.width s.tiles.length k d = some m →
          (resolvedAt s4 m ↔ resolvedAt s m) := by
        intro d m hm
        have hmci : m ≠ ci := by
          intro hc
          subst hc
          exact hcinotnbr d hm
        rw [hresiff m]
        exact hresUs m hmci
      have hnzs : t.entropy ≠ 0 := by
        rw [ht4]
        exact hnz4
      rcases hinv.cells k t hst hnzs with ⟨htop, hemp, hnores⟩ |
        ⟨h1, h2, h3, ⟨d2, m, hm, hresm⟩, h5⟩
      · left
        refine ⟨?_, ?_, ?_⟩
        · rw [← ht4]
          exact htop
        · rw [← ht4]
          exact hemp
        · intro d3 m hm3
          rw [hnbr4] at hm3
          rw [hnbres d3 m hm3]
          exact hnores d3 m hm3
      · right
        refine ⟨?_, ?_, ?_, ?_, ?_⟩
        · rw [← ht4]
          exact h1
        · rw [← ht4]
          exact h2
        · intro x hx
          rw [h4r]
          apply h3
          rw [ht4]
          exact hx
        · refine ⟨d2, m, ?_, ?_⟩
          · rw [hnbr4]
            exact hm
          · rw [hnbres d2 m hm]
            exact hresm
        · intro d3 m2 tm hm2 hgm h0m ty3 hty3 x hx
          rw [hnbr4] at hm2
          have hm2ci : m2 ≠ ci := by
            intro hc
            subst hc
            exact hcinotnbr d3 hm2
          have hress : resolvedAt s m2 :=
            (hnbres d3 m2 hm2).mp (resolvedAt_intro hgm h0m)
          obtain ⟨tsm, hgsm, h0sm⟩ := resolvedAt_elim hress
          have hUgm : U.tiles.get? m2 = some tsm := by
            rw [hUne2 m2 hm2ci]
            exact hgsm
          have hg4m := hpresv m2 tsm hUgm h0sm
          rw [hgm] at hg4m
          have htmeq := Option.some.inj hg4m
          rw [h4r]
          have hxs : x ∈ t.availableTiles := by
            rw [ht4]
            exact hx
          exact h5 d3 m2 tsm hm2 hgsm h0sm ty3 (by rw [← htmeq]; exact hty3) x hxs
  · rw [remainingToCollapse_eq_countP, remainingToCollapse_eq_countP]
    refine countP_lt_of_flip (fun t => t.entropy != 0) s.tiles s4.tiles ci ct
      { ct with type := some ty, entropy := 0 } h4len.symm ?_ hct h4ci ?_ ?_
    · intro j hj
      by_cases hjlt : j < s.tiles.length
      · obtain ⟨t, hst⟩ := get?_some_of_lt (l := s.tiles) hjlt
        by_cases hnb : ∃ d, neighborIndex s.width s.tiles.length ci d = some j
        · obtain ⟨d, hd⟩ := hnb
          by_cases h0s : t.entropy = 0
          · have hUg : U.tiles.get? j = some t := by rw [hUne2 j hj]; exact hst
            have h4g := hpresv j t hUg h0s
            rw [hst, h4g]
          · obtain ⟨e, av, hce, he0, hg4'⟩ := hrefresh d j t hd hst h0s
            rw [hst, hg4']
            show some (t.entropy != 0) = some (e != 0)
            have hb1 : (t.entropy != 0) = true := by simpa using h0s
            have hb2 : (e != 0) = true := by simpa using he0
            rw [hb1, hb2]
        · push_neg at hnb
          have hx := hnonnbr j hnb hj
          rw [hx]
      · have h1 : s.tiles.get? j = none := List.get?_eq_none.mpr (by omega)
        have h2 : s4.tiles.get? j = none := List.get?_eq_none.mpr (by omega)
        rw [h1, h2]
    · simpa using hctne
    · simp
  · intro hoc
    exact hocfin.mp hoc

/-- One prepare write leaves other cells untouched. -/
theorem prepare_write_get?_ne (u : WFCState) (i j : Nat) (e : Entropy)
    (av : Option (List String)) (hij : i ≠ j) :
    (writeEntropy (applyAvail u i av) i e).tiles.get? j = u.tiles.get? j := by
  rw [writeEntropy_get?_ne _ i j e hij, applyAvail_get?_ne u i j av hij]

/-- One prepare write refreshes the processed cell. -/
theorem prepare_write_get?_self (u : WFCState) (i : Nat) (t : TileData)
    (e : Entropy) (av : Option (List String)) (hgt : u.tiles.get? i = some t) :
    (writeEntropy (applyAvail u i av) i e).tiles.get? i =
      some { t with entropy := e, availableTiles := av.getD t.availableTiles } := by
  have h1 := applyAvail_get?_self u i av t hgt
  exact writeEntropy_get?_self (applyAvail u i av) i e _ h1

/-- One prepare write keeps the frame. -/
theorem prepare_write_frame (u : WFCState) (i : Nat) (e : Entropy)
    (av : Option (List String)) :
    SameFrame (writeEntropy (applyAvail u i av) i e) u :=
  sameFrame_trans (writeEntropy_frame _ i e) (applyAvail_frame u i av)

/-- `_prepareTileDataForCollapsing`, run over any index list: starting from a
state whose resolved cells are registered, whose resolved pairs are
consistent, whose cells all satisfy the pre-refresh condition, and whose
cells outside the list are already sound, a successful scan produces a state
satisfying the full run invariant, with the configuration unchanged. -/
theorem prepareGo_establishes (lst : List Nat) : ∀ (u u' : WFCState),
    1 ≤ u.width → u.tiles.length = u.width * u.height →
    (∀ j tj, u.tiles.get? j = some tj → tj.entropy = 0 →
      ∃ ty r, tj.type = some ty ∧ u.rules.lookup ty = some r) →
    NonemptyRuleLists u.rules → ClosedRules u.rules →
    (∀ d i j ti tj, neighborIndex u.width u.tiles.length i d = some j →
      u.tiles.get? i = some ti → u.tiles.get? j = some tj →
      ti.entropy = 0 → tj.entropy = 0 →
      ∀ tyi tyj, ti.type = some tyi → tj.type = some tyj →
      tyj ∈ listOf u.rules tyi d) →
    (∀ j, CellPre u j) →
    (∀ j, j ∉ lst → CellOK u j) →
    prepareGo lst u = (.ok (), u') →
    Inv u' ∧ u'.rules = u.rules ∧ u'.weighting = u.weighting ∧
    u'.width = u.width ∧ u'.height = u.height ∧
    u'.tiles.length = u.tiles.length := by
  induction lst with
  | nil =>
    intro u u' hw hlen hreg hne hclosed hpairs hpre hdone h
    have hu : u = u' := congrArg Prod.snd h
    subst hu
    exact ⟨⟨hw, hlen, hreg, hpairs, fun j => hdone j (by simp)⟩,
      rfl, rfl, rfl, rfl, rfl⟩
  | cons i rest ih =>
    intro u u' hw hlen hreg hne hclosed hpairs hpre hdone h
    unfold prepareGo at h
    cases hgt : u.tiles.get? i with
    | none =>
      rw [hgt] at h
      dsimp only at h
      refine ih u u' hw hlen hreg hne hclosed hpairs hpre ?_ h
      intro j hj
      by_cases hji : j = i
      · subst hji
        intro t2 hgt2 _
        rw [hgt] at hgt2
        exact absurd hgt2 (by simp)
      · refine hdone j ?_
        intro hmem
        rcases List.mem_cons.mp hmem with hc | hc
        · exact hji hc
        · exact hj hc
    | some t =>
      rw [hgt] at h
      dsimp only at h
      by_cases h0 : t.entropy = 0
      · rw [if_pos h0] at h
        refine ih u u' hw hlen hreg hne hclosed hpairs hpre ?_ h
        intro j hj
        by_cases hji : j = i
        · subst hji
          intro t2 hgt2 hnz2
          rw [hgt] at hgt2
          exact absurd (by rw [Option.some.inj hgt2] at h0; exact h0) hnz2
        · refine hdone j ?_
          intro hmem
          rcases List.mem_cons.mp hmem with hc | hc
          · exact hji hc
          · exact hj hc
      · rw [if_neg h0] at h
        rcases hge : getEntropyStep u i with ⟨r, s2⟩
        rw [hge] at h
        cases r with
        | error e2 =>
          dsimp only at h
          exact absurd (congrArg Prod.fst h) (by simp)
        | ok e =>
          dsimp only at h
          obtain ⟨av, hce, hs2⟩ := getEntropyStep_ok_elim u i e s2 hge
          subst hs2
          obtain ⟨v, hvdef⟩ : ∃ v, v = writeEntropy (applyAvail u i av) i e := ⟨_, rfl⟩
          rw [← hvdef] at h
          have hvframe : SameFrame v u := by
            rw [hvdef]
            exact prepare_write_frame u i e av
          obtain ⟨hvw, hvh, hvn, hvr, hvwt, hvlen, hvb, hvs⟩ := hvframe
          have he0 : e ≠ 0 :=
            computeEntropy_ok_ne_zero u i t hw hlen hgt h0 hreg hne e av hce
          have hvgi : v.tiles.get? i =
              some { t with entropy := e, availableTiles := av.getD t.availableTiles } := by
            rw [hvdef]
            exact prepare_write_get?_self u i t e av hgt
          have hvgne : ∀ j, j ≠ i → v.tiles.get? j = u.tiles.get? j := by
            intro j hj
            rw [hvdef]
            exact prepare_write_get?_ne u i j e av (fun hc => hj hc.symm)
          have hresiffv : ∀ m, resolvedAt v m ↔ resolvedAt u m := by
            intro m
            by_cases hmi : m = i
            · subst hmi
              constructor
              · intro hres
                obtain ⟨tm, hgm, h0m⟩ := resolvedAt_elim hres
                rw [hvgi] at hgm
                exfalso
                apply he0
                have hx := Option.some.inj hgm
                rw [← hx] at h0m
                exact h0m
              · intro hres
                obtain ⟨tm, hgm, h0m⟩ := resolvedAt_elim hres
                rw [hgt] at hgm
                exact absurd (by rw [Option.some.inj hgm]; exact h0m) h0
            · unfold resolvedAt entropyAt?
              rw [hvgne m hmi]
          have hnbrv : ∀ i0 d, neighborIndex v.width v.tiles.length i0 d =
              neighborIndex u.width u.tiles.length i0 d := by
            intro i0 d
            rw [hvw, hvlen]
          have hrespres : ∀ m tm, u.tiles.get? m = some tm → tm.entropy = 0 →
              v.tiles.get? m = some tm := by
            intro m tm hgm h0m
            have hmi : m ≠ i := by
              intro hc
              subst hc
              rw [hgt] at hgm
              exact h0 (by rw [Option.some.inj hgm]; exact h0m)
            rw [hvgne m hmi]
            exact hgm
          have hprei := hpre i t hgt h0
          have hOK := refreshed_cellOK u i t hw hlen hreg hne hclosed hgt h0 hprei e av hce
          have hregv : ∀ j tj, v.tiles.get? j = some tj → tj.entropy = 0 →
              ∃ ty r, tj.type = some ty ∧ v.rules.lookup ty = some r := by
            intro j tj hgj h0j
            have hresuj := (hresiffv j).mp (resolvedAt_intro hgj h0j)
            obtain ⟨tu, hgu, h0u⟩ := resolvedAt_elim hresuj
            have hx := hrespres j tu hgu h0u
            rw [hgj] at hx
            rw [Option.some.inj hx, hvr]
            exact hreg j tu hgu h0u
          have hpairsv : ∀ d i1 j1 t1 t2,
              neighborIndex v.width v.tiles.length i1 d = some j1 →
              v.tiles.get? i1 = some t1 → v.tiles.get? j1 = some t2 →
              t1.entropy = 0 → t2.entropy = 0 →
              ∀ ty1 ty2, t1.type = some ty1 → t2.type = some ty2 →
              ty2 ∈ listOf v.rules ty1 d := by
            intro d i1 j1 t1 t2 hnbr hg1 hg2 h01 h02 ty1 ty2 hty1 hty2
            rw [hnbrv] at hnbr
            have hru1 := (hresiffv i1).mp (resolvedAt_intro hg1 h01)
            obtain ⟨tu1, hgu1, h0u1⟩ := resolvedAt_elim hru1
            have hx1 := hrespres i1 tu1 hgu1 h0u1
            rw [hg1] at hx1
            have ht1 := Option.some.inj hx1
            have hru2 := (hresiffv j1).mp (resolvedAt_intro hg2 h02)
            obtain ⟨tu2, hgu2, h0u2⟩ := resolvedAt_elim hru2
            have hx2 := hrespres j1 tu2 hgu2 h0u2
            rw [hg2] at hx2
            have ht2 := Option.some.inj hx2
            rw [hvr]
            exact hpairs d i1 j1 tu1 tu2 hnbr hgu1 hgu2 h0u1 h0u2 ty1 ty2
              (by rw [← ht1]; exact hty1) (by rw [← ht2]; exact hty2)
          have hprev : ∀ j, CellPre v j := by
            intro j t2 hgj hnzj
            by_cases hji : j = i
            · subst hji
              rw [hvgi] at hgj
              have ht2 := Option.some.inj hgj
              rcases hOK with ⟨htop, hemp, _⟩ | ⟨_, _, _, ⟨d2, m, hm, hresm⟩, _⟩
              · left
                constructor
                · rw [← ht2]
                  exact htop
                · rw [← ht2]
                  exact hemp
              · right
                refine ⟨d2, m, ?_, ?_⟩
                · rw [hnbrv]
                  exact hm
                · rw [hresiffv]
                  exact hresm
            · rw [hvgne j hji] at hgj
              rcases hpre j t2 hgj hnzj with hl | ⟨d2, m, hm, hresm⟩
              · left
                exact hl
              · right
                exact ⟨d2, m, by rw [hnbrv]; exact hm, by rw [hresiffv]; exact hresm⟩
          have hdonev : ∀ j, j ∉ rest → CellOK v j := by
            intro j hj t2 hgj hnzj
            by_cases hji : j = i
            · subst hji
              rw [hvgi] at hgj
              have ht2 := Option.some.inj hgj
              rcases hOK with ⟨htop, hemp, hnores⟩ |
                ⟨h1, h2, h3, ⟨d2, m, hm, hresm⟩, h5⟩
              · left
                refine ⟨?_, ?_, ?_⟩
                · rw [← ht2]
                  exact htop
                · rw [← ht2]
                  exact hemp
                · intro d3 m hm3
                  rw [hnbrv] at hm3
                  rw [hresiffv]
                  exact hnores d3 m hm3
              · right
                refine ⟨?_, ?_, ?_, ?_, ?_⟩
                · rw [← ht2]
                  exact h1
                · rw [← ht2]
                  exact h2
                · intro x hx
                  rw [hvr]
                  rw [← ht2] at hx
                  exact h3 x hx
                · exact ⟨d2, m, by rw [hnbrv]; exact hm, by rw [hresiffv]; exact hresm⟩
                · intro d3 m2 tm hm2 hgm h0m ty3 hty3 x hx
                  rw [hnbrv] at hm2
                  have hresum2 := (hresiffv m2).mp (resolvedAt_intro hgm h0m)
                  obtain ⟨tum, hgum, h0um⟩ := resolvedAt_elim hresum2
                  have hxm := hrespres m2 tum hgum h0um
                  rw [hgm] at hxm
                  have htm := Option.some.inj hxm
                  rw [hvr]
                  rw [← ht2] at hx
                  exact h5 d3 m2 tum hm2 hgum h0um ty3 (by rw [← htm]; exact hty3) x hx
            · have hjl : j ∉ i :: rest := by
                intro hmem
                rcases List.mem_cons.mp hmem with hc | hc
                · exact hji hc
                · exact hj hc
              rw [hvgne j hji] at hgj
              rcases hdone j hjl t2 hgj hnzj with ⟨htop, hemp, hnores⟩ |
                ⟨h1, h2, h3, ⟨d2, m, hm, hresm⟩, h5⟩
              · left
                refine ⟨htop, hemp, ?_⟩
                intro d3 m hm3
                rw [hnbrv] at hm3
                rw [hresiffv]
                exact hnores d3 m hm3
              · right
                refine ⟨h1, h2, ?_, ?_, ?_⟩
                · intro x hx
                  rw [hvr]
                  exact h3 x hx
                · exact ⟨d2, m, by rw [hnbrv]; exact hm, by rw [hresiffv]; exact hresm⟩
                · intro d3 m2 tm hm2 hgm h0m ty3 hty3 x hx
                  rw [hnbrv] at hm2
                  have hresum2 := (hresiffv m2).mp (resolvedAt_intro hgm h0m)
                  obtain ⟨tum, hgum, h0um⟩ := resolvedAt_elim hresum2
                  have hxm := hrespres m2 tum hgum h0um
                  rw [hgm] at hxm
                  have htm := Option.some.inj hxm
                  rw [hvr]
                  exact h5 d3 m2 tum hm2 hgum h0um ty3 (by rw [← htm]; exact hty3) x hx
          obtain ⟨hinvf, hrf, hwtf, hwf, hhf, hlf⟩ := ih v u'
            (by rw [hvw]; exact hw) (by rw [hvlen, hvw, hvh]; exact hlen)
            hregv (by rw [hvr]; exact hne) (by rw [hvr]; exact hclosed)
            hpairsv hprev hdonev h
          exact ⟨hinvf, hrf.trans hvr, hwtf.trans hvwt, hwf.trans hvw,
            hhf.trans hvh, hlf.trans hvlen⟩

/-- A uniform pick from a nonempty list yields a value. -/
theorem pickOne_isSome {α : Type} {xs : List α} (hne : xs ≠ []) (s : Nat) :
    ∃ a, (pickOne s xs).1 = some a := by
  unfold pickOne
  dsimp only
  have hlt : floorScale (getRandom s) xs.length < xs.length :=
    floorScale_lt _ _ (getRandom_lt s) (List.length_pos.mpr hne)
  cases hg : xs.get? (floorScale (getRandom s) xs.length) with
  | none =>
    rw [List.get?_eq_none] at hg
    omega
  | some a => exact ⟨a, rfl⟩

/-- A ready buffer has registered rules. -/
theorem isDataReady_ready_rules (s : WFCState) (h : isDataReady s = .ready) :
    s.rules ≠ [] := by
  intro hc
  unfold isDataReady at h
  rw [hc] at h
  simp at h

/-- The driver loop preserves the invariant; a clean exit leaves nothing to
collapse. -/
theorem runLoop_invariant (fuel : Nat) : ∀ (s s2 : WFCState),
    SymmetricRules s.rules → NonemptyRuleLists s.rules → ClosedRules s.rules →
    PositiveWeights s.weighting → Inv s →
    runLoop fuel s = (none, s2) →
    Inv s2 ∧ s2.rules = s.rules ∧ s2.width = s.width ∧ s2.height = s.height ∧
    s2.tiles.length = s.tiles.length ∧ remainingToCollapse s2 = 0 := by
  induction fuel with
  | zero =>
    intro s s2 _ _ _ _ _ h
    unfold runLoop at h
    exact absurd (congrArg Prod.fst h) (by simp)
  | succ n ih =>
    intro s s2 hsym hne hclosed hpos hinv h
    unfold runLoop at h
    rcases hcs : collapseStep s with ⟨r, s3⟩
    rw [hcs] at h
    cases r with
    | error e =>
      dsimp only at h
      exact absurd (congrArg Prod.fst h) (by simp)
    | ok oc =>
      cases oc with
      | finished =>
        dsimp only at h
        have hs3 : s3 = s2 := congrArg Prod.snd h
        obtain ⟨hinv3, hr3, hwt3, hw3, hh3, hl3, _, hfin⟩ :=
          collapseStep_preserves_Inv s .finished s3 hsym hne hclosed hpos hinv hcs
        rw [← hs3]
        exact ⟨hinv3, hr3, hw3, hh3, hl3, hfin rfl⟩
      | yielded =>
        dsimp only at h
        obtain ⟨hinv3, hr3, hwt3, hw3, hh3, hl3, hdec, _⟩ :=
          collapseStep_preserves_Inv s .yielded s3 hsym hne hclosed hpos hinv hcs
        obtain ⟨hinv2, hr2, hw2, hh2, hl2, hrem⟩ := ih s3 s2
          (by rw [hr3]; exact hsym) (by rw [hr3]; exact hne)
          (by rw [hr3]; exact hclosed) (by rw [hwt3]; exact hpos) hinv3 h
        exact ⟨hinv2, hr2.trans hr3, hw2.trans hw3, hh2.trans hh3,
          hl2.trans hl3, hrem⟩

/-- What successful random-start seeding leaves behind: the configuration is
unchanged, every resolved cell carries a registered type, every unresolved
cell is still raw, and at most one cell is resolved. -/
theorem seedRandomStart_post (s s1 : WFCState)
    (hkeys : s.rules ≠ [])
    (hraw : ∀ j t, s.tiles.get? j = some t → t.entropy = ⊤ ∧ t.availableTiles = [])
    (h : seedRandomStart s = (.ok (), s1)) :
    s1.rules = s.rules ∧ s1.weighting = s.weighting ∧ s1.width = s.width ∧
    s1.height = s.height ∧ s1.tiles.length = s.tiles.length ∧
    (∀ j tj, s1.tiles.get? j = some tj → tj.entropy = 0 →
      ∃ ty r, tj.type = some ty ∧ s1.rules.lookup ty = some r) ∧
    (∀ j tj, s1.tiles.get? j = some tj → tj.entropy ≠ 0 →
      tj.entropy = ⊤ ∧ tj.availableTiles = []) ∧
    (∀ j k, resolvedAt s1 j → resolvedAt s1 k → j = k) := by
  unfold seedRandomStart at h
  split at h
  · dsimp only at h
    cases hgf : ({ s with seed := getRandom s.seed } : WFCState).tiles.get?
      (floorScale (getRandom s.seed) s.tiles.length) with
    | none =>
      rw [hgf] at h
      exact absurd (congrArg Prod.fst h) (by simp)
    | some t0 =>
      rw [hgf] at h
      dsimp only at h
      have hkeys2 : rulesKeys { s with seed := getRandom s.seed } ≠ [] := by
        intro hc
        have hc2 : s.rules.map Prod.fst = [] := hc
        exact hkeys (List.map_eq_nil.mp hc2)
      obtain ⟨ty0, hty0⟩ := pickOne_isSome hkeys2 (getRandom s.seed)
      rw [hty0] at h
      have hs1 : s1 = writeEntropy (writeType { { s with seed := getRandom s.seed } with
          seed := (pickOne (getRandom s.seed)
            (rulesKeys { s with seed := getRandom s.seed })).2 }
          (floorScale (getRandom s.seed) s.tiles.length) (some ty0))
          (floorScale (getRandom s.seed) s.tiles.length) 0 :=
        (congrArg Prod.snd h).symm
      obtain ⟨fi, hfidef⟩ : ∃ x, x = floorScale (getRandom s.seed) s.tiles.length :=
        ⟨_, rfl⟩
      rw [← hfidef] at hs1 hgf
      obtain ⟨W, hWdef⟩ : ∃ W, W = ({ { s with seed := getRandom s.seed } with
          seed := (pickOne (getRandom s.seed)
            (rulesKeys { s with seed := getRandom s.seed })).2 } : WFCState) := ⟨_, rfl⟩
      rw [← hWdef] at hs1
      have hWget : W.tiles.get? fi = some t0 := by
        rw [hWdef]
        exact hgf
      have hty1 : (writeType W fi (some ty0)).tiles.get? fi =
          some { t0 with type := some ty0 } :=
        writeType_get?_self W fi (some ty0) t0 hWget
      have hs1fi : s1.tiles.get? fi = some { t0 with type := some ty0, entropy := 0 } := by
        rw [hs1]
        exact writeEntropy_get?_self (writeType W fi (some ty0)) fi 0
          { t0 with type := some ty0 } hty1
      have hs1ne : ∀ j, j ≠ fi → s1.tiles.get? j = s.tiles.get? j := by
        intro j hj
        rw [hs1]
        rw [writeEntropy_get?_ne _ fi j 0 (fun hc => hj hc.symm)]
        rw [writeType_get?_ne W fi j (some ty0) (fun hc => hj hc.symm)]
        rw [hWdef]
      have hs1rules : s1.rules = s.rules := by
        rw [hs1, hWdef]
        exact (sameFrame_trans (writeEntropy_frame _ fi 0)
          (writeType_frame _ fi (some ty0))).2.2.2.1
      have hs1len : s1.tiles.length = s.tiles.length := by
        rw [hs1, hWdef]
        exact (sameFrame_trans (writeEntropy_frame _ fi 0)
          (writeType_frame _ fi (some ty0))).2.2.2.2.2.1
      have hresfi : ∀ j tj, s1.tiles.get? j = some tj → tj.entropy = 0 → j = fi := by
        intro j tj hgj h0
        by_contra hj
        rw [hs1ne j hj] at hgj
        have := (hraw j tj hgj).1
        rw [h0] at this
        exact absurd this.symm (by decide)
      have hty0reg : ∃ r, s.rules.lookup ty0 = some r := by
        have hmem := pickOne_mem hty0
        have hmem2 : ty0 ∈ s.rules.map Prod.fst := hmem
        exact lookup_isSome_of_mem_keys hmem2
      refine ⟨hs1rules, ?_, ?_, ?_, hs1len, ?_, ?_, ?_⟩
      · rw [hs1, hWdef]
        exact (sameFrame_trans (writeEntropy_frame _ fi 0)
          (writeType_frame _ fi (some ty0))).2.2.2.2.1
      · rw [hs1, hWdef]
        exact (sameFrame_trans (writeEntropy_frame _ fi 0)
          (writeType_frame _ fi (some ty0))).1
      · rw [hs1, hWdef]
        exact (sameFrame_trans (writeEntropy_frame _ fi 0)
          (writeType_frame _ fi (some ty0))).2.1
      · intro j tj hgj h0
        have hj := hresfi j tj hgj h0
        subst hj
        rw [hs1fi] at hgj
        have hrec := Option.some.inj hgj
        obtain ⟨r0, hr0⟩ := hty0reg
        refine ⟨ty0, r0, ?_, ?_⟩
        · rw [← hrec]
        · rw [hs1rules]
          exact hr0
      · intro j tj hgj hnz
        by_cases hj : j = fi
        · subst hj
          rw [hs1fi] at hgj
          have hrec := Option.some.inj hgj
          exfalso
          apply hnz
          rw [← hrec]
        · rw [hs1ne j hj] at hgj
          exact hraw j tj hgj
      · intro j k hrj hrk
        obtain ⟨tj, hgj, h0j⟩ := resolvedAt_elim hrj
        obtain ⟨tk, hgk, h0k⟩ := resolvedAt_elim hrk
        rw [hresfi j tj hgj h0j, hresfi k tk hgk h0k]
  · have hs1 : s = s1 := congrArg Prod.snd h
    subst hs1
    refine ⟨rfl, rfl, rfl, rfl, rfl, ?_, ?_, ?_⟩
    · intro j tj hgj h0
      have := (hraw j tj hgj).1
      rw [h0] at this
      exact absurd this.symm (by decide)
    · intro j tj hgj _
      exact hraw j tj hgj
    · intro j k hrj hrk
      obtain ⟨tj, hgj, h0j⟩ := resolvedAt_elim hrj
      have := (hraw j tj hgj).1
      rw [h0j] at this
      exact absurd this.symm (by decide)

/-- Success shape of `generateLevel`: the guard passed, seeding, preparation
and the loop all succeeded, and the final state is the loop state marked
collapsed. -/
theorem generateLevel_ok_shape (s0 sf : WFCState) (logged : Option WfcErr)
    (h : generateLevel s0 = (.ok logged, sf)) :
    isDataReady s0 = BufferState.ready ∧
    ∃ s1 s2 s4,
      seedRandomStart { s0 with bufferstate := isDataReady s0 } = (.ok (), s1) ∧
      prepareTileDataForCollapsing s1 = (.ok (), s2) ∧
      runLoop (({ s2 with bufferstate := BufferState.collapsing } : WFCState).tiles.length + 1)
        { s2 with bufferstate := BufferState.collapsing } = (logged, s4) ∧
      sf = { s4 with bufferstate := BufferState.collapsed } := by
  unfold generateLevel at h
  dsimp only at h
  split at h
  · exact absurd (congrArg Prod.fst h) (by simp)
  · next hguard =>
    have hready : isDataReady s0 = BufferState.ready := not_not.mp hguard
    refine ⟨hready, ?_⟩
    rcases hs1 : seedRandomStart { s0 with bufferstate := isDataReady s0 } with ⟨r1, s1⟩
    rw [hs1] at h
    cases r1 with
    | error e =>
      dsimp only at h
      exact absurd (congrArg Prod.fst h) (by simp)
    | ok v =>
      cases v
      dsimp only at h
      rcases hs2 : prepareTileDataForCollapsing s1 with ⟨r2, s2⟩
      rw [hs2] at h
      cases r2 with
      | error e =>
        dsimp only at h
        exact absurd (congrArg Prod.fst h) (by simp)
      | ok v2 =>
        cases v2
        dsimp only at h
        rcases hrl : runLoop
            (({ s2 with bufferstate := BufferState.collapsing } : WFCState).tiles.length + 1)
            { s2 with bufferstate := BufferState.collapsing } with ⟨lg, s4⟩
        rw [hrl] at h
        dsimp only at h
        have hfst := congrArg Prod.fst h
        have hsnd := congrArg Prod.snd h
        dsimp only at hfst hsnd
        injection hfst with hlg
        rw [hlg] at hrl
        have hs2b : prepareTileDataForCollapsing s1 = (.ok (), s2) := hs2
        exact ⟨s1, s2, s4, rfl, hs2b, hrl, hsnd.symm⟩

/-- The invariant plus an exhausted frontier give the specification's local
consistency. -/
theorem locallyConsistent_of_inv (s : WFCState) (hinv : Inv s) :
    LocallyConsistent s := by
  intro i d j hnbr hresi hresj
  obtain ⟨ti, hgi, h0i⟩ := resolvedAt_elim hresi
  obtain ⟨tj, hgj, h0j⟩ := resolvedAt_elim hresj
  obtain ⟨tyi, ri, htyi, _⟩ := hinv.typed i ti hgi h0i
  obtain ⟨tyj, rj, htyj, _⟩ := hinv.typed j tj hgj h0j
  refine ⟨tyi, tyj, ?_, ?_, ?_⟩
  · unfold typeAt
    rw [hgi]
    exact htyi
  · unfold typeAt
    rw [hgj]
    exact htyj
  · exact hinv.pairs d i j ti tj hnbr hgi hgj h0i h0j tyi tyj htyi htyj

/-- With nothing left to collapse, every stored cell is resolved. -/
theorem all_resolved_of_remaining_zero (s : WFCState)
    (h : remainingToCollapse s = 0) :
    ∀ j t, s.tiles.get? j = some t → t.entropy = 0 := by
  intro j t hgt
  by_contra hnz
  unfold remainingToCollapse at h
  have hmem : t ∈ s.tiles.filter fun t => t.entropy != 0 := by
    rw [List.mem_filter]
    exact ⟨List.get?_mem hgt, by simpa using hnz⟩
  rw [List.length_eq_zero.mp h] at hmem
  simp at hmem

/-- The invariant is indifferent to the buffer flag. -/
theorem inv_set_bufferstate (s : WFCState) (b : BufferState) (h : Inv s) :
    Inv { s with bufferstate := b } :=
  ⟨h.hw, h.hlen, h.typed, h.pairs, h.cells⟩

/-- C1, amended: the original claim is refuted by
`successful_run_violates_adjacency` (an asymmetric rule table yields a
successful run with an adjacency violation).  Under the natural
well-formedness conditions on the configuration — a positive width, a tile
buffer of exactly `width * height` fresh cells (infinite entropy, no stored
candidates), a directionally symmetric and closed rule table with four
nonempty lists per type, and strictly positive weights — every run of
`generateLevel` that terminates successfully (the generator returned and no
stepping error was logged) produces a grid in which every cell is resolved
and, for every pair of adjacent resolved cells, the neighbour's type is a
member of the rule list of the cell's type for the corresponding direction. -/
theorem successful_run_locally_consistent (s0 sf : WFCState)
    (hw : 1 ≤ s0.width) (hlen : s0.tiles.length = s0.width * s0.height)
    (hsym : SymmetricRules s0.rules) (hne : NonemptyRuleLists s0.rules)
    (hclosed : ClosedRules s0.rules) (hpos : PositiveWeights s0.weighting)
    (hraw : ∀ j t, s0.tiles.get? j = some t → t.entropy = ⊤ ∧ t.availableTiles = [])
    (hrun : generateLevel s0 = (.ok none, sf)) :
    LocallyConsistent sf ∧ ∀ j t, sf.tiles.get? j = some t → t.entropy = 0 := by
  obtain ⟨hready, s1, s2, s4, hs1, hs2, hrl, hsf⟩ :=
    generateLevel_ok_shape s0 sf none hrun
  have hrules0 : s0.rules ≠ [] := isDataReady_ready_rules s0 hready
  obtain ⟨h1rules, h1wt, h1w, h1h, h1len, h1typed, h1raw, h1one⟩ :=
    seedRandomStart_post { s0 with bufferstate := isDataReady s0 } s1
      hrules0 hraw hs1
  have h1rules' : s1.rules = s0.rules := h1rules
  have h1wt' : s1.weighting = s0.weighting := h1wt
  have h1w' : s1.width = s0.width := h1w
  have h1h' : s1.height = s0.height := h1h
  have h1len' : s1.tiles.length = s0.tiles.length := h1len
  have hw1 : 1 ≤ s1.width := by rw [h1w']; exact hw
  have hlen1 : s1.tiles.length = s1.width * s1.height := by
    rw [h1len', h1w', h1h']
    exact hlen
  have hpairs1 : ∀ d i j ti tj, neighborIndex s1.width s1.tiles.length i d = some j →
      s1.tiles.get? i = some ti → s1.tiles.get? j = some tj →
      ti.entropy = 0 → tj.entropy = 0 → ∀ tyi tyj, ti.type = some tyi →
      tj.type = some tyj → tyj ∈ listOf s1.rules tyi d := by
    intro d i j ti tj hnbr hgi hgj h0i h0j tyi tyj _ _
    exfalso
    have hij := h1one i j (resolvedAt_intro hgi h0i) (resolvedAt_intro hgj h0j)
    have hilt : i < s1.tiles.length := get?_some_lt hgi
    have hbn := neighborIndex_bounds_len s1 i j d hw1 hlen1 hilt hnbr
    exact hbn.2 hij.symm
  have hpre1 : ∀ j, CellPre s1 j := fun j t hg hnz => Or.inl (h1raw j t hg hnz)
  have hdone1 : ∀ j, j ∉ List.range s1.tiles.length → CellOK s1 j := by
    intro j hj t hgt _
    exact absurd (List.mem_range.mpr (get?_some_lt hgt)) hj
  have hs2' : prepareGo (List.range s1.tiles.length) s1 = (.ok (), s2) := hs2
  obtain ⟨hinv2, h2rules, h2wt, h2w, h2h, h2len⟩ :=
    prepareGo_establishes (List.range s1.tiles.length) s1 s2 hw1 hlen1 h1typed
      (by rw [h1rules']; exact hne) (by rw [h1rules']; exact hclosed)
      hpairs1 hpre1 hdone1 hs2'
  have hsym3 : SymmetricRules
      ({ s2 with bufferstate := BufferState.collapsing } : WFCState).rules := by
    have hx : SymmetricRules s2.rules := by
      rw [h2rules, h1rules']
      exact hsym
    exact hx
  have hne3 : NonemptyRuleLists
      ({ s2 with bufferstate := BufferState.collapsing } : WFCState).rules := by
    have hx : NonemptyRuleLists s2.rules := by
      rw [h2rules, h1rules']
      exact hne
    exact hx
  have hclosed3 : ClosedRules
      ({ s2 with bufferstate := BufferState.collapsing } : WFCState).rules := by
    have hx : ClosedRules s2.rules := by
      rw [h2rules, h1rules']
      exact hclosed
    exact hx
  have hpos3 : PositiveWeights
      ({ s2 with bufferstate := BufferState.collapsing } : WFCState).weighting := by
    have hx : PositiveWeights s2.weighting := by
      rw [h2wt, h1wt']
      exact hpos
    exact hx
  have hinv3 : Inv { s2 with bufferstate := BufferState.collapsing } :=
    inv_set_bufferstate s2 BufferState.collapsing hinv2
  obtain ⟨hinv4, h4rules, h4w, h4h, h4len, hrem4⟩ :=
    runLoop_invariant
      (({ s2 with bufferstate := BufferState.collapsing } : WFCState).tiles.length + 1)
      { s2 with bufferstate := BufferState.collapsing } s4
      hsym3 hne3 hclosed3 hpos3 hinv3 hrl
  constructor
  · rw [hsf]
    exact locallyConsistent_of_inv { s4 with bufferstate := BufferState.collapsed }
      (inv_set_bufferstate s4 BufferState.collapsed hinv4)
  · rw [hsf]
    intro j t hgt
    exact all_resolved_of_remaining_zero s4 hrem4 j t hgt

/-- A fully symmetric two-type configuration on a 1×2 row with seed 1,
whose run succeeds. -/
def cfgSym : WFCState :=
  setTiles (setWeights (setRules (mkWFC ⟨2, 1, some 1⟩ 0) rulesAB) []) [] true

/-- Witness for the amended C1: the symmetric two-type configuration runs
successfully and the theorem yields local consistency and full resolution
of its output grid. -/
theorem successful_run_locally_consistent_witness :
    LocallyConsistent (generateLevel cfgSym).2 ∧
    ∀ j t, ((generateLevel cfgSym).2).tiles.get? j = some t → t.entropy = 0 :=
  successful_run_locally_consistent cfgSym (generateLevel cfgSym).2
    (by decide) (by decide)
    (symmetricRulesB_spec _ (by decide))
    (nonemptyRuleListsB_spec _ (by decide))
    (closedRulesB_spec _ (by decide))
    (positiveWeightsB_spec _ (by decide))
    (fun j t hg => by
      have hmem := List.get?_mem hg
      have hall : ∀ x ∈ cfgSym.tiles,
          (x.entropy == ⊤ && x.availableTiles == List.nil) = true :=
        List.all_eq_true.mp (by decide)
      have hx := hall t hmem
      rw [Bool.and_eq_true] at hx
      exact ⟨by simpa using hx.1, by simpa using hx.2⟩)
    (by decide)

end WfcModel
